import Mathlib

/-!
Verification of `matrix_multiply/matrix.go`.

A shallow embedding of the matrix multiplication demonstration.  A Go slice
`[]float64` is a `List F`; the element type `F` only needs a zero, an addition
and a multiplication, and no law of arithmetic is assumed unless a theorem
says so (float64 addition is not associative).  An index expression that is
out of range makes the enclosing function yield `none` (a Go run-time panic).

The source fixes the dimensions as the constants `p`, `q`, `r`; the embedding
takes them as arguments so that the functions can be evaluated on small inputs.
-/

set_option linter.unusedSectionVars false

namespace MatrixMultiply

/-- The dimensions fixed by the `const` block of the source. -/
def Consts.p : Nat := 1000

/-- The shared dimension fixed by the `const` block of the source. -/
def Consts.q : Nat := 200

/-- The number of rows of `mat2` fixed by the `const` block of the source. -/
def Consts.r : Nat := 3000

/-- The three slices a multiplier can reach: its two operands and the output
`prod` it allocates. -/
structure Mem (F : Type) where
  mat1 : List F
  mat2 : List F
  prod : List F

/-- A float64 value, up to the sign of a zero and the payload of a NaN: the
finite double `m * 2^e` (with `m` odd, or `m = 0` and `e = 0`), an infinity, or
a NaN. -/
inductive F64 where
  | fin (m : Int) (e : Int)
  | inf (neg : Bool)
  | nan
  deriving DecidableEq

/-- The number of binary digits of `n`, with `fuel` halvings at most. -/
def bitLengthAux : Nat → Nat → Nat
  | 0, _ => 0
  | fuel + 1, n => if n = 0 then 0 else bitLengthAux fuel (n / 2) + 1

/-- The number of binary digits of `n`. -/
def bitLength (n : Nat) : Nat := bitLengthAux n n

/-- The quotient `n / 2^drop` rounded to the nearest integer, a tie going to the
even neighbour. -/
def roundHalfEven (n drop : Nat) : Nat :=
  if 2 * (n % 2 ^ drop) < 2 ^ drop then n / 2 ^ drop
  else if 2 ^ drop < 2 * (n % 2 ^ drop) then n / 2 ^ drop + 1
  else if n / 2 ^ drop % 2 = 0 then n / 2 ^ drop
  else n / 2 ^ drop + 1

/-- The pair `(m, e)` with the factors 2 of `m` moved into the exponent. -/
def stripAux : Nat → Nat → Int → Nat × Int
  | 0, m, e => (m, e)
  | fuel + 1, m, e => if m % 2 = 0 ∧ m ≠ 0 then stripAux fuel (m / 2) (e + 1) else (m, e)

/-- The float64 nearest to the exact value `± n * 2^e` (round to nearest, ties
to even): 53 significant bits, no bit below `2^-1074`, and an infinity once the
rounded value reaches `2^1024`. -/
def F64.ofExact (neg : Bool) (n : Nat) (e : Int) : F64 :=
  if n = 0 then F64.fin 0 0
  else
    let qe : Int := max (e + bitLength n - 53) (-1074)
    let m := roundHalfEven n (qe - e).toNat
    let e2 := max qe e
    if m = 0 then F64.fin 0 0
    else if 1024 < (bitLength m : Int) + e2 then F64.inf neg
    else F64.fin (if neg then -((stripAux m m e2).1 : Int) else (stripAux m m e2).1)
      (stripAux m m e2).2

/-- The float64 addition. -/
def F64.add : F64 → F64 → F64
  | F64.fin m1 e1, F64.fin m2 e2 =>
    F64.ofExact (decide (m1 * 2 ^ (e1 - min e1 e2).toNat + m2 * 2 ^ (e2 - min e1 e2).toNat < 0))
      (m1 * 2 ^ (e1 - min e1 e2).toNat + m2 * 2 ^ (e2 - min e1 e2).toNat).natAbs (min e1 e2)
  | F64.inf a, F64.inf b => if a = b then F64.inf a else F64.nan
  | F64.inf a, F64.fin _ _ => F64.inf a
  | F64.fin _ _, F64.inf b => F64.inf b
  | _, _ => F64.nan

/-- The float64 multiplication. -/
def F64.mul : F64 → F64 → F64
  | F64.fin m1 e1, F64.fin m2 e2 =>
    F64.ofExact (decide (m1 * m2 < 0)) (m1 * m2).natAbs (e1 + e2)
  | F64.inf a, F64.inf b => F64.inf (xor a b)
  | F64.inf a, F64.fin m _ => if m = 0 then F64.nan else F64.inf (xor a (decide (m < 0)))
  | F64.fin m _, F64.inf b => if m = 0 then F64.nan else F64.inf (xor (decide (m < 0)) b)
  | _, _ => F64.nan

instance : Zero F64 := ⟨F64.fin 0 0⟩

instance : Add F64 := ⟨F64.add⟩

instance : Mul F64 := ⟨F64.mul⟩

/-- The library test `scalar.EqualWithinAbsOrRel(a, b, tol, tol)` for the
tolerance `tol = 1 / tolInv`, decided on the exact values: the two doubles are
equal, or their distance is at most `tol`, or it is at most `tol` times the
larger of the two magnitudes.  A NaN is within tolerance of nothing. -/
def F64.equalWithinAbsOrRel (tolInv : Nat) : F64 → F64 → Bool
  | F64.fin m1 e1, F64.fin m2 e2 =>
    let a : Int := m1 * 2 ^ (e1 - min e1 e2).toNat
    let b : Int := m2 * 2 ^ (e2 - min e1 e2).toNat
    decide (a = b)
      || decide ((a - b).natAbs * tolInv * 2 ^ (min e1 e2).toNat ≤ 2 ^ (-(min e1 e2)).toNat)
      || decide ((a - b).natAbs * tolInv ≤ max a.natAbs b.natAbs)
  | F64.inf a, F64.inf b => a == b
  | _, _ => false

/-- The library test `floats.EqualApprox(s1, s2, tol)` on float64 slices: the
lengths agree and every pair of elements is within the tolerance. -/
def F64.equalApprox (tolInv : Nat) (s1 s2 : List F64) : Bool :=
  decide (s1.length = s2.length)
    && (List.zipWith (F64.equalWithinAbsOrRel tolInv) s1 s2).all (fun b => b)

section Defs

variable {F : Type} [Zero F] [Add F] [Mul F]

/-- The initial memory of every multiplier: `prod := make([]float64, p*r)`. -/
def Mem.init (p r : Nat) (mat1 mat2 : List F) : Mem F :=
  { mat1 := mat1, mat2 := mat2, prod := List.replicate (p * r) 0 }

/-- The statement `prod[ii] += mat1[a] * mat2[b]`. -/
def Mem.mulAcc (m : Mem F) (ii a b : Nat) : Option (Mem F) := do
  let x ← m.mat1[a]?
  let y ← m.mat2[b]?
  let c ← m.prod[ii]?
  some { m with prod := m.prod.set ii (c + x * y) }

/-- The loop `for k := 0; k < q; k++ { prod[ii] += mat1[i*q+k] * mat2[j*q+k] }`
with `ii := i*r + j`. -/
def kLoop (q r i j : Nat) (m : Mem F) : Option (Mem F) :=
  (List.range q).foldlM (fun m k => m.mulAcc (i * r + j) (i * q + k) (j * q + k)) m

/-- The loop over `j` of `basicMul`. -/
def jLoop (q r i : Nat) (m : Mem F) : Option (Mem F) :=
  (List.range r).foldlM (fun m j => kLoop q r i j m) m

/-- The body of `basicMul` as a transformer of the memory. -/
def basicMulMem (p q r : Nat) (mat1 mat2 : List F) : Option (Mem F) :=
  (List.range p).foldlM (fun m i => jLoop q r i m) (Mem.init p r mat1 mat2)

/-- The function `basicMul`: the returned slice, or `none` on a panic. -/
def basicMul (p q r : Nat) (mat1 mat2 : List F) : Option (List F) :=
  (basicMulMem p q r mat1 mat2).map Mem.prod

/-- The reference value of a cell: start from `init` and add the products
`mat1[i*q+k] * mat2[j*q+k]` one at a time for `k = 0, 1, ..., n-1`. -/
def dotFrom (q : Nat) (mat1 mat2 : List F) (i j : Nat) (init : F) (n : Nat) : F :=
  (List.range n).foldl (fun acc k => acc + mat1.getD (i * q + k) 0 * mat2.getD (j * q + k) 0) init

/-- The reference product at the flat offset `t = i*r + j`. -/
def cellRef (q r : Nat) (mat1 mat2 : List F) (t : Nat) : F :=
  dotFrom q mat1 mat2 (t / r) (t % r) 0 q

/-- The output in which exactly the cells at offsets below `T` are finished. -/
def prodUpTo (p q r : Nat) (mat1 mat2 : List F) (T : Nat) : List F :=
  (List.range (p * r)).map (fun t => if t < T then cellRef q r mat1 mat2 t else 0)

/-- The reference product as a slice of length `p*r`. -/
def refProd (p q r : Nat) (mat1 mat2 : List F) : List F :=
  (List.range (p * r)).map (cellRef q r mat1 mat2)

/-- What a call of a concurrent multiplier does under a given schedule. -/
inductive Outcome (α : Type) where
  /-- The call came back from `wg.Wait()` and returned this slice. -/
  | returned (x : α)
  /-- A goroutine indexed a slice out of range. -/
  | panicked
  /-- The schedule ends while the call is still blocked in `wg.Wait()`. -/
  | waiting
  deriving DecidableEq

/-- The state of a call of `concurrentMulInner`: the memory, and for the
goroutine `dot(i, j)` the number of steps it has taken.  Steps `0 .. q-1` are
the iterations of its loop over `k`, step `q` is `wg.Done()`. -/
structure InnerState (F : Type) where
  mem : Mem F
  pc : Nat × Nat → Nat

/-- One step of the goroutine `dot(i, j)` with `u = (i, j)`: the next iteration
`prod[ii] += mat1[i*q+k] * mat2[j*q+k]` of its loop, or `wg.Done()` after the
loop.  A pair that names no goroutine, or a goroutine that is over, leaves the
state as it is. -/
def innerStep (p q r : Nat) (s : InnerState F) (u : Nat × Nat) : Option (InnerState F) :=
  if u.1 < p ∧ u.2 < r then
    if s.pc u < q then
      (s.mem.mulAcc (u.1 * r + u.2) (u.1 * q + s.pc u) (u.2 * q + s.pc u)).map
        (fun m => { mem := m, pc := Function.update s.pc u (s.pc u + 1) })
    else if s.pc u = q then
      some { s with pc := Function.update s.pc u (q + 1) }
    else some s
  else some s

/-- The state in which `concurrentMulInner` blocks in `wg.Wait()`: `prod` is
allocated and all `p*r` goroutines are started, none has run yet. -/
def InnerState.init (p r : Nat) (mat1 mat2 : List F) : InnerState F :=
  { mem := Mem.init p r mat1 mat2, pc := fun _ => 0 }

/-- The wait group of `concurrentMulInner` is at zero: every goroutine
`dot(i, j)` has called `wg.Done()`. -/
def InnerState.wgZero (p q r : Nat) (s : InnerState F) : Bool :=
  (List.range p).all (fun i => (List.range r).all (fun j => decide (q < s.pc (i, j))))

/-- The goroutines of `concurrentMulInner` run in the interleaving `sched`. -/
def concurrentMulInnerRun (p q r : Nat) (mat1 mat2 : List F) (sched : List (Nat × Nat)) :
    Option (InnerState F) :=
  sched.foldlM (innerStep p q r) (InnerState.init p r mat1 mat2)

/-- The function `concurrentMulInner` under the interleaving `sched` of its
goroutines. -/
def concurrentMulInner (p q r : Nat) (mat1 mat2 : List F) (sched : List (Nat × Nat)) :
    Outcome (List F) :=
  match concurrentMulInnerRun p q r mat1 mat2 sched with
  | none => Outcome.panicked
  | some s => if s.wgZero p q r then Outcome.returned s.mem.prod else Outcome.waiting

/-- The state of a call of `concurrentMulOuterBad`: the memory, for the
goroutine `outer(k)` the number of steps it has taken, and how often the mutex
`sy` has been locked.  Steps `0 .. p*r-1` of a goroutine are the iterations of
its two nested loops in loop order, step `p*r` is `wg.Done()`. -/
structure OuterBadState (F : Type) where
  mem : Mem F
  pc : Nat → Nat
  locks : Nat

/-- One step of the goroutine `outer(k)` of `concurrentMulOuterBad`.  Iteration
`n` of the nested loops has `i = n / r` and `j = n % r`; its critical section
`sy.Lock(); prod[ii] += mat1[i*q+k] * mat2[j*q+k]; sy.Unlock()` is one step,
since the mutex lets no other goroutine run inside it. -/
def outerBadStep (p q r : Nat) (s : OuterBadState F) (k : Nat) : Option (OuterBadState F) :=
  if k < q then
    if s.pc k < p * r then
      (s.mem.mulAcc (s.pc k / r * r + s.pc k % r) (s.pc k / r * q + k) (s.pc k % r * q + k)).map
        (fun m => { mem := m, pc := Function.update s.pc k (s.pc k + 1), locks := s.locks + 1 })
    else if s.pc k = p * r then
      some { s with pc := Function.update s.pc k (p * r + 1) }
    else some s
  else some s

/-- The state in which `concurrentMulOuterBad` blocks in `wg.Wait()`. -/
def OuterBadState.init (p r : Nat) (mat1 mat2 : List F) : OuterBadState F :=
  { mem := Mem.init p r mat1 mat2, pc := fun _ => 0, locks := 0 }

/-- The wait group of `concurrentMulOuterBad` is at zero. -/
def OuterBadState.wgZero (p q r : Nat) (s : OuterBadState F) : Bool :=
  (List.range q).all (fun k => decide (p * r < s.pc k))

/-- The goroutines of `concurrentMulOuterBad` run in the interleaving `sched`. -/
def concurrentMulOuterBadRun (p q r : Nat) (mat1 mat2 : List F) (sched : List Nat) :
    Option (OuterBadState F) :=
  sched.foldlM (outerBadStep p q r) (OuterBadState.init p r mat1 mat2)

/-- The function `concurrentMulOuterBad` under the interleaving `sched`. -/
def concurrentMulOuterBad (p q r : Nat) (mat1 mat2 : List F) (sched : List Nat) :
    Outcome (List F) :=
  match concurrentMulOuterBadRun p q r mat1 mat2 sched with
  | none => Outcome.panicked
  | some s => if s.wgZero p q r then Outcome.returned s.mem.prod else Outcome.waiting

/-- The loop over `j` of `outer(k)` that stores `mat1[i*q+k] * mat2[j*q+k]` at
`mat[i*r+j]`. -/
def fillRow (q r k i : Nat) (mat1 mat2 mat : List F) : Option (List F) :=
  (List.range r).foldlM (fun mat j => do
    let x ← mat1[i * q + k]?
    let y ← mat2[j * q + k]?
    if i * r + j < mat.length then some (mat.set (i * r + j) (x * y)) else none) mat

/-- The private buffer of `outer(k)`: `mat := make([]float64, p*r)` followed by
the nested loops that store `mat1[i*q+k] * mat2[j*q+k]` at `mat[i*r+j]`. -/
def fillBuf (p q r k : Nat) (mat1 mat2 : List F) : Option (List F) :=
  (List.range p).foldlM (fun mat i => fillRow q r k i mat1 mat2 mat) (List.replicate (p * r) 0)

/-- The library call `floats.Add(dst, s)`: it panics when the two lengths
differ and otherwise adds `s` to `dst` element by element. -/
def floatsAdd (dst s : List F) : Option (List F) :=
  if dst.length = s.length then some (List.zipWith (fun a b => a + b) dst s) else none

/-- The state of a call of `concurrentMulOuter`: the memory, for the goroutine
`outer(k)` the number of steps it has taken and its private buffer `mat`, and
how often the mutex `sy` has been locked.  Step 0 fills the private buffer,
step 1 is `sy.Lock(); floats.Add(prod, mat); sy.Unlock()`, step 2 is
`wg.Done()`. -/
structure OuterState (F : Type) where
  mem : Mem F
  pc : Nat → Nat
  buf : Nat → List F
  locks : Nat

/-- One step of the goroutine `outer(k)` of `concurrentMulOuter`.  Filling the
private buffer is one step: it writes the buffer of this goroutine only and
reads the operands, which no goroutine writes.  The critical section
`sy.Lock(); floats.Add(prod, mat); sy.Unlock()` is one step, since the mutex
lets no other goroutine run inside it. -/
def outerStep (p q r : Nat) (s : OuterState F) (k : Nat) : Option (OuterState F) :=
  if k < q then
    if s.pc k = 0 then
      (fillBuf p q r k s.mem.mat1 s.mem.mat2).map
        (fun mat => { s with pc := Function.update s.pc k 1, buf := Function.update s.buf k mat })
    else if s.pc k = 1 then
      (floatsAdd s.mem.prod (s.buf k)).map
        (fun pr => { s with mem := { s.mem with prod := pr }, pc := Function.update s.pc k 2,
                            locks := s.locks + 1 })
    else if s.pc k = 2 then
      some { s with pc := Function.update s.pc k 3 }
    else some s
  else some s

/-- The state in which `concurrentMulOuter` blocks in `wg.Wait()`. -/
def OuterState.init (p r : Nat) (mat1 mat2 : List F) : OuterState F :=
  { mem := Mem.init p r mat1 mat2, pc := fun _ => 0, buf := fun _ => [], locks := 0 }

/-- The wait group of `concurrentMulOuter` is at zero. -/
def OuterState.wgZero (q : Nat) (s : OuterState F) : Bool :=
  (List.range q).all (fun k => decide (2 < s.pc k))

/-- The goroutines of `concurrentMulOuter` run in the interleaving `sched`. -/
def concurrentMulOuterRun (p q r : Nat) (mat1 mat2 : List F) (sched : List Nat) :
    Option (OuterState F) :=
  sched.foldlM (outerStep p q r) (OuterState.init p r mat1 mat2)

/-- The function `concurrentMulOuter` under the interleaving `sched`. -/
def concurrentMulOuter (p q r : Nat) (mat1 mat2 : List F) (sched : List Nat) :
    Outcome (List F) :=
  match concurrentMulOuterRun p q r mat1 mat2 sched with
  | none => Outcome.panicked
  | some s => if s.wgZero q then Outcome.returned s.mem.prod else Outcome.waiting

/-- The threads of a call of `concurrentMulOuterChan`: the goroutines
`outer(k)`, the anonymous goroutine that receives from `rc`, and the caller
that waits in `wg.Wait()` and then returns `prod`. -/
inductive ChanThread where
  | worker (k : Nat)
  | reducer
  | caller
  deriving DecidableEq

/-- The state of a call of `concurrentMulOuterChan`.  For `outer(k)`, step 0
fills the private buffer, step 1 is the send `rc <- mat`, step 2 is
`wg.Done()`.  The receiving goroutine has finished `recvd` iterations of its
loop and, between its receive and its `floats.Add`, holds the slice `x` in
`holding`.  `ret` is the content of `prod` when the caller returned it. -/
structure ChanState (F : Type) where
  mem : Mem F
  pc : Nat → Nat
  buf : Nat → List F
  recvd : Nat
  holding : Option (List F)
  ret : Option (List F)

/-- The wait group of `concurrentMulOuterChan` is at zero. -/
def ChanState.wgZero (q : Nat) (s : ChanState F) : Bool :=
  (List.range q).all (fun k => decide (2 < s.pc k))

/-- One step of a thread of `concurrentMulOuterChan`.  The channel `rc` is
unbuffered: the send of `outer(k)` happens together with the receive
`x := <-rc`, so it can only be taken while the receiving goroutine is at its
receive (it holds no slice and its loop is not over); a thread that cannot
move leaves the state as it is.  The caller returns once the wait group is at
zero. -/
def chanStep (p q r : Nat) (s : ChanState F) (t : ChanThread) : Option (ChanState F) :=
  match t with
  | ChanThread.worker k =>
    if k < q then
      if s.pc k = 0 then
        (fillBuf p q r k s.mem.mat1 s.mem.mat2).map
          (fun mat => { s with pc := Function.update s.pc k 1, buf := Function.update s.buf k mat })
      else if s.pc k = 1 then
        if s.holding.isNone ∧ s.recvd < q then
          some { s with pc := Function.update s.pc k 2, holding := some (s.buf k) }
        else some s
      else if s.pc k = 2 then
        some { s with pc := Function.update s.pc k 3 }
      else some s
    else some s
  | ChanThread.reducer =>
    match s.holding with
    | some x =>
      (floatsAdd s.mem.prod x).map
        (fun pr => { s with mem := { s.mem with prod := pr }, recvd := s.recvd + 1, holding := none })
    | none => some s
  | ChanThread.caller =>
    if s.ret.isNone ∧ s.wgZero q then some { s with ret := some s.mem.prod } else some s

/-- The state of `concurrentMulOuterChan` once `prod` and `rc` are made and all
goroutines are started. -/
def ChanState.init (p r : Nat) (mat1 mat2 : List F) : ChanState F :=
  { mem := Mem.init p r mat1 mat2, pc := fun _ => 0, buf := fun _ => [], recvd := 0,
    holding := none, ret := none }

/-- The threads of `concurrentMulOuterChan` run in the interleaving `sched`. -/
def concurrentMulOuterChanRun (p q r : Nat) (mat1 mat2 : List F) (sched : List ChanThread) :
    Option (ChanState F) :=
  sched.foldlM (chanStep p q r) (ChanState.init p r mat1 mat2)

/-- The function `concurrentMulOuterChan` under the interleaving `sched`. -/
def concurrentMulOuterChan (p q r : Nat) (mat1 mat2 : List F) (sched : List ChanThread) :
    Outcome (List F) :=
  match concurrentMulOuterChanRun p q r mat1 mat2 sched with
  | none => Outcome.panicked
  | some s =>
    match s.ret with
    | some x => Outcome.returned x
    | none => Outcome.waiting

/-- The product `mat1[i*q+k] * mat2[j*q+k]` that `outer(k)` contributes to the
cell at the flat offset `t = i*r + j`. -/
def contrib (q r : Nat) (mat1 mat2 : List F) (k t : Nat) : F :=
  mat1.getD (t / r * q + k) 0 * mat2.getD (t % r * q + k) 0

/-- The private buffer of `outer(k)` in which exactly the cells at offsets
below `T` are filled. -/
def rank1UpTo (p q r : Nat) (mat1 mat2 : List F) (k T : Nat) : List F :=
  (List.range (p * r)).map (fun t => if t < T then contrib q r mat1 mat2 k t else 0)

/-- The rank-1 contribution of column `k` as a slice of length `p*r`. -/
def rank1 (p q r : Nat) (mat1 mat2 : List F) (k : Nat) : List F :=
  (List.range (p * r)).map (contrib q r mat1 mat2 k)

/-- The shape invariant of `concurrentMulOuterBad`: the operands are untouched
and `prod` keeps its length. -/
structure OuterBadShape (p r : Nat) (mat1 mat2 : List F) (s : OuterBadState F) : Prop where
  m1 : s.mem.mat1 = mat1
  m2 : s.mem.mat2 = mat2
  len : s.mem.prod.length = p * r

/-- The shape invariant of `concurrentMulOuter`: the operands are untouched,
`prod` keeps its length, and a private buffer that has been filled holds the
rank-1 contribution of its column. -/
structure OuterShape (p q r : Nat) (mat1 mat2 : List F) (s : OuterState F) : Prop where
  m1 : s.mem.mat1 = mat1
  m2 : s.mem.mat2 = mat2
  len : s.mem.prod.length = p * r
  bufs : ∀ k, k < q → 1 ≤ s.pc k → s.buf k = rank1 p q r mat1 mat2 k

/-- The shape invariant of `concurrentMulOuterChan`: the operands are
untouched, `prod` keeps its length, a private buffer that has been filled holds
the rank-1 contribution of its column, and the slice the receiving goroutine
holds is the buffer of a goroutine that has sent. -/
structure ChanShape (p q r : Nat) (mat1 mat2 : List F) (s : ChanState F) : Prop where
  m1 : s.mem.mat1 = mat1
  m2 : s.mem.mat2 = mat2
  len : s.mem.prod.length = p * r
  bufs : ∀ k, k < q → 1 ≤ s.pc k → s.buf k = rank1 p q r mat1 mat2 k
  hold : ∀ x, s.holding = some x → ∃ k, k < q ∧ 2 ≤ s.pc k ∧ x = rank1 p q r mat1 mat2 k

/-- The send of `outer(k)` can be taken: the goroutine is at its send and the
receiving goroutine is at its receive. -/
abbrev ChanState.canSend (q : Nat) (s : ChanState F) (k : Nat) : Prop :=
  s.pc k = 1 ∧ s.holding.isNone = true ∧ s.recvd < q

/-- The program counters after a step of the thread `t`. -/
def ChanState.pcAfter (q : Nat) (s : ChanState F) (t : ChanThread) : Nat → Nat :=
  match t with
  | ChanThread.worker k =>
    if k < q ∧ (s.pc k = 0 ∨ s.canSend q k ∨ s.pc k = 2) then
      Function.update s.pc k (s.pc k + 1)
    else s.pc
  | _ => s.pc

/-- The slice held by the receiving goroutine after a step of the thread `t`. -/
def ChanState.holdingAfter (p q r : Nat) (mat1 mat2 : List F) (s : ChanState F)
    (t : ChanThread) : Option (List F) :=
  match t with
  | ChanThread.worker k =>
    if k < q ∧ s.canSend q k then some (rank1 p q r mat1 mat2 k) else s.holding
  | ChanThread.reducer => none
  | ChanThread.caller => s.holding

/-- The content of `prod` after a step of the thread `t`. -/
def ChanState.prodAfter (s : ChanState F) (t : ChanThread) : List F :=
  match t, s.holding with
  | ChanThread.reducer, some x => List.zipWith (fun a b => a + b) s.mem.prod x
  | _, _ => s.mem.prod

/-- After the steps of `sched` every goroutine `outer(k)` of
`concurrentMulOuterChan` has called `wg.Done()` and the receiving goroutine
holds no buffer that it has not added to `prod`. -/
def chanAllMerged (p q r : Nat) (mat1 mat2 : List F) (sched : List ChanThread) : Bool :=
  match concurrentMulOuterChanRun p q r mat1 mat2 sched with
  | some s => s.wgZero q && s.holding.isNone
  | none => false

/-- What a call of a multiplier leaves to `main`: the two operands as they are
after the call, and the slice the call returned. -/
structure Call (F : Type) where
  mat1 : List F
  mat2 : List F
  ret : List F

/-- The sequencing of two steps of `main`: a panic or a blocked call ends the
run. -/
def Outcome.bind {α β : Type} (o : Outcome α) (k : α → Outcome β) : Outcome β :=
  match o with
  | Outcome.returned a => k a
  | Outcome.panicked => Outcome.panicked
  | Outcome.waiting => Outcome.waiting

/-- The call `basicMul(mat1, mat2)` as `main` sees it. -/
def basicMulCall (p q r : Nat) (mat1 mat2 : List F) : Outcome (Call F) :=
  match basicMulMem p q r mat1 mat2 with
  | none => Outcome.panicked
  | some m => Outcome.returned { mat1 := m.mat1, mat2 := m.mat2, ret := m.prod }

/-- The call `concurrentMulInner(mat1, mat2)` as `main` sees it. -/
def concurrentMulInnerCall (p q r : Nat) (sched : List (Nat × Nat)) (mat1 mat2 : List F) :
    Outcome (Call F) :=
  match concurrentMulInnerRun p q r mat1 mat2 sched with
  | none => Outcome.panicked
  | some s =>
    if s.wgZero p q r then
      Outcome.returned { mat1 := s.mem.mat1, mat2 := s.mem.mat2, ret := s.mem.prod }
    else Outcome.waiting

/-- The call `concurrentMulOuter(mat1, mat2)` as `main` sees it. -/
def concurrentMulOuterCall (p q r : Nat) (sched : List Nat) (mat1 mat2 : List F) :
    Outcome (Call F) :=
  match concurrentMulOuterRun p q r mat1 mat2 sched with
  | none => Outcome.panicked
  | some s =>
    if s.wgZero q then
      Outcome.returned { mat1 := s.mem.mat1, mat2 := s.mem.mat2, ret := s.mem.prod }
    else Outcome.waiting

/-- The call `concurrentMulOuterChan(mat1, mat2)` with the content that `prod`
has at the moment the call returns; the slice itself, which `main` keeps, is
`concurrentMulOuterChanLive`. -/
def concurrentMulOuterChanCall (p q r : Nat) (sched : List ChanThread) (mat1 mat2 : List F) :
    Outcome (Call F) :=
  match concurrentMulOuterChanRun p q r mat1 mat2 sched with
  | none => Outcome.panicked
  | some s =>
    match s.ret with
    | some x => Outcome.returned { mat1 := s.mem.mat1, mat2 := s.mem.mat2, ret := x }
    | none => Outcome.waiting

/-- The product of two `int` values: the result wraps around at 64 bits. -/
def intMul (a b : Int) : Int :=
  (a * b + 9223372036854775808) % 18446744073709551616 - 9223372036854775808

/-- The function `genmat`: `x := make([]float64, p*q)` and one draw of
`rand.NormFloat64()` per element, in index order.  The product `p*q` is an
`int` product; `make` panics when the length is negative or larger than
`maxLen`, the largest length for which the runtime allocates a `[]float64`.
The generator is the stream `rng` of its successive draws and `pos` counts the
draws made so far. -/
def genmat (maxLen : Nat) (p q : Int) (rng : Nat → F) (pos : Nat) : Outcome (List F × Nat) :=
  if intMul p q < 0 ∨ (maxLen : Int) < intMul p q then Outcome.panicked
  else
    Outcome.returned
      ((List.range (intMul p q).toNat).foldl (fun st i => (st.1.set i (rng st.2), st.2 + 1))
        (List.replicate (intMul p q).toNat 0, pos))

/-- A line that `main` prints. -/
inductive Line where
  /-- The line `Duration: <d>`. -/
  | duration (d : Int)
  /-- The line `Some results differ (<i>, <j>)`. -/
  | differ (i j : Nat)
  deriving DecidableEq

/-- The text of a line, given the `%v` format of a `time.Duration`. -/
def Line.render (fmtDuration : Int → String) : Line → String
  | Line.duration d => "Duration: " ++ fmtDuration d
  | Line.differ i j => "Some results differ (" ++ toString i ++ ", " ++ toString j ++ ")"

/-- A slice that `main` holds in `prod`: either a slice that no goroutine
writes any more, or the slice that `concurrentMulOuterChan` returned, whose
content is the `prod` of the goroutines that call left behind. -/
inductive Slice (F : Type) where
  | fixed (x : List F)
  | live

/-- What a call of a multiplier leaves to `main`: the two operands, the slice
it returned, and the goroutines it left running, if any. -/
structure Returned (F : Type) where
  mat1 : List F
  mat2 : List F
  ret : Slice F
  bg : Option (ChanState F)

/-- A call that leaves no goroutine behind. -/
def Call.settled (c : Call F) : Returned F :=
  { mat1 := c.mat1, mat2 := c.mat2, ret := Slice.fixed c.ret, bg := none }

/-- The call `concurrentMulOuterChan(mat1, mat2)` as `main` sees it: once the
caller is past `wg.Wait()` it returns the slice `prod`, which the receiving
goroutine shares and may still add to; `sched` is the interleaving up to the
moment `main` goes on. -/
def concurrentMulOuterChanLive (p q r : Nat) (sched : List ChanThread) (mat1 mat2 : List F) :
    Outcome (Returned F) :=
  match concurrentMulOuterChanRun p q r mat1 mat2 sched with
  | none => Outcome.panicked
  | some s =>
    match s.ret with
    | some _ =>
      Outcome.returned { mat1 := s.mem.mat1, mat2 := s.mem.mat2, ret := Slice.live, bg := some s }
    | none => Outcome.waiting

/-- The variables of `main`: the operands, the collected outputs `prod`, the
lines printed so far, the number of readings of the clock made so far, and the
goroutines that a call has left running. -/
structure MainState (F : Type) where
  mat1 : List F
  mat2 : List F
  prod : List (Slice F)
  out : List Line
  ticks : Nat
  bg : Option (ChanState F)

/-- The slice `methods` of `main`: `basicMul`, `concurrentMulInner`,
`concurrentMulOuter` and `concurrentMulOuterChan`, in this order (the line that
also lists `concurrentMulOuterBad` is commented out in the source).  The
schedules say how the goroutines of the three concurrent calls interleave. -/
def methods (p q r : Nat) (sI : List (Nat × Nat)) (sO : List Nat) (sC : List ChanThread) :
    List (List F → List F → Outcome (Returned F)) :=
  [fun mat1 mat2 => (basicMulCall p q r mat1 mat2).bind (fun c => Outcome.returned c.settled),
    fun mat1 mat2 =>
      (concurrentMulInnerCall p q r sI mat1 mat2).bind (fun c => Outcome.returned c.settled),
    fun mat1 mat2 =>
      (concurrentMulOuterCall p q r sO mat1 mat2).bind (fun c => Outcome.returned c.settled),
    concurrentMulOuterChanLive p q r sC]

/-- One iteration of the loop `for _, f := range methods` of `main`: read the
clock, call `f(mat1, mat2)`, read the clock, print the duration and append the
result to `prod`. -/
def mainIter (clock : Nat → Int) (st : MainState F)
    (f : List F → List F → Outcome (Returned F)) : Outcome (MainState F) :=
  (f st.mat1 st.mat2).bind (fun c =>
    Outcome.returned
      { mat1 := c.mat1, mat2 := c.mat2, prod := st.prod ++ [c.ret],
        out := st.out ++ [Line.duration (clock (st.ticks + 1) - clock st.ticks)],
        ticks := st.ticks + 2,
        bg := (match c.bg with
          | some s => some s
          | none => st.bg) })

/-- The content of a slice of `prod` at the moment it is read. -/
def Slice.read (bg : Option (ChanState F)) : Slice F → List F
  | Slice.fixed x => x
  | Slice.live =>
    match bg with
    | some s => s.mem.prod
    | none => []

/-- The goroutines a call has left behind take the steps `steps`; a panic in a
goroutine ends the program. -/
def bgRun (p q r : Nat) (bg : Option (ChanState F)) (steps : List ChanThread) :
    Outcome (Option (ChanState F)) :=
  match bg with
  | none => Outcome.returned none
  | some s =>
    match steps.foldlM (chanStep p q r) s with
    | none => Outcome.panicked
    | some s2 => Outcome.returned (some s2)

/-- The state of the two loops over `prod` at the end of `main`: the goroutines
still running, the lines printed so far and the number of comparisons made. -/
structure ScanState (F : Type) where
  bg : Option (ChanState F)
  out : List Line
  n : Nat

/-- The body of the inner loop for the pair `x = prod[i]`, `y = prod[j]`:
`if !floats.EqualApprox(x, y, 1e-12) { fmt.Printf(...) }`, with `approx` for the
library test.  The goroutines still running take the steps `gaps n` before the
`n`-th comparison reads the two slices; a comparison, like a `floats.Add`, is
taken as one step. -/
def compareStep (p q r : Nat) (approx : List F → List F → Bool) (gaps : Nat → List ChanThread)
    (st : ScanState F) (ix jy : Nat × Slice F) : Outcome (ScanState F) :=
  (bgRun p q r st.bg (gaps st.n)).bind (fun bg =>
    Outcome.returned
      { bg := bg,
        out := (if !approx (ix.2.read bg) (jy.2.read bg) then st.out ++ [Line.differ ix.1 jy.1]
          else st.out),
        n := st.n + 1 })

/-- The two nested loops `for i, x := range prod { for j, y := range prod {...} }`
at the end of `main`. -/
def scan (p q r : Nat) (approx : List F → List F → Bool) (gaps : Nat → List ChanThread)
    (prod : List (Slice F)) (st : ScanState F) : Outcome (ScanState F) :=
  prod.enum.foldl (fun acc ix =>
    prod.enum.foldl (fun acc jy =>
      acc.bind (fun st => compareStep p q r approx gaps st ix jy)) acc) (Outcome.returned st)

/-- The mismatch lines that the two loops print when the slices do not change
while they are compared: a line for every pair `(i, j)` of positions for which
the test `approx` fails, in loop order. -/
def mismatchLines (approx : List F → List F → Bool) (prod : List (List F)) : List Line :=
  prod.enum.foldl (fun out ix =>
    prod.enum.foldl (fun out jy =>
      if !approx ix.2 jy.2 then out ++ [Line.differ ix.1 jy.1] else out) out) []

/-- The function `main`: the lines it prints, for the stream `rng` of random
draws, the successive readings `clock` of `time.Now()`, the library test
`approx`, the schedules of the three concurrent calls, and the steps `gaps`
that the goroutines left behind take between the comparisons. -/
def main (maxLen p q r : Nat) (rng : Nat → F) (clock : Nat → Int)
    (approx : List F → List F → Bool)
    (sI : List (Nat × Nat)) (sO : List Nat) (sC : List ChanThread)
    (gaps : Nat → List ChanThread) : Outcome (List Line) :=
  (genmat maxLen (p : Int) (q : Int) rng 0).bind (fun g1 =>
    (genmat maxLen (r : Int) (q : Int) rng g1.2).bind (fun g2 =>
      ((methods p q r sI sO sC).foldl (fun acc f => acc.bind (fun st => mainIter clock st f))
        (Outcome.returned
          { mat1 := g1.1, mat2 := g2.1, prod := [], out := [], ticks := 0, bg := none })).bind
        (fun st =>
          (scan p q r approx gaps st.prod { bg := st.bg, out := st.out, n := 0 }).bind
            (fun s => Outcome.returned s.out))))

/-- The schedule of `concurrentMulOuterChan` in which the goroutines
`outer(0)`, ..., `outer(n-1)` run one after the other, each filling its buffer,
sending it, seeing it added by the receiving goroutine and calling
`wg.Done()`. -/
def chanInTurn (n : Nat) : List ChanThread :=
  (List.range n).flatMap (fun k =>
    [ChanThread.worker k, ChanThread.worker k, ChanThread.reducer, ChanThread.worker k])

/-- The invariant of `concurrentMulInner`: the operands are untouched, and the
cell of `dot(i, j)` holds the fold over the `k` that goroutine has done. -/
structure InnerInv (p q r : Nat) (mat1 mat2 : List F) (s : InnerState F) : Prop where
  m1 : s.mem.mat1 = mat1
  m2 : s.mem.mat2 = mat2
  len : s.mem.prod.length = p * r
  pcLe : ∀ i j, i < p → j < r → s.pc (i, j) ≤ q + 1
  cell : ∀ i j, i < p → j < r →
    s.mem.prod[i * r + j]? = some (dotFrom q mat1 mat2 i j 0 (min (s.pc (i, j)) q))

/-- The shared output after the private buffers of the goroutines `ks` have
been added to it by `floats.Add`, one whole buffer at a time, in the order of
`ks`. -/
def mergeAll (p q r : Nat) (mat1 mat2 : List F) (ks : List Nat) : List F :=
  ks.foldl (fun pr k => List.zipWith (fun a b => a + b) pr (rank1 p q r mat1 mat2 k))
    (List.replicate (p * r) 0)

/-- The merge invariant of `concurrentMulOuter`: `ks` lists, in the order of
their critical sections and without repetition, the goroutines that are past
`floats.Add`, and `prod` is the result of adding their buffers. -/
structure OuterMerged (p q r : Nat) (mat1 mat2 : List F) (s : OuterState F) (ks : List Nat) :
    Prop where
  nodup : ks.Nodup
  mem : ∀ k, k ∈ ks ↔ k < q ∧ 2 ≤ s.pc k
  prod : s.mem.prod = mergeAll p q r mat1 mat2 ks

/-- The merge invariant of `concurrentMulOuterChan`: `ks` lists, in the order
in which the receiving goroutine added them and without repetition, the
goroutines whose buffer is in `prod`; every goroutine that has sent is in `ks`,
except the one whose buffer the receiving goroutine holds. -/
structure ChanMerged (p q r : Nat) (mat1 mat2 : List F) (s : ChanState F) (ks : List Nat) :
    Prop where
  nodup : ks.Nodup
  sent : ∀ k, k ∈ ks → k < q ∧ 2 ≤ s.pc k
  prod : s.mem.prod = mergeAll p q r mat1 mat2 ks
  idle : s.holding = none → ∀ k, k < q → 2 ≤ s.pc k → k ∈ ks
  held : ∀ x, s.holding = some x → ∃ k0, k0 < q ∧ 2 ≤ s.pc k0 ∧ k0 ∉ ks
    ∧ x = rank1 p q r mat1 mat2 k0 ∧ ∀ k, k < q → 2 ≤ s.pc k → k = k0 ∨ k ∈ ks

end Defs

section ExactDefs

variable {F : Type} [AddCommMonoid F] [Mul F]

/-- The value invariant of `concurrentMulOuterBad` over exact arithmetic: the
cell at offset `t` is the sum of the contributions of the goroutines that are
past iteration `t`. -/
def OuterBadSum (p q r : Nat) (mat1 mat2 : List F) (s : OuterBadState F) : Prop :=
  ∀ t, t < p * r →
    s.mem.prod[t]? = some (∑ k in (Finset.range q).filter (fun k => t < s.pc k),
      contrib q r mat1 mat2 k t)

/-- The value invariant of `concurrentMulOuter` over exact arithmetic: `prod`
is the sum of the private buffers that have been merged. -/
def OuterSum (p q r : Nat) (mat1 mat2 : List F) (s : OuterState F) : Prop :=
  ∀ t, t < p * r →
    s.mem.prod[t]? = some (∑ k in (Finset.range q).filter (fun k => 2 ≤ s.pc k),
      contrib q r mat1 mat2 k t)

/-- The value invariant of `concurrentMulOuterChan` over exact arithmetic, for
the set `D` of goroutines that have sent: `prod` is the sum of the buffers sent,
up to the buffer the receiving goroutine holds and has not added yet. -/
def ChanSumOn (p q r : Nat) (mat1 mat2 : List F) (D : Finset Nat) (holding : Option (List F))
    (prod : List F) : Prop :=
  match holding with
  | none => ∀ t, t < p * r → prod[t]? = some (∑ k in D, contrib q r mat1 mat2 k t)
  | some x => ∃ k0, k0 ∈ D ∧ x = rank1 p q r mat1 mat2 k0 ∧
      ∀ t, t < p * r → prod[t]? = some (∑ k in D.erase k0, contrib q r mat1 mat2 k t)

/-- The value invariant of `concurrentMulOuterChan` over exact arithmetic. -/
def ChanSum (p q r : Nat) (mat1 mat2 : List F) (s : ChanState F) : Prop :=
  ChanSumOn p q r mat1 mat2 ((Finset.range q).filter (fun k => 2 ≤ s.pc k)) s.holding s.mem.prod

end ExactDefs

end MatrixMultiply

namespace Reddit

/-- How a call ends: it returns a value, it panics, or the step budget of the
embedding is used up. -/
inductive Run (β : Type) where
  | done (b : β)
  | panicked
  | timeout
  deriving DecidableEq

section UniqueDefs

variable {α : Type} [LinearOrder α]

/-- The loops of `unique` on the sorted slice:
`for j < len(x) { for ; j < len(x); j++ { if x[j] != x[i] { i++; x[i] = x[j]; break } } }`.
Both loops test `j < len(x)`, so one step is: leave when `j < len(x)` fails;
otherwise compare `x[j]` with `x[i]` and either do `i++; x[i] = x[j]` (the
`break` skips `j++`) or do `j++`.  An index out of range panics. -/
def uniqueLoop : Nat → List α → Nat → Nat → Run (List α × Nat)
  | 0, _, _, _ => Run.timeout
  | fuel + 1, x, i, j =>
    if j < x.length then
      match x[j]?, x[i]? with
      | some a, some b =>
        if a ≠ b then
          if i + 1 < x.length then uniqueLoop fuel (x.set (i + 1) a) (i + 1) j
          else Run.panicked
        else uniqueLoop fuel x i (j + 1)
      | _, _ => Run.panicked
    else Run.done (x, i)

/-- The body of `unique` up to its `return`: `sort.StringSlice(x).Sort()`, which
leaves the ascending arrangement of `x` (there is only one, whatever the sorting
algorithm), then the loops from `i = j = 0`.  The result is the content of the
provided slice and the value of `i`. -/
def uniqueMem (x : List α) : Run (List α × Nat) :=
  uniqueLoop (2 * x.length + 1) (x.insertionSort (fun a b => a ≤ b)) 0 0

/-- The function `unique`.  `spare` is what the backing array of `x` holds
between `len(x)` and `cap(x)`: the slice expression `x[0 : i+1]` panics when
`i+1` exceeds `cap(x)` and otherwise returns the first `i+1` elements of the
backing array. -/
def unique (x spare : List α) : Run (List α) :=
  match uniqueMem x with
  | Run.done (arr, i) =>
    if i + 1 ≤ arr.length + spare.length then Run.done ((arr ++ spare).take (i + 1))
    else Run.panicked
  | Run.panicked => Run.panicked
  | Run.timeout => Run.timeout

/-- The invariant of the loops of `unique` over the sorted slice `s`: nothing at
or after `j` has been overwritten, the elements at `0 .. i` are strictly
ascending, each of them is a value of `s` at a position up to `j`, and every
value of `s` before `j` is among them. -/
structure UniqueInv (s arr : List α) (i j : Nat) : Prop where
  len : arr.length = s.length
  ij : i ≤ j
  jn : j ≤ s.length
  ilt : i < s.length
  tail : ∀ t, j ≤ t → arr[t]? = s[t]?
  sorted : ∀ t1 t2 a b, t1 < t2 → t2 ≤ i → arr[t1]? = some a → arr[t2]? = some b → a < b
  sub : ∀ t a, t ≤ i → arr[t]? = some a → ∃ u, u ≤ j ∧ s[u]? = some a
  sup : ∀ u a, u < j → s[u]? = some a → ∃ t, t ≤ i ∧ arr[t]? = some a

end UniqueDefs

/-- The type `record`: one decoded comment. -/
structure Record where
  Author : String
  Author_created_utc : Int
  Body : String
  Created_utc : Int
  Id : String
  Subreddit : String
  Subreddit_id : String
  Link_id : String
  Permalink : String
  Subreddit_name_prefixed : String

/-- The package variables `allUsers`, `threadUsers` and `userThreads`.  A map
is the function from a key to its value; an absent key reads as the nil
slice. -/
structure Data where
  allUsers : List String
  threadUsers : String → List String
  userThreads : String → List String

/-- The variables after `threadUsers = make(...)` and `userThreads = make(...)`
in `main`. -/
def Data.init : Data :=
  { allUsers := [], threadUsers := fun _ => [], userThreads := fun _ => [] }

/-- The thread id `r.Subreddit_id + ":" + r.Link_id`. -/
def Record.threadId (r : Record) : String :=
  r.Subreddit_id ++ ":" ++ r.Link_id

/-- The body of the loop of `getData` for one decoded record `r`. -/
def getDataStep (d : Data) (r : Record) : Data :=
  if r.Author = "[deleted]" then d
  else
    { allUsers := d.allUsers ++ [r.Author],
      threadUsers := Function.update d.threadUsers r.threadId
        (d.threadUsers r.threadId ++ [r.Author]),
      userThreads := Function.update d.userThreads r.Author
        (d.userThreads r.threadId ++ [r.threadId]) }

/-- The function `getData` on the sequence of records that the decoder
yields. -/
def getData (d : Data) (records : List Record) : Data :=
  records.foldl getDataStep d

/-- The function `propConnectedUB` over exact arithmetic; `threadUsers` lists
the values of the map in the order in which `range` visits them. -/
def propConnectedUB {α : Type} (allUsers : List α) (threadUsers : List (List α)) : ℚ :=
  let n : ℚ := (allUsers.length : ℚ)
  let te : ℚ := threadUsers.foldl (fun te th => te + (th.length : ℚ) * ((th.length : ℚ) - 1)) 0
  let tpe : ℚ := n * (n - 1)
  te / tpe

/-- The ordered pairs of distinct users that appear together in at least one
thread. -/
def connectedPairs {α : Type} [DecidableEq α] (allUsers : List α)
    (threadUsers : List (List α)) : Finset (α × α) :=
  (allUsers.toFinset ×ˢ allUsers.toFinset).filter
    (fun uv => uv.1 ≠ uv.2 ∧ ∃ th ∈ threadUsers, uv.1 ∈ th ∧ uv.2 ∈ th)

/-- The proportion of the ordered pairs of distinct users that are connected. -/
def propConnected {α : Type} [DecidableEq α] (allUsers : List α)
    (threadUsers : List (List α)) : ℚ :=
  ((connectedPairs allUsers threadUsers).card : ℚ)
    / ((allUsers.toFinset.card : ℚ) * ((allUsers.toFinset.card : ℚ) - 1))

end Reddit

namespace Notable

/-- The type `notable.Person`. -/
structure Person (F : Type) where
  PrsLabel : String
  BYear : Int
  BLocLabel : String
  BLocLat : F
  BLocLong : F
  DYear : Int
  DLocLabel : String
  DLocLat : F
  DLocLong : F
  Gender : String
  deriving DecidableEq

/-- The type `notable.People`: one slice per attribute. -/
structure People (F : Type) where
  PrsLabel : List String
  BYear : List Int
  BLocLabel : List String
  BLocLat : List F
  BLocLong : List F
  DYear : List Int
  DLocLabel : List String
  DLocLat : List F
  DLocLong : List F
  Gender : List String
  deriving DecidableEq

/-- The type `birthOrDeath` with its two constants. -/
inductive BirthOrDeath where
  | birth
  | death
  deriving DecidableEq

/-- The read `m[k]` of a Go map held as the list of its entries: an absent key
reads as the zero value. -/
def mapGet {V : Type} [Zero V] (m : List (String × V)) (k : String) : V :=
  match m.find? (fun e => e.1 = k) with
  | some e => e.2
  | none => 0

/-- The write `m[k] = v` of a Go map held as the list of its entries: the entry
of `k` is replaced, or added when `k` is absent. -/
def mapSet {V : Type} (m : List (String × V)) (k : String) (v : V) : List (String × V) :=
  if m.any (fun e => e.1 = k) then m.map (fun e => if e.1 = k then (k, v) else e)
  else m ++ [(k, v)]

/-- The two maps `year` and `num` of `getStats`. -/
structure Stats (F : Type) where
  year : List (String × F)
  num : List (String × Int)
  deriving DecidableEq

section StatsDefs

variable {F : Type} [Zero F] [Add F] [Div F]

/-- The maps after `year := make(map[string]float64)` and
`num := make(map[string]int)`. -/
def Stats.empty : Stats F :=
  { year := [], num := [] }

/-- The two statements `year[loc] += y` and `num[loc]++`. -/
def Stats.accumulate (st : Stats F) (loc : String) (y : F) : Stats F :=
  { year := mapSet st.year loc (mapGet st.year loc + y),
    num := mapSet st.num loc (mapGet st.num loc + 1) }

/-- The loop `for k := range year { year[k] /= float64(num[k]) }`; `ofInt` is
the conversion `float64(.)` of an `int`. -/
def Stats.means (ofInt : Int → F) (st : Stats F) : Stats F :=
  { year := st.year.map (fun e => (e.1, e.2 / ofInt (mapGet st.num e.1))), num := st.num }

end StatsDefs

namespace LocationStats

variable {F : Type} [Zero F] [Add F] [Div F]

/-- The function `getStats` of `location_stats.go` on the rows that the decoder
yields, up to the two maps it has built when it writes the CSV file from `year`
and passes `num` to `entropy`.  `parseFloat` is `strconv.ParseFloat(., 64)`;
the row with `nc == 0` is skipped, a row whose year does not parse is skipped,
an index out of range panics. -/
def getStats (parseFloat : String → Option F) (ofInt : Int → F) (bd : BirthOrDeath)
    (rows : List (List String)) : Option (Stats F) :=
  let locix := if bd = BirthOrDeath.death then 8 else 3
  let yearix := if bd = BirthOrDeath.death then 7 else 2
  (rows.enum.foldlM (fun (st : Stats F) (e : Nat × List String) =>
      if e.1 = 0 then some st
      else
        match e.2[yearix]? with
        | none => none
        | some ys =>
          match parseFloat ys with
          | none => some st
          | some y =>
            match e.2[locix]? with
            | none => none
            | some loc => some (st.accumulate loc y)) Stats.empty).map (Stats.means ofInt)

end LocationStats

namespace ConvertStructs

variable {F : Type}

/-- The body of the loop of `convert` in `convert_structs.go` for one data row:
the four coordinates are parsed with `strconv.ParseFloat`, then the two years
with `strconv.ParseInt(., 10, 64)`, then the struct is built.  A parse error or
an index out of range panics. -/
def convertRow (parseFloat : String → Option F) (parseInt : String → Option Int)
    (row : List String) : Option (Person F) := do
  let bloclat ← (row[5]?).bind parseFloat
  let bloclon ← (row[6]?).bind parseFloat
  let dloclat ← (row[10]?).bind parseFloat
  let dloclon ← (row[11]?).bind parseFloat
  let byear ← (row[2]?).bind parseInt
  let dyear ← (row[7]?).bind parseInt
  let prsLabel ← row[0]?
  let bLocLabel ← row[3]?
  let dLocLabel ← row[8]?
  let gender ← row[12]?
  some { PrsLabel := prsLabel, BYear := byear, BLocLabel := bLocLabel, BLocLat := bloclat,
         BLocLong := bloclon, DYear := dyear, DLocLabel := dLocLabel, DLocLat := dloclat,
         DLocLong := dloclon, Gender := gender }

/-- The function `convert` of `convert_structs.go`: the stream of structs it
encodes, for the rows that the decoder yields.  The row with `nc == 0` is
skipped. -/
def convert (parseFloat : String → Option F) (parseInt : String → Option Int)
    (rows : List (List String)) : Option (List (Person F)) :=
  rows.enum.foldlM (fun (out : List (Person F)) (e : Nat × List String) =>
    if e.1 = 0 then some out
    else (convertRow parseFloat parseInt e.2).map (fun person => out ++ [person])) []

end ConvertStructs

namespace ConvertStructsCols

variable {F : Type}

/-- The function `convert` of `convert_structs_cols.go`: every attribute of
every decoded person is appended to its column. -/
def convert (persons : List (Person F)) : People F :=
  persons.foldl (fun people person =>
    { PrsLabel := people.PrsLabel ++ [person.PrsLabel],
      BYear := people.BYear ++ [person.BYear],
      BLocLabel := people.BLocLabel ++ [person.BLocLabel],
      BLocLat := people.BLocLat ++ [person.BLocLat],
      BLocLong := people.BLocLong ++ [person.BLocLong],
      DYear := people.DYear ++ [person.DYear],
      DLocLabel := people.DLocLabel ++ [person.DLocLabel],
      DLocLat := people.DLocLat ++ [person.DLocLat],
      DLocLong := people.DLocLong ++ [person.DLocLong],
      Gender := people.Gender ++ [person.Gender] })
    { PrsLabel := [], BYear := [], BLocLabel := [], BLocLat := [], BLocLong := [], DYear := [],
      DLocLabel := [], DLocLat := [], DLocLong := [], Gender := [] }

end ConvertStructsCols

namespace LocationStatsStructs

variable {F : Type} [Zero F] [Add F] [Div F]

/-- The function `getStats` of `location_stats_structs.go` on the structs that
the decoder yields, up to the two maps. -/
def getStats (ofInt : Int → F) (bd : BirthOrDeath) (persons : List (Person F)) : Stats F :=
  (persons.foldl (fun (st : Stats F) person =>
    match bd with
    | BirthOrDeath.birth => st.accumulate person.BLocLabel (ofInt person.BYear)
    | BirthOrDeath.death => st.accumulate person.DLocLabel (ofInt person.DYear))
    Stats.empty).means ofInt

end LocationStatsStructs

namespace LocationStatsStructsCols

variable {F : Type} [Zero F] [Add F] [Div F]

/-- The function `getStats` of `location_stats_structs_cols.go` on the decoded
columns, up to the two maps.  The loop runs over `i < len(people.PrsLabel)`; an
index out of range panics. -/
def getStats (ofInt : Int → F) (bd : BirthOrDeath) (people : People F) : Option (Stats F) :=
  ((List.range people.PrsLabel.length).foldlM (fun (st : Stats F) (i : Nat) =>
    match bd with
    | BirthOrDeath.birth =>
      match people.BLocLabel[i]?, people.BYear[i]? with
      | some loc, some y => some (st.accumulate loc (ofInt y))
      | _, _ => none
    | BirthOrDeath.death =>
      match people.DLocLabel[i]?, people.DYear[i]? with
      | some loc, some y => some (st.accumulate loc (ofInt y))
      | _, _ => none)
    Stats.empty).map (Stats.means ofInt)

end LocationStatsStructsCols

end Notable

namespace MatrixMultiply

section ListFacts

theorem set_getD_self {α : Type} (l : List α) (i : Nat) (d : α) : l.set i (l.getD i d) = l := by
  apply List.ext_getElem?
  intro n
  rw [List.getElem?_set]
  split
  · subst_vars
    split
    · rename_i h
      simp [List.getD_eq_getElem _ _ h, List.getElem?_eq_getElem h]
    · rename_i h
      simp [List.getElem?_eq_none (Nat.le_of_not_lt h)]
  · rfl

theorem foldlM_invariant {σ ε : Type} (step : σ → ε → Option σ) (I : σ → Prop)
    (hstep : ∀ s e, I s → ∃ s2, step s e = some s2 ∧ I s2) (sched : List ε) :
    ∀ s, I s → ∃ s2, sched.foldlM step s = some s2 ∧ I s2 := by
  induction sched with
  | nil => intro s hs; exact ⟨s, rfl, hs⟩
  | cons e rest ih =>
    intro s hs
    obtain ⟨s1, h1, hs1⟩ := hstep s e hs
    obtain ⟨s2, h2, hs2⟩ := ih s1 hs1
    refine ⟨s2, ?_, hs2⟩
    simp only [List.foldlM_cons, h1, Option.some_bind, Option.bind_eq_bind]
    exact h2

theorem foldlM_count_le {σ : Type} (step : σ → Nat → Option σ) (pc : σ → Nat → Nat) (N : Nat)
    (valid : Nat → Prop)
    (hstep : ∀ s e s2, step s e = some s2 →
      ∀ v, valid v → (if v = e ∧ pc s v ≤ N then pc s v + 1 else pc s v) ≤ pc s2 v)
    (sched : List Nat) :
    ∀ s s2, sched.foldlM step s = some s2 →
      ∀ v, valid v → min (pc s v + sched.count v) (N + 1) ≤ pc s2 v := by
  induction sched with
  | nil =>
    intro s s2 h v _
    simp only [List.foldlM_nil] at h
    cases h
    simp
  | cons e rest ih =>
    intro s s2 h v hv
    simp only [List.foldlM_cons, Option.bind_eq_bind] at h
    cases h1 : step s e with
    | none => rw [h1] at h; cases h
    | some s1 =>
      rw [h1] at h
      have hrest := ih s1 s2 h v hv
      have hone := hstep s e s1 h1 v hv
      by_cases he : v = e
      · subst he
        simp only [List.count_cons_self]
        by_cases hN : pc s v ≤ N
        · rw [if_pos ⟨rfl, hN⟩] at hone
          omega
        · rw [if_neg (fun h => hN h.2)] at hone
          omega
      · have hb : (e == v) = false := by simpa using fun h => he h.symm
        rw [if_neg (fun h => he h.1)] at hone
        simp only [List.count_cons, hb]
        simp only [Bool.false_eq_true, if_false, Nat.add_zero]
        omega

theorem foldlM_preserved {σ ε β : Type} (step : σ → ε → Option σ) (f : σ → β)
    (h : ∀ s e s2, step s e = some s2 → f s2 = f s) (l : List ε) :
    ∀ s s2, l.foldlM step s = some s2 → f s2 = f s := by
  induction l with
  | nil =>
    intro s s2 hrun
    simp only [List.foldlM_nil] at hrun
    cases hrun; rfl
  | cons e rest ih =>
    intro s s2 hrun
    simp only [List.foldlM_cons, Option.bind_eq_bind] at hrun
    cases h1 : step s e with
    | none => rw [h1] at hrun; cases hrun
    | some s1 =>
      rw [h1] at hrun
      rw [ih s1 s2 hrun, h s e s1 h1]

theorem foldl_ite_append {α β : Type} (c : α → Bool) (g : α → β) (l : List α) :
    ∀ out : List β, l.foldl (fun out a => if c a then out ++ [g a] else out) out
      = out ++ (l.filter c).map g := by
  induction l with
  | nil => intro out; simp
  | cons a rest ih =>
    intro out
    simp only [List.foldl_cons, ih, List.filter_cons]
    cases c a <;> simp

theorem foldl_append_flatMap {α β : Type} (h : α → List β) (l : List α) :
    ∀ out : List β, l.foldl (fun out a => out ++ h a) out = out ++ l.flatMap h := by
  induction l with
  | nil => intro out; simp
  | cons a rest ih =>
    intro out
    simp only [List.foldl_cons, ih, List.flatMap_cons, List.append_assoc]

theorem outcome_returned_inj {α : Type} {x y : α} (h : Outcome.returned x = Outcome.returned y) :
    x = y := by
  cases h; rfl

end ListFacts

section BasicMul

variable {F : Type} [Zero F] [Add F] [Mul F]

theorem dotFrom_succ (q : Nat) (mat1 mat2 : List F) (i j : Nat) (init : F) (n : Nat) :
    dotFrom q mat1 mat2 i j init (n + 1)
      = dotFrom q mat1 mat2 i j init n
          + mat1.getD (i * q + n) 0 * mat2.getD (j * q + n) 0 := by
  simp [dotFrom, List.range_succ, List.foldl_append]

theorem flat_lt {p r i j : Nat} (hi : i < p) (hj : j < r) : i * r + j < p * r := by
  calc i * r + j < i * r + r := by omega
    _ = (i + 1) * r := by ring
    _ ≤ p * r := Nat.mul_le_mul_right r hi

theorem flat_div {r i j : Nat} (hj : j < r) : (i * r + j) / r = i := by
  have hr : 0 < r := by omega
  rw [Nat.add_comm, Nat.add_mul_div_right _ _ hr, Nat.div_eq_of_lt hj, Nat.zero_add]

theorem flat_mod {r i j : Nat} (hj : j < r) : (i * r + j) % r = j := by
  rw [Nat.add_comm, Nat.add_mul_mod_self_right, Nat.mod_eq_of_lt hj]

theorem mulAcc_eq (m : Mem F) (ii a b : Nat) (ha : a < m.mat1.length)
    (hb : b < m.mat2.length) (hc : ii < m.prod.length) :
    m.mulAcc ii a b
      = some { m with prod := m.prod.set ii (m.prod.getD ii 0 + m.mat1.getD a 0 * m.mat2.getD b 0) } := by
  simp [Mem.mulAcc, List.getElem?_eq_getElem ha, List.getElem?_eq_getElem hb,
    List.getElem?_eq_getElem hc, List.getD_eq_getElem _ _ ha, List.getD_eq_getElem _ _ hb,
    List.getD_eq_getElem _ _ hc]

theorem rangeFold_kLoop (q r i j : Nat) (m : Mem F) (n : Nat) (hn : n ≤ q)
    (h1 : (i + 1) * q ≤ m.mat1.length) (h2 : (j + 1) * q ≤ m.mat2.length)
    (hc : i * r + j < m.prod.length) :
    (List.range n).foldlM (fun m k => m.mulAcc (i * r + j) (i * q + k) (j * q + k)) m
      = some { m with
          prod := (m.prod.set (i * r + j) (dotFrom q m.mat1 m.mat2 i j (m.prod.getD (i * r + j) 0) n)) } := by
  induction n with
  | zero =>
    obtain ⟨m1, m2, pr⟩ := m
    simp only [dotFrom, List.range_zero, List.foldl_nil, List.foldlM_nil, set_getD_self]
    rfl
  | succ n ih =>
    have hn1 : n < q := by omega
    have ha : i * q + n < m.mat1.length := by
      have : (i + 1) * q = i * q + q := by ring
      omega
    have hb : j * q + n < m.mat2.length := by
      have : (j + 1) * q = j * q + q := by ring
      omega
    rw [List.range_succ, List.foldlM_append, ih (by omega)]
    simp only [List.foldlM_cons, List.foldlM_nil, Option.some_bind, Option.bind_eq_bind]
    have hm := mulAcc_eq
      { m with
        prod := (m.prod.set (i * r + j) (dotFrom q m.mat1 m.mat2 i j (m.prod.getD (i * r + j) 0) n)) }
      (i * r + j) (i * q + n) (j * q + n) ha hb (by simpa using hc)
    rw [hm]
    simp [dotFrom_succ, List.getD_eq_getElem?_getD, hc]

theorem kLoop_eq (q r i j : Nat) (m : Mem F)
    (h1 : (i + 1) * q ≤ m.mat1.length) (h2 : (j + 1) * q ≤ m.mat2.length)
    (hc : i * r + j < m.prod.length) :
    kLoop q r i j m
      = some { m with
          prod := (m.prod.set (i * r + j) (dotFrom q m.mat1 m.mat2 i j (m.prod.getD (i * r + j) 0) q)) } :=
  rangeFold_kLoop q r i j m q le_rfl h1 h2 hc

theorem prodUpTo_length (p q r : Nat) (mat1 mat2 : List F) (T : Nat) :
    (prodUpTo p q r mat1 mat2 T).length = p * r := by
  simp [prodUpTo]

theorem prodUpTo_getElem? (p q r : Nat) (mat1 mat2 : List F) (T t : Nat) (ht : t < p * r) :
    (prodUpTo p q r mat1 mat2 T)[t]? = some (if t < T then cellRef q r mat1 mat2 t else 0) := by
  simp [prodUpTo, List.getElem?_range ht]

theorem prodUpTo_zero (p q r : Nat) (mat1 mat2 : List F) :
    prodUpTo p q r mat1 mat2 0 = List.replicate (p * r) 0 := by
  apply List.ext_getElem?
  intro t
  by_cases ht : t < p * r
  · rw [prodUpTo_getElem? _ _ _ _ _ _ _ ht]
    simp [List.getElem?_replicate, ht]
  · rw [List.getElem?_eq_none (by simp [prodUpTo_length]; omega),
      List.getElem?_eq_none (by simp; omega)]

theorem prodUpTo_full (p q r : Nat) (mat1 mat2 : List F) :
    prodUpTo p q r mat1 mat2 (p * r) = refProd p q r mat1 mat2 := by
  apply List.ext_getElem?
  intro t
  by_cases ht : t < p * r
  · rw [prodUpTo_getElem? _ _ _ _ _ _ _ ht]
    simp [refProd, List.getElem?_range ht, ht]
  · rw [List.getElem?_eq_none (by simp [prodUpTo_length]; omega),
      List.getElem?_eq_none (by simp [refProd]; omega)]

theorem prodUpTo_set (p q r : Nat) (mat1 mat2 : List F) (i j : Nat) (hi : i < p) (hj : j < r) :
    (prodUpTo p q r mat1 mat2 (i * r + j)).set (i * r + j)
        (dotFrom q mat1 mat2 i j ((prodUpTo p q r mat1 mat2 (i * r + j)).getD (i * r + j) 0) q)
      = prodUpTo p q r mat1 mat2 (i * r + j + 1) := by
  have hT : i * r + j < p * r := flat_lt hi hj
  have h0 : (prodUpTo p q r mat1 mat2 (i * r + j)).getD (i * r + j) 0 = 0 := by
    rw [List.getD_eq_getElem?_getD, prodUpTo_getElem? _ _ _ _ _ _ _ hT]
    simp
  rw [h0]
  apply List.ext_getElem?
  intro t
  rw [List.getElem?_set]
  by_cases ht : t < p * r
  · rw [prodUpTo_getElem? _ _ _ _ _ _ _ ht, prodUpTo_getElem? _ _ _ _ _ _ _ ht]
    by_cases hEq : i * r + j = t
    · subst hEq
      simp [prodUpTo_length, hT, cellRef, flat_div hj, flat_mod hj]
    · have h3 : (t < i * r + j + 1) = (t < i * r + j) := by
        apply propext
        omega
      simp [hEq, h3]
  · have hne : i * r + j ≠ t := by omega
    simp only [hne, if_false]
    rw [List.getElem?_eq_none (by simp [prodUpTo_length]; omega),
      List.getElem?_eq_none (by simp [prodUpTo_length]; omega)]

theorem rangeFold_jLoop (p q r i : Nat) (m : Mem F) (hi : i < p)
    (h1 : p * q ≤ m.mat1.length) (h2 : r * q ≤ m.mat2.length)
    (hp : m.prod = prodUpTo p q r m.mat1 m.mat2 (i * r)) (n : Nat) (hn : n ≤ r) :
    (List.range n).foldlM (fun m j => kLoop q r i j m) m
      = some { m with prod := prodUpTo p q r m.mat1 m.mat2 (i * r + n) } := by
  induction n with
  | zero =>
    obtain ⟨m1, m2, pr⟩ := m
    simp only [] at hp
    simp [hp]
  | succ n ih =>
    have hj : n < r := by omega
    have ha : (i + 1) * q ≤ m.mat1.length :=
      le_trans (Nat.mul_le_mul_right q hi) h1
    have hb : (n + 1) * q ≤ m.mat2.length :=
      le_trans (Nat.mul_le_mul_right q hj) h2
    rw [List.range_succ, List.foldlM_append, ih (by omega)]
    simp only [List.foldlM_cons, List.foldlM_nil, Option.some_bind, Option.bind_eq_bind]
    have hk := kLoop_eq q r i n
      { m with prod := prodUpTo p q r m.mat1 m.mat2 (i * r + n) } ha hb
      (by simp only [prodUpTo_length]; exact flat_lt hi hj)
    rw [hk]
    simp only [prodUpTo_set p q r m.mat1 m.mat2 i n hi hj]
    rfl

theorem jLoop_eq (p q r i : Nat) (m : Mem F) (hi : i < p)
    (h1 : p * q ≤ m.mat1.length) (h2 : r * q ≤ m.mat2.length)
    (hp : m.prod = prodUpTo p q r m.mat1 m.mat2 (i * r)) :
    jLoop q r i m = some { m with prod := prodUpTo p q r m.mat1 m.mat2 ((i + 1) * r) } := by
  have h := rangeFold_jLoop p q r i m hi h1 h2 hp r le_rfl
  have e : (i + 1) * r = i * r + r := by ring
  rw [e]
  exact h

theorem rangeFold_iLoop (p q r : Nat) (mat1 mat2 : List F)
    (h1 : p * q ≤ mat1.length) (h2 : r * q ≤ mat2.length) (n : Nat) (hn : n ≤ p) :
    (List.range n).foldlM (fun m i => jLoop q r i m) (Mem.init p r mat1 mat2)
      = some { mat1 := mat1, mat2 := mat2, prod := prodUpTo p q r mat1 mat2 (n * r) } := by
  induction n with
  | zero => simp [Mem.init, prodUpTo_zero]
  | succ n ih =>
    rw [List.range_succ, List.foldlM_append, ih (by omega)]
    simp only [List.foldlM_cons, List.foldlM_nil, Option.some_bind, Option.bind_eq_bind]
    have hk := jLoop_eq p q r n
      { mat1 := mat1, mat2 := mat2, prod := prodUpTo p q r mat1 mat2 (n * r) }
      (by omega) h1 h2 rfl
    rw [hk]
    rfl

theorem basicMulMem_eq (p q r : Nat) (mat1 mat2 : List F)
    (h1 : p * q ≤ mat1.length) (h2 : r * q ≤ mat2.length) :
    basicMulMem p q r mat1 mat2
      = some { mat1 := mat1, mat2 := mat2, prod := refProd p q r mat1 mat2 } := by
  rw [basicMulMem, rangeFold_iLoop p q r mat1 mat2 h1 h2 p le_rfl, prodUpTo_full]

theorem basicMul_eq (p q r : Nat) (mat1 mat2 : List F)
    (h1 : p * q ≤ mat1.length) (h2 : r * q ≤ mat2.length) :
    basicMul p q r mat1 mat2 = some (refProd p q r mat1 mat2) := by
  simp [basicMul, basicMulMem_eq p q r mat1 mat2 h1 h2]

theorem refProd_length (p q r : Nat) (mat1 mat2 : List F) :
    (refProd p q r mat1 mat2).length = p * r := by
  simp [refProd]

theorem refProd_cell (p q r : Nat) (mat1 mat2 : List F) (i j : Nat) (hi : i < p) (hj : j < r) :
    (refProd p q r mat1 mat2)[i * r + j]? = some (dotFrom q mat1 mat2 i j 0 q) := by
  simp [refProd, List.getElem?_range (flat_lt hi hj), cellRef, flat_div hj, flat_mod hj]

/-- C1: for operands of lengths `p*q` and `r*q`, `basicMul` returns a slice
of length `p*r` whose element at offset `i*r+j` is the left fold that starts
from 0 and adds `mat1[i*q+k] * mat2[j*q+k]` for `k = 0, ..., q-1` in ascending
order. -/
theorem basicMul_computes_reference_product (p q r : Nat) (mat1 mat2 : List F)
    (h1 : mat1.length = p * q) (h2 : mat2.length = r * q) :
    ∃ prod, basicMul p q r mat1 mat2 = some prod ∧ prod.length = p * r ∧
      ∀ i j, i < p → j < r →
        prod[i * r + j]? = some ((List.range q).foldl
          (fun acc k => acc + mat1.getD (i * q + k) 0 * mat2.getD (j * q + k) 0) 0) :=
  ⟨refProd p q r mat1 mat2, basicMul_eq p q r mat1 mat2 (le_of_eq h1.symm) (le_of_eq h2.symm),
    refProd_length p q r mat1 mat2, fun i j hi hj => refProd_cell p q r mat1 mat2 i j hi hj⟩

theorem basicMul_computes_reference_product_witness :
    ([1, 2, 3, 4, 5, 6] : List Int).length = 2 * 3 ∧ ([1, 0, 2, 0, 1, 3] : List Int).length = 2 * 3 ∧
    ∃ prod, basicMul 2 3 2 ([1, 2, 3, 4, 5, 6] : List Int) [1, 0, 2, 0, 1, 3] = some prod ∧
      prod.length = 2 * 2 ∧
      ∀ i j, i < 2 → j < 2 →
        prod[i * 2 + j]? = some ((List.range 3).foldl
          (fun acc k => acc + ([1, 2, 3, 4, 5, 6] : List Int).getD (i * 3 + k) 0
            * ([1, 0, 2, 0, 1, 3] : List Int).getD (j * 3 + k) 0) 0) :=
  ⟨rfl, rfl, basicMul_computes_reference_product 2 3 2 _ _ rfl rfl⟩

theorem flat_inj {r i j i2 j2 : Nat} (hj : j < r) (hj2 : j2 < r)
    (h : i * r + j = i2 * r + j2) : i = i2 ∧ j = j2 := by
  constructor
  · have := congrArg (· / r) h
    simpa [flat_div hj, flat_div hj2] using this
  · have := congrArg (· % r) h
    simpa [flat_mod hj, flat_mod hj2] using this

theorem innerInv_init (p q r : Nat) (mat1 mat2 : List F) :
    InnerInv p q r mat1 mat2 (InnerState.init p r mat1 mat2) where
  m1 := rfl
  m2 := rfl
  len := by simp [InnerState.init, Mem.init]
  pcLe := by intro i j _ _; simp [InnerState.init]
  cell := by
    intro i j hi hj
    simp [InnerState.init, Mem.init, List.getElem?_replicate, flat_lt hi hj, dotFrom]

theorem innerStep_inv (p q r : Nat) (mat1 mat2 : List F)
    (h1 : p * q ≤ mat1.length) (h2 : r * q ≤ mat2.length)
    (s : InnerState F) (hs : InnerInv p q r mat1 mat2 s) (u : Nat × Nat) :
    ∃ s2, innerStep p q r s u = some s2 ∧ InnerInv p q r mat1 mat2 s2 ∧
      ∀ v, s2.pc v
        = if v = u ∧ u.1 < p ∧ u.2 < r ∧ s.pc u ≤ q then s.pc u + 1 else s.pc v := by
  obtain ⟨i, j⟩ := u
  by_cases hv : i < p ∧ j < r
  · obtain ⟨hi, hj⟩ := hv
    by_cases hk : s.pc (i, j) < q
    · have ha : i * q + s.pc (i, j) < s.mem.mat1.length := by
        rw [hs.m1]
        have : (i + 1) * q ≤ p * q := Nat.mul_le_mul_right q hi
        have e : (i + 1) * q = i * q + q := by ring
        omega
      have hb : j * q + s.pc (i, j) < s.mem.mat2.length := by
        rw [hs.m2]
        have : (j + 1) * q ≤ r * q := Nat.mul_le_mul_right q hj
        have e : (j + 1) * q = j * q + q := by ring
        omega
      have hc : i * r + j < s.mem.prod.length := by
        rw [hs.len]; exact flat_lt hi hj
      have hcur : s.mem.prod.getD (i * r + j) 0
          = dotFrom q mat1 mat2 i j 0 (s.pc (i, j)) := by
        rw [List.getD_eq_getElem?_getD, hs.cell i j hi hj, Nat.min_eq_left (le_of_lt hk)]
        rfl
      have hstep : innerStep p q r s (i, j) = some
          { mem := { s.mem with
                prod := (s.mem.prod.set (i * r + j) (s.mem.prod.getD (i * r + j) 0
                  + s.mem.mat1.getD (i * q + s.pc (i, j)) 0
                    * s.mem.mat2.getD (j * q + s.pc (i, j)) 0)) },
            pc := Function.update s.pc (i, j) (s.pc (i, j) + 1) } := by
        simp only [innerStep, hi, hj, hk, and_self, if_true]
        rw [mulAcc_eq _ _ _ _ ha hb hc]
        rfl
      refine ⟨_, hstep, ?_, ?_⟩
      · refine ⟨hs.m1, hs.m2, by simp [hs.len], ?_, ?_⟩
        · intro i2 j2 hi2 hj2
          by_cases he : (i2, j2) = (i, j)
          · rw [he]; simp; omega
          · simp only [Function.update_noteq he]
            exact hs.pcLe i2 j2 hi2 hj2
        · intro i2 j2 hi2 hj2
          by_cases he : (i2, j2) = (i, j)
          · obtain ⟨rfl, rfl⟩ := Prod.mk.inj he
            simp only [Function.update_same, List.getElem?_set_self hc]
            rw [Nat.min_eq_left (by omega : s.pc (i2, j2) + 1 ≤ q), dotFrom_succ, hcur, hs.m1, hs.m2]
          · have hne : i * r + j ≠ i2 * r + j2 := by
              intro h
              obtain ⟨rfl, rfl⟩ := flat_inj hj hj2 h
              exact he rfl
            simp only [Function.update_noteq he, List.getElem?_set_ne hne]
            exact hs.cell i2 j2 hi2 hj2
      · intro v
        by_cases he : v = (i, j)
        · subst he; simp [hi, hj, le_of_lt hk]
        · simp [Function.update_noteq he, he]
    · by_cases hq : s.pc (i, j) = q
      · have hstep : innerStep p q r s (i, j)
            = some { s with pc := Function.update s.pc (i, j) (q + 1) } := by
          simp only [innerStep, hi, hj, hq, and_self, if_true, if_false, lt_irrefl]
        refine ⟨_, hstep, ?_, ?_⟩
        · refine ⟨hs.m1, hs.m2, hs.len, ?_, ?_⟩
          · intro i2 j2 hi2 hj2
            by_cases he : (i2, j2) = (i, j)
            · rw [he]; simp
            · simp only [Function.update_noteq he]
              exact hs.pcLe i2 j2 hi2 hj2
          · intro i2 j2 hi2 hj2
            by_cases he : (i2, j2) = (i, j)
            · obtain ⟨rfl, rfl⟩ := Prod.mk.inj he
              have := hs.cell i2 j2 hi2 hj2
              simpa [hq] using this
            · simp only [Function.update_noteq he]
              exact hs.cell i2 j2 hi2 hj2
        · intro v
          by_cases he : v = (i, j)
          · subst he; simp [hi, hj, hq]
          · simp [Function.update_noteq he, he]
      · refine ⟨s, ?_, hs, ?_⟩
        · simp only [innerStep, hi, hj, hk, hq, and_self, if_true, if_false]
        · intro v
          have : ¬ s.pc (i, j) ≤ q := by omega
          simp [this]
  · refine ⟨s, ?_, hs, ?_⟩
    · simp only [innerStep, hv, if_false]
    · intro v
      have : ¬ (i < p ∧ j < r ∧ s.pc (i, j) ≤ q) := by tauto
      simp [this]

theorem innerRun_inv (p q r : Nat) (mat1 mat2 : List F)
    (h1 : p * q ≤ mat1.length) (h2 : r * q ≤ mat2.length) (sched : List (Nat × Nat)) :
    ∀ s : InnerState F, InnerInv p q r mat1 mat2 s →
      ∃ s2, sched.foldlM (innerStep p q r) s = some s2 ∧ InnerInv p q r mat1 mat2 s2 ∧
        ∀ i j, i < p → j < r → s2.pc (i, j) = min (s.pc (i, j) + sched.count (i, j)) (q + 1) := by
  induction sched with
  | nil =>
    intro s hs
    refine ⟨s, rfl, hs, ?_⟩
    intro i j hi hj
    have := hs.pcLe i j hi hj
    simp only [List.count_nil, Nat.add_zero]
    omega
  | cons u rest ih =>
    intro s hs
    obtain ⟨s1, hstep, hs1, hpc1⟩ := innerStep_inv p q r mat1 mat2 h1 h2 s hs u
    obtain ⟨s2, hrun, hs2, hpc2⟩ := ih s1 hs1
    refine ⟨s2, ?_, hs2, ?_⟩
    · simp only [List.foldlM_cons, hstep, Option.some_bind, Option.bind_eq_bind]
      exact hrun
    · intro i j hi hj
      rw [hpc2 i j hi hj, hpc1 (i, j)]
      have hle := hs.pcLe i j hi hj
      by_cases he : (i, j) = u
      · subst he
        simp only [List.count_cons_self, hi, hj, true_and]
        by_cases hq : s.pc (i, j) ≤ q
        · simp only [hq, if_true]; omega
        · simp only [hq, if_false]; omega
      · have he2 : u ≠ (i, j) := fun h => he h.symm
        have hb : (u == (i, j)) = false := by simpa using he2
        simp only [he, false_and, if_false, List.count_cons, hb]
        simp

theorem eq_refProd_of_cells (p q r : Nat) (mat1 mat2 prod : List F) (hlen : prod.length = p * r)
    (hcell : ∀ i j, i < p → j < r → prod[i * r + j]? = some (dotFrom q mat1 mat2 i j 0 q)) :
    prod = refProd p q r mat1 mat2 := by
  apply List.ext_getElem?
  intro t
  by_cases ht : t < p * r
  · have hr : 0 < r := by
      rcases Nat.eq_zero_or_pos r with h | h
      · subst h; simp at ht
      · exact h
    have hi : t / r < p := Nat.div_lt_of_lt_mul (by rw [Nat.mul_comm]; exact ht)
    have hj : t % r < r := Nat.mod_lt _ hr
    have e : t / r * r + t % r = t := Nat.div_add_mod' t r
    have := hcell (t / r) (t % r) hi hj
    rw [e] at this
    rw [this]
    simp [refProd, List.getElem?_range ht, cellRef]
  · rw [List.getElem?_eq_none (by omega),
      List.getElem?_eq_none (by simp [refProd]; omega)]

theorem innerWgZero_iff (p q r : Nat) (s : InnerState F) :
    s.wgZero p q r = true ↔ ∀ i j, i < p → j < r → q < s.pc (i, j) := by
  simp only [InnerState.wgZero, List.all_eq_true, List.mem_range, decide_eq_true_eq]
  exact ⟨fun h i j hi hj => h i hi j hj, fun h i hi j hj => h i j hi hj⟩

theorem concurrentMulInner_sound (p q r : Nat) (mat1 mat2 : List F)
    (h1 : p * q ≤ mat1.length) (h2 : r * q ≤ mat2.length) (sched : List (Nat × Nat)) :
    (concurrentMulInner p q r mat1 mat2 sched = Outcome.returned (refProd p q r mat1 mat2)
      ∨ concurrentMulInner p q r mat1 mat2 sched = Outcome.waiting)
    ∧ ((∀ i < p, ∀ j < r, q + 1 ≤ sched.count (i, j)) →
        concurrentMulInner p q r mat1 mat2 sched
          = Outcome.returned (refProd p q r mat1 mat2)) := by
  obtain ⟨s2, hrun, hs2, hpc⟩ := innerRun_inv p q r mat1 mat2 h1 h2 sched
    (InnerState.init p r mat1 mat2) (innerInv_init p q r mat1 mat2)
  have hret : s2.wgZero p q r = true →
      concurrentMulInner p q r mat1 mat2 sched
        = Outcome.returned (refProd p q r mat1 mat2) := by
    intro hz
    have hall := (innerWgZero_iff p q r s2).1 hz
    have hprod : s2.mem.prod = refProd p q r mat1 mat2 := by
      apply eq_refProd_of_cells p q r mat1 mat2 _ hs2.len
      intro i j hi hj
      have hc := hs2.cell i j hi hj
      rw [Nat.min_eq_right (le_of_lt (hall i j hi hj))] at hc
      exact hc
    simp only [concurrentMulInner, concurrentMulInnerRun, hrun, hz, if_true, hprod]
  constructor
  · by_cases hz : s2.wgZero p q r = true
    · exact Or.inl (hret hz)
    · right
      simp only [concurrentMulInner, concurrentMulInnerRun, hrun, hz]
      rfl
  · intro fair
    apply hret
    rw [innerWgZero_iff]
    intro i j hi hj
    rw [hpc i j hi hj]
    have := fair i hi j hj
    simp only [InnerState.init]
    omega

/-- C2: for operands of lengths `p*q` and `r*q` and every interleaving of the
`p*r` goroutines of `concurrentMulInner`, a call that returns gives exactly the
slice `basicMul` gives, and it does return as soon as every goroutine has been
given its `q+1` steps; with `p = r = 1` this is the single dot product. -/
theorem concurrentMulInner_eq_basicMul (p q r : Nat) (mat1 mat2 : List F)
    (h1 : mat1.length = p * q) (h2 : mat2.length = r * q) (sched : List (Nat × Nat)) :
    (∀ prod, concurrentMulInner p q r mat1 mat2 sched = Outcome.returned prod →
        basicMul p q r mat1 mat2 = some prod)
    ∧ concurrentMulInner p q r mat1 mat2 sched ≠ Outcome.panicked
    ∧ ((∀ i < p, ∀ j < r, q + 1 ≤ sched.count (i, j)) →
        ∃ prod, concurrentMulInner p q r mat1 mat2 sched = Outcome.returned prod
          ∧ basicMul p q r mat1 mat2 = some prod) := by
  have hb := basicMul_eq p q r mat1 mat2 (le_of_eq h1.symm) (le_of_eq h2.symm)
  obtain ⟨hor, hfair⟩ :=
    concurrentMulInner_sound p q r mat1 mat2 (le_of_eq h1.symm) (le_of_eq h2.symm) sched
  refine ⟨?_, ?_, ?_⟩
  · intro prod hprod
    rcases hor with h | h
    · rw [h] at hprod
      cases hprod
      exact hb
    · rw [h] at hprod
      cases hprod
  · rcases hor with h | h <;> rw [h] <;> intro hc <;> cases hc
  · intro fair
    exact ⟨_, hfair fair, hb⟩

theorem concurrentMulInner_eq_basicMul_witness :
    ([1, 2, 3, 4] : List Int).length = 2 * 2 ∧ ([5, 6, 7, 8] : List Int).length = 2 * 2 ∧
    (∀ i < 2, ∀ j < 2,
      2 + 1 ≤ ([(1, 1), (0, 0), (1, 0), (0, 1), (0, 0), (1, 1), (0, 1), (1, 0), (1, 0), (0, 1),
        (1, 1), (0, 0)] : List (Nat × Nat)).count (i, j)) ∧
    ∃ prod, concurrentMulInner 2 2 2 ([1, 2, 3, 4] : List Int) [5, 6, 7, 8]
        [(1, 1), (0, 0), (1, 0), (0, 1), (0, 0), (1, 1), (0, 1), (1, 0), (1, 0), (0, 1),
          (1, 1), (0, 0)] = Outcome.returned prod
      ∧ basicMul 2 2 2 ([1, 2, 3, 4] : List Int) [5, 6, 7, 8] = some prod :=
  ⟨rfl, rfl, by decide,
    (concurrentMulInner_eq_basicMul 2 2 2 [1, 2, 3, 4] [5, 6, 7, 8] rfl rfl _).2.2 (by decide)⟩

theorem rank1UpTo_length (p q r : Nat) (mat1 mat2 : List F) (k T : Nat) :
    (rank1UpTo p q r mat1 mat2 k T).length = p * r := by
  simp [rank1UpTo]

theorem rank1_length (p q r : Nat) (mat1 mat2 : List F) (k : Nat) :
    (rank1 p q r mat1 mat2 k).length = p * r := by
  simp [rank1]

theorem rank1_getElem? (p q r : Nat) (mat1 mat2 : List F) (k t : Nat) (ht : t < p * r) :
    (rank1 p q r mat1 mat2 k)[t]? = some (contrib q r mat1 mat2 k t) := by
  simp [rank1, List.getElem?_range ht]

theorem rank1UpTo_getElem? (p q r : Nat) (mat1 mat2 : List F) (k T t : Nat) (ht : t < p * r) :
    (rank1UpTo p q r mat1 mat2 k T)[t]?
      = some (if t < T then contrib q r mat1 mat2 k t else 0) := by
  simp [rank1UpTo, List.getElem?_range ht]

theorem rank1UpTo_zero (p q r : Nat) (mat1 mat2 : List F) (k : Nat) :
    rank1UpTo p q r mat1 mat2 k 0 = List.replicate (p * r) 0 := by
  apply List.ext_getElem?
  intro t
  by_cases ht : t < p * r
  · rw [rank1UpTo_getElem? _ _ _ _ _ _ _ _ ht]
    simp [List.getElem?_replicate, ht]
  · rw [List.getElem?_eq_none (by simp [rank1UpTo_length]; omega),
      List.getElem?_eq_none (by simp; omega)]

theorem rank1UpTo_full (p q r : Nat) (mat1 mat2 : List F) (k : Nat) :
    rank1UpTo p q r mat1 mat2 k (p * r) = rank1 p q r mat1 mat2 k := by
  apply List.ext_getElem?
  intro t
  by_cases ht : t < p * r
  · rw [rank1UpTo_getElem? _ _ _ _ _ _ _ _ ht, rank1_getElem? _ _ _ _ _ _ _ ht]
    simp [ht]
  · rw [List.getElem?_eq_none (by simp [rank1UpTo_length]; omega),
      List.getElem?_eq_none (by simp [rank1_length]; omega)]

theorem rank1UpTo_set (p q r : Nat) (mat1 mat2 : List F) (k i j : Nat) (hi : i < p) (hj : j < r) :
    (rank1UpTo p q r mat1 mat2 k (i * r + j)).set (i * r + j)
        (mat1.getD (i * q + k) 0 * mat2.getD (j * q + k) 0)
      = rank1UpTo p q r mat1 mat2 k (i * r + j + 1) := by
  have hT : i * r + j < p * r := flat_lt hi hj
  apply List.ext_getElem?
  intro t
  rw [List.getElem?_set]
  by_cases ht : t < p * r
  · rw [rank1UpTo_getElem? _ _ _ _ _ _ _ _ ht, rank1UpTo_getElem? _ _ _ _ _ _ _ _ ht]
    by_cases hEq : i * r + j = t
    · subst hEq
      simp [rank1UpTo_length, hT, contrib, flat_div hj, flat_mod hj]
    · have h3 : (t < i * r + j + 1) = (t < i * r + j) := by
        apply propext
        omega
      simp [hEq, h3]
  · have hne : i * r + j ≠ t := by omega
    simp only [hne, if_false]
    rw [List.getElem?_eq_none (by simp [rank1UpTo_length]; omega),
      List.getElem?_eq_none (by simp [rank1UpTo_length]; omega)]

theorem rangeFold_fillRow (p q r k i : Nat) (mat1 mat2 : List F) (hi : i < p) (hk : k < q)
    (h1 : p * q ≤ mat1.length) (h2 : r * q ≤ mat2.length) (n : Nat) (hn : n ≤ r) :
    (List.range n).foldlM (fun mat j => do
        let x ← mat1[i * q + k]?
        let y ← mat2[j * q + k]?
        if i * r + j < mat.length then some (mat.set (i * r + j) (x * y)) else none)
      (rank1UpTo p q r mat1 mat2 k (i * r))
      = some (rank1UpTo p q r mat1 mat2 k (i * r + n)) := by
  induction n with
  | zero => simp
  | succ n ih =>
    have hj : n < r := by omega
    have ha : i * q + k < mat1.length := by
      have : (i + 1) * q ≤ p * q := Nat.mul_le_mul_right q hi
      have e : (i + 1) * q = i * q + q := by ring
      omega
    have hb : n * q + k < mat2.length := by
      have : (n + 1) * q ≤ r * q := Nat.mul_le_mul_right q hj
      have e : (n + 1) * q = n * q + q := by ring
      omega
    rw [List.range_succ, List.foldlM_append, ih (by omega)]
    simp only [List.foldlM_cons, List.foldlM_nil, Option.some_bind, Option.bind_eq_bind,
      List.getElem?_eq_getElem ha, List.getElem?_eq_getElem hb, rank1UpTo_length,
      flat_lt hi hj, if_true]
    rw [← List.getD_eq_getElem _ 0 ha, ← List.getD_eq_getElem _ 0 hb,
      rank1UpTo_set p q r mat1 mat2 k i n hi hj]
    rfl

theorem fillRow_eq (p q r k i : Nat) (mat1 mat2 : List F) (hi : i < p) (hk : k < q)
    (h1 : p * q ≤ mat1.length) (h2 : r * q ≤ mat2.length) :
    fillRow q r k i mat1 mat2 (rank1UpTo p q r mat1 mat2 k (i * r))
      = some (rank1UpTo p q r mat1 mat2 k ((i + 1) * r)) := by
  have e : (i + 1) * r = i * r + r := by ring
  rw [e]
  exact rangeFold_fillRow p q r k i mat1 mat2 hi hk h1 h2 r le_rfl

theorem rangeFold_fillBuf (p q r k : Nat) (mat1 mat2 : List F) (hk : k < q)
    (h1 : p * q ≤ mat1.length) (h2 : r * q ≤ mat2.length) (n : Nat) (hn : n ≤ p) :
    (List.range n).foldlM (fun mat i => fillRow q r k i mat1 mat2 mat)
      (List.replicate (p * r) 0)
      = some (rank1UpTo p q r mat1 mat2 k (n * r)) := by
  induction n with
  | zero => simp [rank1UpTo_zero]
  | succ n ih =>
    rw [List.range_succ, List.foldlM_append, ih (by omega)]
    simp only [List.foldlM_cons, List.foldlM_nil, Option.some_bind, Option.bind_eq_bind]
    rw [fillRow_eq p q r k n mat1 mat2 (by omega) hk h1 h2]
    rfl

theorem fillBuf_eq (p q r k : Nat) (mat1 mat2 : List F) (hk : k < q)
    (h1 : p * q ≤ mat1.length) (h2 : r * q ≤ mat2.length) :
    fillBuf p q r k mat1 mat2 = some (rank1 p q r mat1 mat2 k) := by
  rw [fillBuf, rangeFold_fillBuf p q r k mat1 mat2 hk h1 h2 p le_rfl, rank1UpTo_full]

theorem div_mod_flat (n r : Nat) : n / r * r + n % r = n := Nat.div_add_mod' n r

theorem row_lt {p r n : Nat} (hn : n < p * r) : n / r < p :=
  Nat.div_lt_of_lt_mul (by rw [Nat.mul_comm]; exact hn)

theorem col_lt {p r n : Nat} (hn : n < p * r) : n % r < r := by
  apply Nat.mod_lt
  rcases Nat.eq_zero_or_pos r with h | h
  · subst h; simp at hn
  · exact h

theorem read_lt {p q i k len : Nat} (hi : i < p) (hk : k < q) (h : p * q ≤ len) :
    i * q + k < len := by
  have : (i + 1) * q ≤ p * q := Nat.mul_le_mul_right q hi
  have e : (i + 1) * q = i * q + q := by ring
  omega

theorem outerBadStep_pc (p q r : Nat) (s s2 : OuterBadState F) (k : Nat)
    (h : outerBadStep p q r s k = some s2) :
    ∀ v, v < q → (if v = k ∧ s.pc v ≤ p * r then s.pc v + 1 else s.pc v) ≤ s2.pc v := by
  intro v hv
  unfold outerBadStep at h
  by_cases hk : k < q
  · simp only [hk, if_true] at h
    by_cases hn : s.pc k < p * r
    · simp only [hn, if_true, Option.map_eq_some'] at h
      obtain ⟨m, _, rfl⟩ := h
      by_cases he : v = k
      · subst he; simp [le_of_lt hn]
      · simp [he, Function.update_noteq he]
    · by_cases hq : s.pc k = p * r
      · simp only [hq, lt_irrefl, if_false, if_true, Option.some.injEq] at h
        subst h
        by_cases he : v = k
        · subst he; simp [hq]
        · simp [he, Function.update_noteq he]
      · simp only [hn, hq, if_false, Option.some.injEq] at h
        subst h
        by_cases he : v = k
        · subst he
          have : ¬ s.pc v ≤ p * r := by omega
          simp [this]
        · simp [he]
  · simp only [hk, if_false, Option.some.injEq] at h
    subst h
    have he : v ≠ k := by omega
    simp [he]

theorem outerBadShape_init (p r : Nat) (mat1 mat2 : List F) :
    OuterBadShape p r mat1 mat2 (OuterBadState.init p r mat1 mat2) where
  m1 := rfl
  m2 := rfl
  len := by simp [OuterBadState.init, Mem.init]

theorem outerBadStep_shape (p q r : Nat) (mat1 mat2 : List F)
    (h1 : p * q ≤ mat1.length) (h2 : r * q ≤ mat2.length)
    (s : OuterBadState F) (hs : OuterBadShape p r mat1 mat2 s) (k : Nat) :
    ∃ s2, outerBadStep p q r s k = some s2 ∧ OuterBadShape p r mat1 mat2 s2 ∧
      s2.mem.prod = (if k < q ∧ s.pc k < p * r then
          s.mem.prod.set (s.pc k) (s.mem.prod.getD (s.pc k) 0 + contrib q r mat1 mat2 k (s.pc k))
        else s.mem.prod) ∧
      s2.pc = (if k < q ∧ s.pc k ≤ p * r then Function.update s.pc k (s.pc k + 1) else s.pc) := by
  by_cases hk : k < q
  · by_cases hn : s.pc k < p * r
    · have ha : s.pc k / r * q + k < s.mem.mat1.length := by
        rw [hs.m1]; exact read_lt (row_lt hn) hk h1
      have hb : s.pc k % r * q + k < s.mem.mat2.length := by
        rw [hs.m2]; exact read_lt (col_lt hn) hk h2
      have hc : s.pc k / r * r + s.pc k % r < s.mem.prod.length := by
        rw [div_mod_flat, hs.len]; exact hn
      have hstep : outerBadStep p q r s k = some
          { mem := { s.mem with
                prod := (s.mem.prod.set (s.pc k / r * r + s.pc k % r)
                  (s.mem.prod.getD (s.pc k / r * r + s.pc k % r) 0
                    + s.mem.mat1.getD (s.pc k / r * q + k) 0
                      * s.mem.mat2.getD (s.pc k % r * q + k) 0)) },
            pc := Function.update s.pc k (s.pc k + 1), locks := s.locks + 1 } := by
        simp only [outerBadStep, hk, hn, if_true]
        rw [mulAcc_eq _ _ _ _ ha hb hc]
        rfl
      refine ⟨_, hstep, ⟨hs.m1, hs.m2, by simp [hs.len]⟩, ?_, ?_⟩
      · simp only [hk, hn, and_self, if_true, div_mod_flat, contrib, hs.m1, hs.m2]
      · simp only [hk, le_of_lt hn, and_self, if_true]
    · by_cases hq : s.pc k = p * r
      · have hstep : outerBadStep p q r s k
            = some { s with pc := Function.update s.pc k (p * r + 1) } := by
          simp only [outerBadStep, hk, hq, if_true, if_false, lt_irrefl]
        refine ⟨_, hstep, ⟨hs.m1, hs.m2, hs.len⟩, ?_, ?_⟩
        · simp only [hn, and_false, if_false]
        · simp only [hk, hq, le_refl, and_self, if_true]
      · refine ⟨s, ?_, hs, ?_, ?_⟩
        · simp only [outerBadStep, hk, hn, hq, if_true, if_false]
        · simp only [hn, and_false, if_false]
        · have : ¬ s.pc k ≤ p * r := by omega
          simp only [this, and_false, if_false]
  · refine ⟨s, ?_, hs, ?_, ?_⟩
    · simp only [outerBadStep, hk, if_false]
    · simp only [hk, false_and, if_false]
    · simp only [hk, false_and, if_false]

theorem concurrentMulOuterBad_runs (p q r : Nat) (mat1 mat2 : List F)
    (h1 : p * q ≤ mat1.length) (h2 : r * q ≤ mat2.length) (sched : List Nat) :
    ∃ s, concurrentMulOuterBadRun p q r mat1 mat2 sched = some s
      ∧ OuterBadShape p r mat1 mat2 s :=
  foldlM_invariant (outerBadStep p q r) (OuterBadShape p r mat1 mat2)
    (fun s e hs =>
      let ⟨s2, hstep, hs2, _⟩ := outerBadStep_shape p q r mat1 mat2 h1 h2 s hs e
      ⟨s2, hstep, hs2⟩)
    sched _ (outerBadShape_init p r mat1 mat2)

theorem outerBadWgZero_iff (p q r : Nat) (s : OuterBadState F) :
    s.wgZero p q r = true ↔ ∀ k, k < q → p * r < s.pc k := by
  simp only [OuterBadState.wgZero, List.all_eq_true, List.mem_range, decide_eq_true_eq]

theorem concurrentMulOuterBad_fair (p q r : Nat) (mat1 mat2 : List F) (sched : List Nat)
    (fair : ∀ k < q, p * r + 1 ≤ sched.count k) (s : OuterBadState F)
    (hrun : concurrentMulOuterBadRun p q r mat1 mat2 sched = some s) :
    s.wgZero p q r = true := by
  rw [outerBadWgZero_iff]
  intro k hk
  have := foldlM_count_le (outerBadStep p q r) OuterBadState.pc (p * r) (fun v => v < q)
    (fun s e s2 h => outerBadStep_pc p q r s s2 e h) sched _ s hrun k hk
  have hf := fair k hk
  simp only [OuterBadState.init] at this
  omega

theorem eq_refProd_of_flat (p q r : Nat) (mat1 mat2 prod : List F) (hlen : prod.length = p * r)
    (hcell : ∀ t, t < p * r → prod[t]? = some (cellRef q r mat1 mat2 t)) :
    prod = refProd p q r mat1 mat2 := by
  apply List.ext_getElem?
  intro t
  by_cases ht : t < p * r
  · rw [hcell t ht]
    simp [refProd, List.getElem?_range ht]
  · rw [List.getElem?_eq_none (by omega),
      List.getElem?_eq_none (by simp [refProd]; omega)]

theorem floatsAdd_eq (dst src : List F) (h : dst.length = src.length) :
    floatsAdd dst src = some (List.zipWith (fun a b => a + b) dst src) := by
  simp [floatsAdd, h]

theorem zipAdd_getElem? (dst src : List F) (t : Nat) (a b : F)
    (ha : dst[t]? = some a) (hb : src[t]? = some b) :
    (List.zipWith (fun a b => a + b) dst src)[t]? = some (a + b) := by
  rw [List.getElem?_zipWith, ha, hb]

theorem outerShape_init (p q r : Nat) (mat1 mat2 : List F) :
    OuterShape p q r mat1 mat2 (OuterState.init p r mat1 mat2) where
  m1 := rfl
  m2 := rfl
  len := by simp [OuterState.init, Mem.init]
  bufs := by
    intro k _ h
    simp [OuterState.init] at h

theorem outerStep_shape (p q r : Nat) (mat1 mat2 : List F)
    (h1 : p * q ≤ mat1.length) (h2 : r * q ≤ mat2.length)
    (s : OuterState F) (hs : OuterShape p q r mat1 mat2 s) (k : Nat) :
    ∃ s2, outerStep p q r s k = some s2 ∧ OuterShape p q r mat1 mat2 s2 ∧
      s2.mem.prod = (if k < q ∧ s.pc k = 1 then
          List.zipWith (fun a b => a + b) s.mem.prod (rank1 p q r mat1 mat2 k)
        else s.mem.prod) ∧
      s2.pc = (if k < q ∧ s.pc k ≤ 2 then Function.update s.pc k (s.pc k + 1) else s.pc) := by
  by_cases hk : k < q
  · by_cases h0 : s.pc k = 0
    · have hstep : outerStep p q r s k = some
          { s with pc := Function.update s.pc k 1,
                   buf := Function.update s.buf k (rank1 p q r mat1 mat2 k) } := by
        simp only [outerStep, hk, h0, if_true, hs.m1, hs.m2,
          fillBuf_eq p q r k mat1 mat2 hk h1 h2, Option.map_some']
      refine ⟨_, hstep, ⟨hs.m1, hs.m2, hs.len, ?_⟩, ?_, ?_⟩
      · intro k2 hk2 hpc
        by_cases he : k2 = k
        · subst he; simp
        · simp only [Function.update_noteq he] at hpc ⊢
          exact hs.bufs k2 hk2 hpc
      · simp [h0]
      · simp [hk, h0]
    · by_cases h1' : s.pc k = 1
      · have hb := hs.bufs k hk (by omega)
        have hlen : s.mem.prod.length = (s.buf k).length := by
          rw [hb, rank1_length, hs.len]
        have hstep : outerStep p q r s k = some
            { s with mem := { s.mem with
                        prod := (List.zipWith (fun a b => a + b) s.mem.prod (s.buf k)) },
                     pc := Function.update s.pc k 2, locks := s.locks + 1 } := by
          simp only [outerStep, hk, h1', if_true, floatsAdd_eq _ _ hlen, Option.map_some']
          simp
        refine ⟨_, hstep, ⟨hs.m1, hs.m2, ?_, ?_⟩, ?_, ?_⟩
        · simp [hb, rank1_length, hs.len]
        · intro k2 hk2 hpc
          by_cases he : k2 = k
          · subst he; exact hb
          · simp only [Function.update_noteq he] at hpc
            exact hs.bufs k2 hk2 hpc
        · simp [hk, h1', hb]
        · simp [hk, h1']
      · by_cases h2' : s.pc k = 2
        · have hstep : outerStep p q r s k
              = some { s with pc := Function.update s.pc k 3 } := by
            simp only [outerStep, hk, h2', if_true]
            simp
          refine ⟨_, hstep, ⟨hs.m1, hs.m2, hs.len, ?_⟩, ?_, ?_⟩
          · intro k2 hk2 hpc
            by_cases he : k2 = k
            · subst he; exact hs.bufs k2 hk2 (by omega)
            · simp only [Function.update_noteq he] at hpc
              exact hs.bufs k2 hk2 hpc
          · simp [h2']
          · simp [hk, h2']
        · refine ⟨s, ?_, hs, ?_, ?_⟩
          · simp only [outerStep, hk, h0, h1', h2', if_true, if_false]
          · simp [h1']
          · have : ¬ s.pc k ≤ 2 := by omega
            simp [this]
  · refine ⟨s, ?_, hs, ?_, ?_⟩
    · simp only [outerStep, hk, if_false]
    · simp [hk]
    · simp [hk]

theorem outerStep_pc (p q r : Nat) (s s2 : OuterState F) (k : Nat)
    (h : outerStep p q r s k = some s2) :
    ∀ v, v < q → (if v = k ∧ s.pc v ≤ 2 then s.pc v + 1 else s.pc v) ≤ s2.pc v := by
  intro v hv
  unfold outerStep at h
  by_cases hk : k < q
  · simp only [hk, if_true] at h
    by_cases h0 : s.pc k = 0
    · simp only [h0, if_true, Option.map_eq_some'] at h
      obtain ⟨m, _, rfl⟩ := h
      by_cases he : v = k
      · subst he; simp [h0]
      · simp [he, Function.update_noteq he]
    · by_cases h1 : s.pc k = 1
      · simp only [h1, one_ne_zero, if_false, if_true] at h
        cases hfa : floatsAdd s.mem.prod (s.buf k) with
        | none => rw [hfa] at h; simp at h
        | some pr =>
          rw [hfa] at h
          simp only [Option.map_some', Option.some.injEq] at h
          subst h
          by_cases he : v = k
          · subst he; simp [h1]
          · simp [he, Function.update_noteq he]
      · by_cases h2 : s.pc k = 2
        · simp only [h2, if_true, Option.some.injEq] at h
          simp only [OfNat.ofNat_ne_zero, OfNat.ofNat_ne_one, if_false] at h
          simp only [Option.some.injEq] at h
          subst h
          by_cases he : v = k
          · subst he; simp [h2]
          · simp [he, Function.update_noteq he]
        · simp only [h0, h1, h2, if_false, Option.some.injEq] at h
          subst h
          by_cases he : v = k
          · subst he
            have : ¬ s.pc v ≤ 2 := by omega
            simp [this]
          · simp [he]
  · simp only [hk, if_false, Option.some.injEq] at h
    subst h
    have he : v ≠ k := by omega
    simp [he]

theorem concurrentMulOuter_runs (p q r : Nat) (mat1 mat2 : List F)
    (h1 : p * q ≤ mat1.length) (h2 : r * q ≤ mat2.length) (sched : List Nat) :
    ∃ s, concurrentMulOuterRun p q r mat1 mat2 sched = some s
      ∧ OuterShape p q r mat1 mat2 s :=
  foldlM_invariant (outerStep p q r) (OuterShape p q r mat1 mat2)
    (fun s e hs =>
      let ⟨s2, hstep, hs2, _⟩ := outerStep_shape p q r mat1 mat2 h1 h2 s hs e
      ⟨s2, hstep, hs2⟩)
    sched _ (outerShape_init p q r mat1 mat2)

theorem outerWgZero_iff (q : Nat) (s : OuterState F) :
    s.wgZero q = true ↔ ∀ k, k < q → 2 < s.pc k := by
  simp only [OuterState.wgZero, List.all_eq_true, List.mem_range, decide_eq_true_eq]

theorem concurrentMulOuter_fair (p q r : Nat) (mat1 mat2 : List F) (sched : List Nat)
    (fair : ∀ k < q, 3 ≤ sched.count k) (s : OuterState F)
    (hrun : concurrentMulOuterRun p q r mat1 mat2 sched = some s) :
    s.wgZero q = true := by
  rw [outerWgZero_iff]
  intro k hk
  have := foldlM_count_le (outerStep p q r) OuterState.pc 2 (fun v => v < q)
    (fun s e s2 h => outerStep_pc p q r s s2 e h) sched _ s hrun k hk
  have hf := fair k hk
  simp only [OuterState.init] at this
  omega

theorem chanShape_init (p q r : Nat) (mat1 mat2 : List F) :
    ChanShape p q r mat1 mat2 (ChanState.init p r mat1 mat2) where
  m1 := rfl
  m2 := rfl
  len := by simp [ChanState.init, Mem.init]
  bufs := by
    intro k _ h
    simp [ChanState.init] at h
  hold := by
    intro x h
    simp [ChanState.init] at h

theorem chanStep_worker (p q r : Nat) (mat1 mat2 : List F)
    (h1 : p * q ≤ mat1.length) (h2 : r * q ≤ mat2.length)
    (s : ChanState F) (hs : ChanShape p q r mat1 mat2 s) (k : Nat) :
    ∃ s2, chanStep p q r s (ChanThread.worker k) = some s2 ∧ ChanShape p q r mat1 mat2 s2 ∧
      s2.mem.prod = s.prodAfter (ChanThread.worker k) ∧
      s2.pc = s.pcAfter q (ChanThread.worker k) ∧
      s2.holding = s.holdingAfter p q r mat1 mat2 (ChanThread.worker k) ∧
      s2.ret = s.ret := by
  have hprodAfter : s.prodAfter (ChanThread.worker k) = s.mem.prod := by
    simp [ChanState.prodAfter]
  rw [hprodAfter]
  simp only [ChanState.pcAfter, ChanState.holdingAfter]
  by_cases hk : k < q
  · by_cases h0 : s.pc k = 0
    · have hstep : chanStep p q r s (ChanThread.worker k) = some
          { s with pc := Function.update s.pc k 1,
                   buf := Function.update s.buf k (rank1 p q r mat1 mat2 k) } := by
        simp only [chanStep, hk, h0, if_true, hs.m1, hs.m2,
          fillBuf_eq p q r k mat1 mat2 hk h1 h2, Option.map_some']
      have hns : ¬ s.canSend q k := by
        intro h; have := h.1; omega
      refine ⟨_, hstep, ⟨hs.m1, hs.m2, hs.len, ?_, ?_⟩, rfl, ?_, ?_, rfl⟩
      · intro k2 hk2 hpc
        by_cases he : k2 = k
        · subst he; simp
        · simp only [Function.update_noteq he] at hpc ⊢
          exact hs.bufs k2 hk2 hpc
      · intro x hx
        obtain ⟨k2, hk2, hpc2, hx2⟩ := hs.hold x hx
        refine ⟨k2, hk2, ?_, hx2⟩
        have he : k2 ≠ k := by intro h; subst h; omega
        simp only [Function.update_noteq he]
        exact hpc2
      · simp [hk, h0]
      · simp [hns]
    · by_cases hone : s.pc k = 1
      · by_cases hcan : s.holding.isNone = true ∧ s.recvd < q
        · have hcs : s.canSend q k := ⟨hone, hcan.1, hcan.2⟩
          have hb := hs.bufs k hk (by omega)
          have hstep : chanStep p q r s (ChanThread.worker k) = some
              { s with pc := Function.update s.pc k 2, holding := some (s.buf k) } := by
            simp only [chanStep, hk, hone, if_true, hcan.1, hcan.2, and_self]
            simp
          refine ⟨_, hstep, ⟨hs.m1, hs.m2, hs.len, ?_, ?_⟩, rfl, ?_, ?_, rfl⟩
          · intro k2 hk2 hpc
            by_cases he : k2 = k
            · subst he; exact hb
            · simp only [Function.update_noteq he] at hpc
              exact hs.bufs k2 hk2 hpc
          · intro x hx
            simp only [Option.some.injEq] at hx
            exact ⟨k, hk, by simp, by rw [← hx, hb]⟩
          · rw [if_pos ⟨hk, Or.inr (Or.inl hcs)⟩, hone]
          · rw [if_pos ⟨hk, hcs⟩, hb]
        · have hns : ¬ s.canSend q k := fun h => hcan ⟨h.2.1, h.2.2⟩
          have hstep : chanStep p q r s (ChanThread.worker k) = some s := by
            simp only [chanStep, hk, hone, if_true, hcan, if_false]
            simp
          refine ⟨s, hstep, hs, rfl, ?_, ?_, rfl⟩
          · simp [hns, hone]
          · simp [hns]
      · have hns : ¬ s.canSend q k := fun h => hone h.1
        by_cases htwo : s.pc k = 2
        · have hstep : chanStep p q r s (ChanThread.worker k)
              = some { s with pc := Function.update s.pc k 3 } := by
            simp only [chanStep, hk, htwo, if_true]
            simp
          refine ⟨_, hstep, ⟨hs.m1, hs.m2, hs.len, ?_, ?_⟩, rfl, ?_, ?_, rfl⟩
          · intro k2 hk2 hpc
            by_cases he : k2 = k
            · subst he; exact hs.bufs k2 hk2 (by omega)
            · simp only [Function.update_noteq he] at hpc
              exact hs.bufs k2 hk2 hpc
          · intro x hx
            obtain ⟨k2, hk2, hpc2, hx2⟩ := hs.hold x hx
            refine ⟨k2, hk2, ?_, hx2⟩
            by_cases he : k2 = k
            · subst he; simp
            · simp only [Function.update_noteq he]
              exact hpc2
          · simp [hk, htwo]
          · simp [hns]
        · have hstep : chanStep p q r s (ChanThread.worker k) = some s := by
            simp only [chanStep, hk, h0, hone, htwo, if_true, if_false]
          refine ⟨s, hstep, hs, rfl, ?_, ?_, rfl⟩
          · simp [hns, h0, htwo]
          · simp [hns]
  · have hstep : chanStep p q r s (ChanThread.worker k) = some s := by
      simp only [chanStep, hk, if_false]
    refine ⟨s, hstep, hs, rfl, ?_, ?_, rfl⟩
    · simp [hk]
    · simp [hk]

theorem chanStep_reducer (p q r : Nat) (mat1 mat2 : List F)
    (s : ChanState F) (hs : ChanShape p q r mat1 mat2 s) :
    ∃ s2, chanStep p q r s ChanThread.reducer = some s2 ∧ ChanShape p q r mat1 mat2 s2 ∧
      s2.mem.prod = s.prodAfter ChanThread.reducer ∧
      s2.pc = s.pcAfter q ChanThread.reducer ∧
      s2.holding = s.holdingAfter p q r mat1 mat2 ChanThread.reducer ∧
      s2.ret = s.ret := by
  simp only [ChanState.pcAfter, ChanState.holdingAfter, ChanState.prodAfter]
  cases hh : s.holding with
  | none =>
    refine ⟨s, ?_, hs, rfl, rfl, hh, rfl⟩
    simp only [chanStep, hh]
  | some x =>
    obtain ⟨k, hk, hpc, hx⟩ := hs.hold x hh
    have hlen : s.mem.prod.length = x.length := by
      rw [hx, rank1_length, hs.len]
    have hstep : chanStep p q r s ChanThread.reducer = some
        { s with mem := { s.mem with prod := (List.zipWith (fun a b => a + b) s.mem.prod x) },
                 recvd := s.recvd + 1, holding := none } := by
      simp only [chanStep, hh, floatsAdd_eq _ _ hlen, Option.map_some']
    refine ⟨_, hstep, ⟨hs.m1, hs.m2, ?_, hs.bufs, ?_⟩, rfl, rfl, rfl, rfl⟩
    · simp [hx, rank1_length, hs.len]
    · intro y hy
      simp at hy

theorem chanStep_caller (p q r : Nat) (mat1 mat2 : List F)
    (s : ChanState F) (hs : ChanShape p q r mat1 mat2 s) :
    ∃ s2, chanStep p q r s ChanThread.caller = some s2 ∧ ChanShape p q r mat1 mat2 s2 ∧
      s2.mem.prod = s.prodAfter ChanThread.caller ∧
      s2.pc = s.pcAfter q ChanThread.caller ∧
      s2.holding = s.holdingAfter p q r mat1 mat2 ChanThread.caller ∧
      s2.ret = (if s.ret.isNone ∧ s.wgZero q then some s.mem.prod else s.ret) := by
  have hprodAfter : s.prodAfter ChanThread.caller = s.mem.prod := by
    simp [ChanState.prodAfter]
  rw [hprodAfter]
  simp only [ChanState.pcAfter, ChanState.holdingAfter]
  by_cases hc : s.ret.isNone ∧ s.wgZero q
  · refine ⟨{ s with ret := some s.mem.prod }, ?_, ⟨hs.m1, hs.m2, hs.len, hs.bufs, hs.hold⟩,
      rfl, rfl, rfl, ?_⟩
    · simp only [chanStep, hc, and_self, if_true]
    · simp only [hc, and_self, if_true]
  · refine ⟨s, ?_, hs, rfl, rfl, rfl, ?_⟩
    · simp only [chanStep, hc, if_false]
    · simp only [hc, if_false]

theorem chanStep_shape (p q r : Nat) (mat1 mat2 : List F)
    (h1 : p * q ≤ mat1.length) (h2 : r * q ≤ mat2.length)
    (s : ChanState F) (hs : ChanShape p q r mat1 mat2 s) (t : ChanThread) :
    ∃ s2, chanStep p q r s t = some s2 ∧ ChanShape p q r mat1 mat2 s2 ∧
      s2.mem.prod = s.prodAfter t ∧ s2.pc = s.pcAfter q t ∧
      s2.holding = s.holdingAfter p q r mat1 mat2 t ∧
      s2.ret = (if t = ChanThread.caller ∧ s.ret.isNone ∧ s.wgZero q then some s.mem.prod
        else s.ret) := by
  cases t with
  | worker k =>
    obtain ⟨s2, a, b, c, d, e, g⟩ := chanStep_worker p q r mat1 mat2 h1 h2 s hs k
    exact ⟨s2, a, b, c, d, e, by simp [g]⟩
  | reducer =>
    obtain ⟨s2, a, b, c, d, e, g⟩ := chanStep_reducer p q r mat1 mat2 s hs
    exact ⟨s2, a, b, c, d, e, by simp [g]⟩
  | caller =>
    obtain ⟨s2, a, b, c, d, e, g⟩ := chanStep_caller p q r mat1 mat2 s hs
    refine ⟨s2, a, b, c, d, e, ?_⟩
    rw [g]
    simp only [true_and]

theorem concurrentMulOuterChan_runs (p q r : Nat) (mat1 mat2 : List F)
    (h1 : p * q ≤ mat1.length) (h2 : r * q ≤ mat2.length) (sched : List ChanThread) :
    ∃ s, concurrentMulOuterChanRun p q r mat1 mat2 sched = some s
      ∧ ChanShape p q r mat1 mat2 s :=
  foldlM_invariant (chanStep p q r) (ChanShape p q r mat1 mat2)
    (fun s e hs =>
      let ⟨s2, hstep, hs2, _⟩ := chanStep_shape p q r mat1 mat2 h1 h2 s hs e
      ⟨s2, hstep, hs2⟩)
    sched _ (chanShape_init p q r mat1 mat2)

theorem chanStep_round (p q r : Nat) (mat1 mat2 : List F)
    (h1 : p * q ≤ mat1.length) (h2 : r * q ≤ mat2.length)
    (s : ChanState F) (hs : ChanShape p q r mat1 mat2 s) (k : Nat) (hk : k < q)
    (hpc : s.pc k = 0) (hh : s.holding = none) (hr : s.recvd < q) :
    ∃ s2, [ChanThread.worker k, ChanThread.worker k, ChanThread.reducer,
        ChanThread.worker k].foldlM (chanStep p q r) s = some s2
      ∧ ChanShape p q r mat1 mat2 s2 ∧ s2.pc = Function.update s.pc k 3
      ∧ s2.holding = none ∧ s2.recvd = s.recvd + 1 := by
  have hlen : s.mem.prod.length = (rank1 p q r mat1 mat2 k).length := by
    rw [rank1_length, hs.len]
  have e1 : chanStep p q r s (ChanThread.worker k) = some
      { s with pc := Function.update s.pc k 1,
               buf := Function.update s.buf k (rank1 p q r mat1 mat2 k) } := by
    simp only [chanStep, hk, hpc, if_true, hs.m1, hs.m2,
      fillBuf_eq p q r k mat1 mat2 hk h1 h2, Option.map_some']
  have e2 : chanStep p q r
      { s with pc := Function.update s.pc k 1,
               buf := Function.update s.buf k (rank1 p q r mat1 mat2 k) }
      (ChanThread.worker k) = some
      { s with pc := Function.update s.pc k 2,
               buf := Function.update s.buf k (rank1 p q r mat1 mat2 k),
               holding := some (rank1 p q r mat1 mat2 k) } := by
    simp [chanStep, hk, hh, hr]
  have e3 : chanStep p q r
      { s with pc := Function.update s.pc k 2,
               buf := Function.update s.buf k (rank1 p q r mat1 mat2 k),
               holding := some (rank1 p q r mat1 mat2 k) }
      ChanThread.reducer = some
      { s with mem := { s.mem with
                  prod := (List.zipWith (fun a b => a + b) s.mem.prod
                    (rank1 p q r mat1 mat2 k)) },
               pc := Function.update s.pc k 2,
               buf := Function.update s.buf k (rank1 p q r mat1 mat2 k),
               recvd := s.recvd + 1, holding := none } := by
    simp only [chanStep, floatsAdd_eq _ _ hlen, Option.map_some']
  have e4 : chanStep p q r
      { s with mem := { s.mem with
                  prod := (List.zipWith (fun a b => a + b) s.mem.prod
                    (rank1 p q r mat1 mat2 k)) },
               pc := Function.update s.pc k 2,
               buf := Function.update s.buf k (rank1 p q r mat1 mat2 k),
               recvd := s.recvd + 1, holding := none }
      (ChanThread.worker k) = some
      { s with mem := { s.mem with
                  prod := (List.zipWith (fun a b => a + b) s.mem.prod
                    (rank1 p q r mat1 mat2 k)) },
               pc := Function.update s.pc k 3,
               buf := Function.update s.buf k (rank1 p q r mat1 mat2 k),
               recvd := s.recvd + 1, holding := none } := by
    simp [chanStep, hk]
  obtain ⟨s2, hrun, hs2⟩ := foldlM_invariant (chanStep p q r) (ChanShape p q r mat1 mat2)
    (fun s e hs =>
      let ⟨s2, hstep, hs2, _⟩ := chanStep_shape p q r mat1 mat2 h1 h2 s hs e
      ⟨s2, hstep, hs2⟩)
    [ChanThread.worker k, ChanThread.worker k, ChanThread.reducer, ChanThread.worker k] s hs
  have hrun2 := hrun
  simp only [List.foldlM_cons, List.foldlM_nil, e1, e2, e3, e4, Option.some_bind,
    Option.bind_eq_bind, Option.pure_def, Option.some.injEq] at hrun2
  subst hrun2
  exact ⟨_, hrun, hs2, rfl, rfl, rfl⟩

theorem chanInTurn_succ (n : Nat) :
    chanInTurn (n + 1) = chanInTurn n ++ [ChanThread.worker n, ChanThread.worker n,
      ChanThread.reducer, ChanThread.worker n] := by
  simp [chanInTurn, List.range_succ, List.flatMap_append]

theorem chanInTurn_run (p q r : Nat) (mat1 mat2 : List F)
    (h1 : p * q ≤ mat1.length) (h2 : r * q ≤ mat2.length) (n : Nat) (hn : n ≤ q) :
    ∃ s, concurrentMulOuterChanRun p q r mat1 mat2 (chanInTurn n) = some s
      ∧ ChanShape p q r mat1 mat2 s ∧ (∀ k, s.pc k = if k < n then 3 else 0)
      ∧ s.holding = none ∧ s.recvd = n := by
  induction n with
  | zero =>
    refine ⟨ChanState.init p r mat1 mat2, rfl, chanShape_init p q r mat1 mat2, ?_, rfl, rfl⟩
    intro k
    simp [ChanState.init]
  | succ n ih =>
    obtain ⟨s, hrun, hs, hpc, hh, hr⟩ := ih (by omega)
    obtain ⟨s2, hrun2, hs2, hpc2, hh2, hr2⟩ := chanStep_round p q r mat1 mat2 h1 h2 s hs n
      (by omega) (by rw [hpc n]; simp) hh (by omega)
    refine ⟨s2, ?_, hs2, ?_, hh2, by omega⟩
    · unfold concurrentMulOuterChanRun at hrun ⊢
      rw [chanInTurn_succ, List.foldlM_append, hrun]
      exact hrun2
    · intro k
      rw [hpc2]
      by_cases hk : k = n
      · subst hk; simp
      · rw [Function.update_noteq hk, hpc k]
        by_cases hlt : k < n
        · rw [if_pos hlt, if_pos (by omega)]
        · rw [if_neg hlt, if_neg (by omega)]

theorem caller_not_mem_chanInTurn (n : Nat) : ChanThread.caller ∉ chanInTurn n := by
  simp [chanInTurn, List.mem_flatMap]

theorem chanInTurn_allMerged (p q r : Nat) (mat1 mat2 : List F)
    (h1 : p * q ≤ mat1.length) (h2 : r * q ≤ mat2.length) :
    chanAllMerged p q r mat1 mat2 (chanInTurn q) = true := by
  obtain ⟨s, hrun, _, hpc, hh, _⟩ := chanInTurn_run p q r mat1 mat2 h1 h2 q le_rfl
  have hz : s.wgZero q = true := by
    simp only [ChanState.wgZero, List.all_eq_true, List.mem_range, decide_eq_true_eq]
    intro k hk
    rw [hpc k, if_pos hk]
    omega
  simp only [chanAllMerged, hrun, hz, hh, Option.isNone_none, Bool.and_self]

theorem prodUpTo_of_le (p q r : Nat) (mat1 mat2 : List F) (T : Nat) (hT : p * r ≤ T) :
    prodUpTo p q r mat1 mat2 T = refProd p q r mat1 mat2 := by
  apply List.ext_getElem?
  intro t
  by_cases ht : t < p * r
  · rw [prodUpTo_getElem? _ _ _ _ _ _ _ ht]
    have : t < T := by omega
    simp [refProd, List.getElem?_range ht, this]
  · rw [List.getElem?_eq_none (by simp [prodUpTo_length]; omega),
      List.getElem?_eq_none (by simp [refProd]; omega)]

theorem dotFrom_one (q : Nat) (mat1 mat2 : List F) (i j : Nat) (init : F) :
    dotFrom q mat1 mat2 i j init 1
      = init + mat1.getD (i * q + 0) 0 * mat2.getD (j * q + 0) 0 := by
  rw [dotFrom_succ]
  rfl

theorem zipAdd_zero_rank1 (p r : Nat) (mat1 mat2 : List F) :
    List.zipWith (fun a b => a + b) (List.replicate (p * r) (0 : F)) (rank1 p 1 r mat1 mat2 0)
      = refProd p 1 r mat1 mat2 := by
  apply List.ext_getElem?
  intro t
  by_cases ht : t < p * r
  · rw [zipAdd_getElem? _ _ t 0 _ (by simp [List.getElem?_replicate, ht])
      (rank1_getElem? p 1 r mat1 mat2 0 t ht)]
    simp only [refProd, List.getElem?_map, List.getElem?_range ht, Option.map_some', cellRef,
      dotFrom_one, contrib]
  · rw [List.getElem?_eq_none (by simp [rank1_length]; omega),
      List.getElem?_eq_none (by simp [refProd]; omega)]

theorem outerBadStep_single (p r : Nat) (mat1 mat2 : List F)
    (h1 : p * 1 ≤ mat1.length) (h2 : r * 1 ≤ mat2.length)
    (s : OuterBadState F)
    (hI : OuterBadShape p r mat1 mat2 s ∧ s.mem.prod = prodUpTo p 1 r mat1 mat2 (s.pc 0))
    (k : Nat) :
    ∃ s2, outerBadStep p 1 r s k = some s2
      ∧ OuterBadShape p r mat1 mat2 s2 ∧ s2.mem.prod = prodUpTo p 1 r mat1 mat2 (s2.pc 0) := by
  obtain ⟨hs, hprod0⟩ := hI
  obtain ⟨s2, hstep, hs2, hprod, hpc⟩ := outerBadStep_shape p 1 r mat1 mat2 h1 h2 s hs k
  refine ⟨s2, hstep, hs2, ?_⟩
  by_cases hk : k < 1
  · have hk0 : k = 0 := by omega
    subst hk0
    by_cases hn : s.pc 0 < p * r
    · rw [if_pos ⟨hk, hn⟩] at hprod
      rw [if_pos ⟨hk, le_of_lt hn⟩] at hpc
      rw [hprod, hpc, Function.update_same, hprod0]
      have hset := prodUpTo_set p 1 r mat1 mat2 (s.pc 0 / r) (s.pc 0 % r) (row_lt hn) (col_lt hn)
      rw [div_mod_flat, dotFrom_one] at hset
      rw [← hset]
      rfl
    · rw [if_neg (fun h => hn h.2)] at hprod
      rw [hprod, hprod0]
      by_cases hq : s.pc 0 ≤ p * r
      · rw [if_pos ⟨hk, hq⟩] at hpc
        rw [hpc, Function.update_same,
          prodUpTo_of_le _ _ _ _ _ _ (by omega), prodUpTo_of_le _ _ _ _ _ _ (by omega)]
      · rw [if_neg (fun h => hq h.2)] at hpc
        rw [hpc]
  · rw [if_neg (fun h => hk h.1)] at hprod hpc
    rw [hprod, hpc]
    exact hprod0

theorem concurrentMulOuterBad_single (p r : Nat) (mat1 mat2 : List F)
    (h1 : p * 1 ≤ mat1.length) (h2 : r * 1 ≤ mat2.length) (sched : List Nat) :
    (concurrentMulOuterBad p 1 r mat1 mat2 sched = Outcome.returned (refProd p 1 r mat1 mat2)
      ∨ concurrentMulOuterBad p 1 r mat1 mat2 sched = Outcome.waiting)
    ∧ (p * r + 1 ≤ sched.count 0 →
        concurrentMulOuterBad p 1 r mat1 mat2 sched
          = Outcome.returned (refProd p 1 r mat1 mat2)) := by
  obtain ⟨s, hrun, hs, hprod⟩ := foldlM_invariant (outerBadStep p 1 r)
    (fun s => OuterBadShape p r mat1 mat2 s ∧ s.mem.prod = prodUpTo p 1 r mat1 mat2 (s.pc 0))
    (fun s e hI => outerBadStep_single p r mat1 mat2 h1 h2 s hI e)
    sched (OuterBadState.init p r mat1 mat2)
    ⟨outerBadShape_init p r mat1 mat2, by
      simp only [OuterBadState.init, Mem.init, prodUpTo_zero]⟩
  have hret : s.wgZero p 1 r = true →
      concurrentMulOuterBad p 1 r mat1 mat2 sched
        = Outcome.returned (refProd p 1 r mat1 mat2) := by
    intro hz
    have hall := (outerBadWgZero_iff p 1 r s).1 hz 0 (by omega)
    rw [prodUpTo_of_le _ _ _ _ _ _ (le_of_lt hall)] at hprod
    simp only [concurrentMulOuterBad, concurrentMulOuterBadRun] at hrun ⊢
    simp only [hrun, hz, if_true, hprod]
  constructor
  · by_cases hz : s.wgZero p 1 r = true
    · exact Or.inl (hret hz)
    · right
      simp only [concurrentMulOuterBad, concurrentMulOuterBadRun] at hrun ⊢
      simp only [hrun, hz]
      rfl
  · intro fair
    apply hret
    apply concurrentMulOuterBad_fair p 1 r mat1 mat2 sched _ s hrun
    intro k hk
    have hk0 : k = 0 := by omega
    subst hk0
    exact fair

theorem outerStep_single (p r : Nat) (mat1 mat2 : List F)
    (h1 : p * 1 ≤ mat1.length) (h2 : r * 1 ≤ mat2.length)
    (s : OuterState F)
    (hI : OuterShape p 1 r mat1 mat2 s
      ∧ s.mem.prod = if 2 ≤ s.pc 0 then refProd p 1 r mat1 mat2 else List.replicate (p * r) 0)
    (k : Nat) :
    ∃ s2, outerStep p 1 r s k = some s2 ∧ OuterShape p 1 r mat1 mat2 s2
      ∧ s2.mem.prod
        = if 2 ≤ s2.pc 0 then refProd p 1 r mat1 mat2 else List.replicate (p * r) 0 := by
  obtain ⟨hs, hprod0⟩ := hI
  obtain ⟨s2, hstep, hs2, hprod, hpc⟩ := outerStep_shape p 1 r mat1 mat2 h1 h2 s hs k
  refine ⟨s2, hstep, hs2, ?_⟩
  by_cases hk : k < 1
  · have hk0 : k = 0 := by omega
    subst hk0
    by_cases hone : s.pc 0 = 1
    · rw [if_pos ⟨hk, hone⟩] at hprod
      rw [if_pos ⟨hk, by omega⟩] at hpc
      rw [if_neg (by omega)] at hprod0
      rw [hprod, hpc, Function.update_same, if_pos (by omega), hprod0]
      exact zipAdd_zero_rank1 p r mat1 mat2
    · rw [if_neg (fun h => hone h.2)] at hprod
      rw [hprod, hprod0]
      by_cases hle : s.pc 0 ≤ 2
      · rw [if_pos ⟨hk, hle⟩] at hpc
        rw [hpc, Function.update_same]
        by_cases h2' : 2 ≤ s.pc 0
        · rw [if_pos h2', if_pos (by omega)]
        · rw [if_neg h2', if_neg (by omega)]
      · rw [if_neg (fun h => hle h.2)] at hpc
        rw [hpc]
  · rw [if_neg (fun h => hk h.1)] at hprod hpc
    rw [hprod, hpc]
    exact hprod0

theorem concurrentMulOuter_single (p r : Nat) (mat1 mat2 : List F)
    (h1 : p * 1 ≤ mat1.length) (h2 : r * 1 ≤ mat2.length) (sched : List Nat) :
    (concurrentMulOuter p 1 r mat1 mat2 sched = Outcome.returned (refProd p 1 r mat1 mat2)
      ∨ concurrentMulOuter p 1 r mat1 mat2 sched = Outcome.waiting)
    ∧ (3 ≤ sched.count 0 →
        concurrentMulOuter p 1 r mat1 mat2 sched
          = Outcome.returned (refProd p 1 r mat1 mat2)) := by
  obtain ⟨s, hrun, hs, hprod⟩ := foldlM_invariant (outerStep p 1 r)
    (fun s => OuterShape p 1 r mat1 mat2 s
      ∧ s.mem.prod = if 2 ≤ s.pc 0 then refProd p 1 r mat1 mat2 else List.replicate (p * r) 0)
    (fun s e hI => outerStep_single p r mat1 mat2 h1 h2 s hI e)
    sched (OuterState.init p r mat1 mat2)
    ⟨outerShape_init p 1 r mat1 mat2, by simp [OuterState.init, Mem.init]⟩
  have hret : s.wgZero 1 = true →
      concurrentMulOuter p 1 r mat1 mat2 sched
        = Outcome.returned (refProd p 1 r mat1 mat2) := by
    intro hz
    have hall := (outerWgZero_iff 1 s).1 hz 0 (by omega)
    rw [if_pos (by omega)] at hprod
    simp only [concurrentMulOuter, concurrentMulOuterRun] at hrun ⊢
    simp only [hrun, hz, if_true, hprod]
  constructor
  · by_cases hz : s.wgZero 1 = true
    · exact Or.inl (hret hz)
    · right
      simp only [concurrentMulOuter, concurrentMulOuterRun] at hrun ⊢
      simp only [hrun, hz]
      rfl
  · intro fair
    apply hret
    apply concurrentMulOuter_fair p 1 r mat1 mat2 sched _ s hrun
    intro k hk
    have hk0 : k = 0 := by omega
    subst hk0
    exact fair

theorem chanStep_ret_of_ne (p q r : Nat) (s s2 : ChanState F) (t : ChanThread)
    (ht : t ≠ ChanThread.caller) (h : chanStep p q r s t = some s2) : s2.ret = s.ret := by
  cases t with
  | caller => exact absurd rfl ht
  | reducer =>
    simp only [chanStep] at h
    split at h
    · simp only [Option.map_eq_some'] at h
      obtain ⟨pr, _, rfl⟩ := h
      rfl
    · cases h; rfl
  | worker k =>
    simp only [chanStep] at h
    split_ifs at h
    · simp only [Option.map_eq_some'] at h
      obtain ⟨pr, _, rfl⟩ := h
      rfl
    all_goals cases h; rfl

theorem chanStep_ret_stays (p q r : Nat) (s s2 : ChanState F) (t : ChanThread) (x : List F)
    (hx : s.ret = some x) (h : chanStep p q r s t = some s2) : s2.ret = some x := by
  by_cases ht : t = ChanThread.caller
  · subst ht
    simp only [chanStep, hx, Option.isNone_some, Bool.false_eq_true, false_and, if_false,
      Option.some.injEq] at h
    subst h
    exact hx
  · rw [chanStep_ret_of_ne p q r s s2 t ht h]
    exact hx

theorem chanRun_ret_of_not_mem (p q r : Nat) (sched : List ChanThread)
    (hs : ChanThread.caller ∉ sched) :
    ∀ s s2 : ChanState F, sched.foldlM (chanStep p q r) s = some s2 → s2.ret = s.ret := by
  induction sched with
  | nil =>
    intro s s2 h
    simp only [List.foldlM_nil] at h
    cases h; rfl
  | cons e rest ih =>
    intro s s2 h
    simp only [List.foldlM_cons, Option.bind_eq_bind] at h
    cases h1 : chanStep p q r s e with
    | none => rw [h1] at h; cases h
    | some s1 =>
      rw [h1] at h
      have he : e ≠ ChanThread.caller := fun h => hs (by simp [h])
      have hr : ChanThread.caller ∉ rest := fun h => hs (by simp [h])
      rw [ih hr s1 s2 h, chanStep_ret_of_ne p q r s s1 e he h1]

theorem chanRun_ret_stays (p q r : Nat) (sched : List ChanThread) (x : List F) :
    ∀ s s2 : ChanState F, s.ret = some x → sched.foldlM (chanStep p q r) s = some s2 →
      s2.ret = some x := by
  induction sched with
  | nil =>
    intro s s2 hx h
    simp only [List.foldlM_nil] at h
    cases h; exact hx
  | cons e rest ih =>
    intro s s2 hx h
    simp only [List.foldlM_cons, Option.bind_eq_bind] at h
    cases h1 : chanStep p q r s e with
    | none => rw [h1] at h; cases h
    | some s1 =>
      rw [h1] at h
      exact ih s1 s2 (chanStep_ret_stays p q r s s1 e x hx h1) h

theorem chanWgZero_iff (q : Nat) (s : ChanState F) :
    s.wgZero q = true ↔ ∀ k, k < q → 2 < s.pc k := by
  simp only [ChanState.wgZero, List.all_eq_true, List.mem_range, decide_eq_true_eq]

theorem concurrentMulOuterChan_returns_prod (p q r : Nat) (mat1 mat2 : List F)
    (h1 : p * q ≤ mat1.length) (h2 : r * q ≤ mat2.length)
    (pre post : List ChanThread) (hpre : ChanThread.caller ∉ pre) (s : ChanState F)
    (hrun : concurrentMulOuterChanRun p q r mat1 mat2 pre = some s)
    (hwg : s.wgZero q = true) :
    concurrentMulOuterChan p q r mat1 mat2 (pre ++ ChanThread.caller :: post)
      = Outcome.returned s.mem.prod := by
  obtain ⟨s1, hrun1, hs1⟩ := concurrentMulOuterChan_runs p q r mat1 mat2 h1 h2 pre
  rw [hrun] at hrun1
  cases hrun1
  have hrun' : pre.foldlM (chanStep p q r) (ChanState.init p r mat1 mat2) = some s := hrun
  have hretnone : s.ret = none := by
    rw [chanRun_ret_of_not_mem p q r pre hpre _ s hrun']
    rfl
  have hcall : chanStep p q r s ChanThread.caller = some { s with ret := some s.mem.prod } := by
    simp only [chanStep, hretnone, hwg, Option.isNone_none, and_self, if_true]
  obtain ⟨s3, hrun3, _⟩ := foldlM_invariant (chanStep p q r) (ChanShape p q r mat1 mat2)
    (fun s e hs =>
      let ⟨s2, hstep, hs2, _⟩ := chanStep_shape p q r mat1 mat2 h1 h2 s hs e
      ⟨s2, hstep, hs2⟩)
    post { s with ret := some s.mem.prod } ⟨hs1.m1, hs1.m2, hs1.len, hs1.bufs, hs1.hold⟩
  have hret3 := chanRun_ret_stays p q r post s.mem.prod _ s3 rfl hrun3
  simp only [concurrentMulOuterChan, concurrentMulOuterChanRun, List.foldlM_append,
    List.foldlM_cons, hrun', hcall, hrun3, Option.some_bind, Option.bind_eq_bind, hret3]

theorem chanStep_single (p r : Nat) (mat1 mat2 : List F)
    (h1 : p * 1 ≤ mat1.length) (h2 : r * 1 ≤ mat2.length)
    (s : ChanState F)
    (hI : ChanShape p 1 r mat1 mat2 s
      ∧ s.mem.prod = if 2 ≤ s.pc 0 ∧ s.holding.isNone = true then refProd p 1 r mat1 mat2
          else List.replicate (p * r) 0)
    (t : ChanThread) :
    ∃ s2, chanStep p 1 r s t = some s2 ∧ ChanShape p 1 r mat1 mat2 s2
      ∧ s2.mem.prod = if 2 ≤ s2.pc 0 ∧ s2.holding.isNone = true then refProd p 1 r mat1 mat2
          else List.replicate (p * r) 0 := by
  obtain ⟨hs, hprod0⟩ := hI
  obtain ⟨s2, hstep, hs2, hprod, hpc, hhold, _⟩ := chanStep_shape p 1 r mat1 mat2 h1 h2 s hs t
  refine ⟨s2, hstep, hs2, ?_⟩
  cases t with
  | caller =>
    simp only [ChanState.pcAfter, ChanState.holdingAfter, ChanState.prodAfter] at hprod hpc hhold
    rw [hprod, hpc, hhold]
    exact hprod0
  | reducer =>
    simp only [ChanState.pcAfter, ChanState.holdingAfter, ChanState.prodAfter] at hprod hpc hhold
    cases hh : s.holding with
    | none =>
      rw [hh] at hprod
      simp only at hprod
      rw [hprod, hpc, hhold, hprod0, hh]
    | some x =>
      rw [hh] at hprod
      simp only at hprod
      obtain ⟨k, hk, hpck, hx⟩ := hs.hold x hh
      have hk0 : k = 0 := by omega
      subst hk0
      rw [hh] at hprod0
      rw [if_neg (by simp)] at hprod0
      rw [hprod, hpc, hhold, if_pos ⟨hpck, rfl⟩, hprod0, hx]
      exact zipAdd_zero_rank1 p r mat1 mat2
  | worker k =>
    have hprod2 : s2.mem.prod = s.mem.prod := by
      rw [hprod]; simp [ChanState.prodAfter]
    simp only [ChanState.pcAfter, ChanState.holdingAfter] at hpc hhold
    by_cases hk : k < 1
    · have hk0 : k = 0 := by omega
      subst hk0
      by_cases hcs : s.canSend 1 0
      · rw [if_pos ⟨hk, Or.inr (Or.inl hcs)⟩] at hpc
        rw [if_pos ⟨hk, hcs⟩] at hhold
        rw [if_neg (by rw [hcs.1]; omega)] at hprod0
        rw [hprod2, hpc, hhold, hprod0, if_neg (by simp)]
      · rw [if_neg (fun h => hcs h.2)] at hhold
        by_cases hmove : s.pc 0 = 0 ∨ s.pc 0 = 2
        · have hc : 0 < 1 ∧ (s.pc 0 = 0 ∨ s.canSend 1 0 ∨ s.pc 0 = 2) := by
            rcases hmove with h | h
            · exact ⟨hk, Or.inl h⟩
            · exact ⟨hk, Or.inr (Or.inr h)⟩
          rw [if_pos hc] at hpc
          rw [hprod2, hpc, hhold, hprod0, Function.update_same]
          by_cases hc2 : 2 ≤ s.pc 0 ∧ s.holding.isNone = true
          · rw [if_pos hc2, if_pos ⟨by omega, hc2.2⟩]
          · rw [if_neg hc2, if_neg (fun h => hc2 ⟨by omega, h.2⟩)]
        · have hc : ¬ (0 < 1 ∧ (s.pc 0 = 0 ∨ s.canSend 1 0 ∨ s.pc 0 = 2)) := by
            rintro ⟨_, h | h | h⟩
            · exact hmove (Or.inl h)
            · exact hcs h
            · exact hmove (Or.inr h)
          rw [if_neg hc] at hpc
          rw [hprod2, hpc, hhold]
          exact hprod0
    · rw [if_neg (fun h => hk h.1)] at hpc hhold
      rw [hprod2, hpc, hhold]
      exact hprod0

theorem concurrentMulOuterChan_single (p r : Nat) (mat1 mat2 : List F)
    (h1 : p * 1 ≤ mat1.length) (h2 : r * 1 ≤ mat2.length)
    (pre post : List ChanThread) (hpre : ChanThread.caller ∉ pre)
    (hall : chanAllMerged p 1 r mat1 mat2 pre = true) :
    concurrentMulOuterChan p 1 r mat1 mat2 (pre ++ ChanThread.caller :: post)
      = Outcome.returned (refProd p 1 r mat1 mat2) := by
  obtain ⟨s, hrun, hs, hprod⟩ := foldlM_invariant (chanStep p 1 r)
    (fun s => ChanShape p 1 r mat1 mat2 s
      ∧ s.mem.prod = if 2 ≤ s.pc 0 ∧ s.holding.isNone = true then refProd p 1 r mat1 mat2
          else List.replicate (p * r) 0)
    (fun s e hI => chanStep_single p r mat1 mat2 h1 h2 s hI e)
    pre (ChanState.init p r mat1 mat2)
    ⟨chanShape_init p 1 r mat1 mat2, by simp [ChanState.init, Mem.init]⟩
  have hrun' : concurrentMulOuterChanRun p 1 r mat1 mat2 pre = some s := hrun
  simp only [chanAllMerged, hrun', Bool.and_eq_true] at hall
  have hpc := (chanWgZero_iff 1 s).1 hall.1 0 (by omega)
  rw [if_pos ⟨by omega, hall.2⟩] at hprod
  rw [concurrentMulOuterChan_returns_prod p 1 r mat1 mat2 h1 h2 pre post hpre s hrun' hall.1,
    hprod]

theorem innerStep_of_wgZero (p q r : Nat) (s : InnerState F) (hz : s.wgZero p q r = true)
    (u : Nat × Nat) : innerStep p q r s u = some s := by
  rw [innerWgZero_iff] at hz
  obtain ⟨i, j⟩ := u
  unfold innerStep
  by_cases hv : i < p ∧ j < r
  · have := hz i j hv.1 hv.2
    rw [if_pos hv, if_neg (by omega), if_neg (by omega)]
  · rw [if_neg hv]

theorem outerBadStep_of_wgZero (p q r : Nat) (s : OuterBadState F)
    (hz : s.wgZero p q r = true) (k : Nat) : outerBadStep p q r s k = some s := by
  rw [outerBadWgZero_iff] at hz
  unfold outerBadStep
  by_cases hk : k < q
  · have := hz k hk
    rw [if_pos hk, if_neg (by omega), if_neg (by omega)]
  · rw [if_neg hk]

theorem outerStep_of_wgZero (p q r : Nat) (s : OuterState F)
    (hz : s.wgZero q = true) (k : Nat) : outerStep p q r s k = some s := by
  rw [outerWgZero_iff] at hz
  unfold outerStep
  by_cases hk : k < q
  · have := hz k hk
    rw [if_pos hk, if_neg (by omega), if_neg (by omega), if_neg (by omega)]
  · rw [if_neg hk]

theorem chanStep_ret_length (p q r : Nat) (mat1 mat2 : List F)
    (h1 : p * q ≤ mat1.length) (h2 : r * q ≤ mat2.length) (s : ChanState F)
    (hI : ChanShape p q r mat1 mat2 s ∧ ∀ x, s.ret = some x → x.length = p * r)
    (t : ChanThread) :
    ∃ s2, chanStep p q r s t = some s2
      ∧ ChanShape p q r mat1 mat2 s2 ∧ ∀ x, s2.ret = some x → x.length = p * r := by
  obtain ⟨s2, hstep, hs2, _, _, _, hret⟩ := chanStep_shape p q r mat1 mat2 h1 h2 s hI.1 t
  refine ⟨s2, hstep, hs2, ?_⟩
  intro x hx
  rw [hret] at hx
  split_ifs at hx
  · cases hx
    exact hI.1.len
  · exact hI.2 x hx

theorem returned_slice_length (p q r : Nat) (mat1 mat2 : List F)
    (h1 : p * q ≤ mat1.length) (h2 : r * q ≤ mat2.length) :
    (∀ x, basicMul p q r mat1 mat2 = some x → x.length = p * r)
    ∧ (∀ sched x, concurrentMulInner p q r mat1 mat2 sched = Outcome.returned x →
        x.length = p * r)
    ∧ (∀ sched x, concurrentMulOuterBad p q r mat1 mat2 sched = Outcome.returned x →
        x.length = p * r)
    ∧ (∀ sched x, concurrentMulOuter p q r mat1 mat2 sched = Outcome.returned x →
        x.length = p * r)
    ∧ (∀ sched x, concurrentMulOuterChan p q r mat1 mat2 sched = Outcome.returned x →
        x.length = p * r) := by
  refine ⟨?_, ?_, ?_, ?_, ?_⟩
  · intro x hx
    rw [basicMul_eq p q r mat1 mat2 h1 h2] at hx
    cases hx
    exact refProd_length p q r mat1 mat2
  · intro sched x hx
    rcases (concurrentMulInner_sound p q r mat1 mat2 h1 h2 sched).1 with h | h
    · rw [h] at hx
      rw [← outcome_returned_inj hx]
      exact refProd_length p q r mat1 mat2
    · rw [h] at hx; cases hx
  · intro sched x hx
    obtain ⟨s, hrun, hs⟩ := concurrentMulOuterBad_runs p q r mat1 mat2 h1 h2 sched
    simp only [concurrentMulOuterBad, hrun] at hx
    split_ifs at hx
    rw [← outcome_returned_inj hx]
    exact hs.len
  · intro sched x hx
    obtain ⟨s, hrun, hs⟩ := concurrentMulOuter_runs p q r mat1 mat2 h1 h2 sched
    simp only [concurrentMulOuter, hrun] at hx
    split_ifs at hx
    rw [← outcome_returned_inj hx]
    exact hs.len
  · intro sched x hx
    obtain ⟨s, hrun, _, hret⟩ := foldlM_invariant (chanStep p q r)
      (fun s => ChanShape p q r mat1 mat2 s ∧ ∀ x, s.ret = some x → x.length = p * r)
      (fun s e hI => chanStep_ret_length p q r mat1 mat2 h1 h2 s hI e)
      sched (ChanState.init p r mat1 mat2)
      ⟨chanShape_init p q r mat1 mat2, by
        intro x hx
        simp [ChanState.init] at hx⟩
    have hrun' : concurrentMulOuterChanRun p q r mat1 mat2 sched = some s := hrun
    simp only [concurrentMulOuterChan, hrun'] at hx
    split at hx
    · rename_i y hy
      rw [← outcome_returned_inj hx]
      exact hret y hy
    · cases hx

theorem getD_take (l : List F) (n i : Nat) (h : i < n) : (l.take n).getD i 0 = l.getD i 0 := by
  rw [List.getD_eq_getElem?_getD, List.getD_eq_getElem?_getD, List.getElem?_take_of_lt h]

theorem dotFrom_take (p q r : Nat) (mat1 mat2 : List F) (i j : Nat) (hi : i < p) (hj : j < r)
    (init : F) (n : Nat) (hn : n ≤ q) :
    dotFrom q (mat1.take (p * q)) (mat2.take (r * q)) i j init n
      = dotFrom q mat1 mat2 i j init n := by
  induction n with
  | zero => simp [dotFrom]
  | succ n ih =>
    rw [dotFrom_succ, dotFrom_succ, ih (by omega),
      getD_take mat1 _ _ (read_lt hi (by omega : n < q) le_rfl),
      getD_take mat2 _ _ (read_lt hj (by omega : n < q) le_rfl)]

theorem refProd_take (p q r : Nat) (mat1 mat2 : List F) :
    refProd p q r (mat1.take (p * q)) (mat2.take (r * q)) = refProd p q r mat1 mat2 := by
  apply List.ext_getElem?
  intro t
  by_cases ht : t < p * r
  · simp only [refProd, List.getElem?_map, List.getElem?_range ht, Option.map_some', cellRef]
    rw [dotFrom_take p q r mat1 mat2 _ _ (row_lt ht) (col_lt ht) 0 q le_rfl]
  · rw [List.getElem?_eq_none (by simp [refProd]; omega),
      List.getElem?_eq_none (by simp [refProd]; omega)]

theorem basicMul_take (p q r : Nat) (mat1 mat2 : List F)
    (h1 : p * q ≤ mat1.length) (h2 : r * q ≤ mat2.length) :
    basicMul p q r (mat1.take (p * q)) (mat2.take (r * q)) = basicMul p q r mat1 mat2 := by
  rw [basicMul_eq p q r mat1 mat2 h1 h2,
    basicMul_eq p q r _ _ (by simp [List.length_take]; omega) (by simp [List.length_take]; omega),
    refProd_take]

theorem concurrentMulInner_char (p q r : Nat) (mat1 mat2 : List F)
    (h1 : p * q ≤ mat1.length) (h2 : r * q ≤ mat2.length) (sched : List (Nat × Nat)) :
    concurrentMulInner p q r mat1 mat2 sched
      = if ∀ i < p, ∀ j < r, q + 1 ≤ sched.count (i, j) then
          Outcome.returned (refProd p q r mat1 mat2)
        else Outcome.waiting := by
  by_cases fair : ∀ i < p, ∀ j < r, q + 1 ≤ sched.count (i, j)
  · rw [if_pos fair]
    exact (concurrentMulInner_sound p q r mat1 mat2 h1 h2 sched).2 fair
  · rw [if_neg fair]
    obtain ⟨s2, hrun, _, hpc⟩ := innerRun_inv p q r mat1 mat2 h1 h2 sched
      (InnerState.init p r mat1 mat2) (innerInv_init p q r mat1 mat2)
    have hz : ¬ s2.wgZero p q r = true := by
      rw [innerWgZero_iff]
      intro hall
      apply fair
      intro i hi j hj
      have := hall i j hi hj
      rw [hpc i j hi hj] at this
      simp only [InnerState.init] at this
      omega
    simp only [concurrentMulInner, concurrentMulInnerRun, hrun, hz]
    rfl

theorem concurrentMulInner_take (p q r : Nat) (mat1 mat2 : List F)
    (h1 : p * q ≤ mat1.length) (h2 : r * q ≤ mat2.length) (sched : List (Nat × Nat)) :
    concurrentMulInner p q r (mat1.take (p * q)) (mat2.take (r * q)) sched
      = concurrentMulInner p q r mat1 mat2 sched := by
  rw [concurrentMulInner_char p q r mat1 mat2 h1 h2,
    concurrentMulInner_char p q r _ _ (by simp [List.length_take]; omega)
      (by simp [List.length_take]; omega),
    refProd_take]

/-- C3 (counterexample): with `p = 4`, `q = 3`, `r = 5`, a first operand of
4x3 = 12 elements and a second operand of 5x4 = 20 elements, `basicMul` does
not fail: it returns the product it computes from the first 15 elements of
the second operand read with stride 3. -/
theorem basicMul_accepts_mismatched_columns :
    basicMul 4 3 5 ([1, 2, 3, 4, 5, 6, 7, 8, 9, 10, 11, 12] : List Int)
        [1, 2, 3, 4, 5, 6, 7, 8, 9, 10, 11, 12, 13, 14, 15, 16, 17, 18, 19, 20]
      = some [14, 32, 50, 68, 86, 32, 77, 122, 167, 212, 50, 122, 194, 266, 338, 68, 167, 266,
          365, 464]
    ∧ basicMul 4 3 5 ([1, 2, 3, 4, 5, 6, 7, 8, 9, 10, 11, 12] : List Int)
        [1, 2, 3, 4, 5, 6, 7, 8, 9, 10, 11, 12, 13, 14, 15, 16, 17, 18, 19, 20]
      = basicMul 4 3 5 ([1, 2, 3, 4, 5, 6, 7, 8, 9, 10, 11, 12] : List Int)
        [1, 2, 3, 4, 5, 6, 7, 8, 9, 10, 11, 12, 13, 14, 15] := by
  constructor
  · rw [basicMul_eq 4 3 5 _ _ (by decide) (by decide)]
    decide
  · rw [basicMul_eq 4 3 5 _ _ (by decide) (by decide),
      basicMul_eq 4 3 5 _ _ (by decide) (by decide)]
    decide

/-- C3 (amended): no multiplier compares column counts.  On operands of at
least `p*q` and `r*q` elements none of the five multipliers fails, whatever
the schedule, and `basicMul` and `concurrentMulInner` give exactly what they
give on the operands cut down to their first `p*q` and `r*q` elements. -/
theorem multipliers_do_not_check_columns (p q r : Nat) (mat1 mat2 : List F)
    (h1 : p * q ≤ mat1.length) (h2 : r * q ≤ mat2.length) :
    (∃ prod, basicMul p q r mat1 mat2 = some prod
      ∧ basicMul p q r (mat1.take (p * q)) (mat2.take (r * q)) = some prod)
    ∧ (∀ sched, concurrentMulInner p q r mat1 mat2 sched ≠ Outcome.panicked
        ∧ concurrentMulInner p q r mat1 mat2 sched
          = concurrentMulInner p q r (mat1.take (p * q)) (mat2.take (r * q)) sched)
    ∧ (∀ sched, concurrentMulOuterBad p q r mat1 mat2 sched ≠ Outcome.panicked)
    ∧ (∀ sched, concurrentMulOuter p q r mat1 mat2 sched ≠ Outcome.panicked)
    ∧ (∀ sched, concurrentMulOuterChan p q r mat1 mat2 sched ≠ Outcome.panicked) := by
  refine ⟨⟨_, basicMul_eq p q r mat1 mat2 h1 h2, ?_⟩, ?_, ?_, ?_, ?_⟩
  · rw [basicMul_take p q r mat1 mat2 h1 h2]
    exact basicMul_eq p q r mat1 mat2 h1 h2
  · intro sched
    refine ⟨?_, (concurrentMulInner_take p q r mat1 mat2 h1 h2 sched).symm⟩
    rw [concurrentMulInner_char p q r mat1 mat2 h1 h2]
    split <;> intro h <;> cases h
  · intro sched
    obtain ⟨s, hrun, _⟩ := concurrentMulOuterBad_runs p q r mat1 mat2 h1 h2 sched
    simp only [concurrentMulOuterBad, hrun]
    split <;> intro h <;> cases h
  · intro sched
    obtain ⟨s, hrun, _⟩ := concurrentMulOuter_runs p q r mat1 mat2 h1 h2 sched
    simp only [concurrentMulOuter, hrun]
    split <;> intro h <;> cases h
  · intro sched
    obtain ⟨s, hrun, _⟩ := concurrentMulOuterChan_runs p q r mat1 mat2 h1 h2 sched
    simp only [concurrentMulOuterChan, hrun]
    split <;> intro h <;> cases h

theorem multipliers_do_not_check_columns_witness :
    4 * 3 ≤ ([1, 2, 3, 4, 5, 6, 7, 8, 9, 10, 11, 12] : List Int).length
    ∧ 5 * 3 ≤ ([1, 2, 3, 4, 5, 6, 7, 8, 9, 10, 11, 12, 13, 14, 15, 16, 17, 18, 19, 20]
        : List Int).length
    ∧ ∀ sched, concurrentMulOuterChan 4 3 5 ([1, 2, 3, 4, 5, 6, 7, 8, 9, 10, 11, 12] : List Int)
        [1, 2, 3, 4, 5, 6, 7, 8, 9, 10, 11, 12, 13, 14, 15, 16, 17, 18, 19, 20] sched
          ≠ Outcome.panicked :=
  ⟨by decide, by decide,
    (multipliers_do_not_check_columns 4 3 5 [1, 2, 3, 4, 5, 6, 7, 8, 9, 10, 11, 12]
      [1, 2, 3, 4, 5, 6, 7, 8, 9, 10, 11, 12, 13, 14, 15, 16, 17, 18, 19, 20]
      (by decide) (by decide)).2.2.2.2⟩

/-- C4 (failing run): with `p = 2`, `q = 2`, `r = 1` the goroutine `outer(0)`
hands its buffer to the receiving goroutine and calls `wg.Done()`, and the
caller returns `prod` while the receiving goroutine has finished one of its two
iterations and still holds the buffer `[5, 15]` it has not added: the returned
slice is `[12, 24]` and not the product `[17, 39]`. -/
theorem concurrentMulOuterChan_returns_before_last_merge :
    concurrentMulOuterChan 2 2 1 ([1, 2, 3, 4] : List Int) [5, 6]
        [ChanThread.worker 0, ChanThread.worker 1, ChanThread.worker 1, ChanThread.reducer,
          ChanThread.worker 0, ChanThread.worker 1, ChanThread.worker 0, ChanThread.caller]
      = Outcome.returned [12, 24]
    ∧ (concurrentMulOuterChanRun 2 2 1 ([1, 2, 3, 4] : List Int) [5, 6]
        [ChanThread.worker 0, ChanThread.worker 1, ChanThread.worker 1, ChanThread.reducer,
          ChanThread.worker 0, ChanThread.worker 1, ChanThread.worker 0, ChanThread.caller]).map
        (fun s => (s.recvd, s.holding)) = some (1, some [5, 15])
    ∧ basicMul 2 2 1 ([1, 2, 3, 4] : List Int) [5, 6] = some [17, 39] := by
  refine ⟨?_, ?_, ?_⟩ <;> decide

/-- C6 (failing run): with `q = 1`, `p = 1`, `r = 2` the single goroutine
`outer(0)` of `concurrentMulOuterChan` sends its buffer and calls `wg.Done()`,
and the caller returns `[0, 0]` before the receiving goroutine adds the buffer,
while `basicMul` returns `[6, 10]`. -/
theorem concurrentMulOuterChan_single_unit_differs :
    concurrentMulOuterChan 1 1 2 ([2] : List Int) [3, 5]
        [ChanThread.worker 0, ChanThread.worker 0, ChanThread.worker 0, ChanThread.caller]
      = Outcome.returned [0, 0]
    ∧ basicMul 1 1 2 ([2] : List Int) [3, 5] = some [6, 10] := by
  constructor <;> decide

/-- C7 (failing run): the slice `concurrentMulOuterChan` has returned, `[12, 24]`,
does not hold the final values: the next step of the receiving goroutine
writes `[17, 39]` into `prod` after the return. -/
theorem concurrentMulOuterChan_written_after_return :
    (concurrentMulOuterChanRun 2 2 1 ([1, 2, 3, 4] : List Int) [5, 6]
        [ChanThread.worker 0, ChanThread.worker 1, ChanThread.worker 1, ChanThread.reducer,
          ChanThread.worker 0, ChanThread.worker 1, ChanThread.worker 0,
          ChanThread.caller]).map (fun s => (s.ret, s.mem.prod))
      = some (some [12, 24], [12, 24])
    ∧ (concurrentMulOuterChanRun 2 2 1 ([1, 2, 3, 4] : List Int) [5, 6]
        [ChanThread.worker 0, ChanThread.worker 1, ChanThread.worker 1, ChanThread.reducer,
          ChanThread.worker 0, ChanThread.worker 1, ChanThread.worker 0,
          ChanThread.caller, ChanThread.reducer]).map (fun s => (s.ret, s.mem.prod))
      = some (some [12, 24], [17, 39]) := by
  constructor <;> decide

/-- C5 (counterexample): float64 operands of lengths `1*3` and `1*3` on which
`basicMul` returns `[0]` and `concurrentMulOuter`, merging the buffers in the
order 0, 2, 1, returns `[1]`; the two outputs are not within the tolerance
`1e-12` of the harness (nor within `1e-9`). -/
theorem outer_product_outside_tolerance :
    basicMul 1 3 1 [F64.fin 1 60, F64.fin 1 0, F64.fin (-1) 60]
        [F64.fin 1 0, F64.fin 1 0, F64.fin 1 0] = some [F64.fin 0 0]
    ∧ concurrentMulOuter 1 3 1 [F64.fin 1 60, F64.fin 1 0, F64.fin (-1) 60]
        [F64.fin 1 0, F64.fin 1 0, F64.fin 1 0] [0, 0, 0, 2, 2, 2, 1, 1, 1]
      = Outcome.returned [F64.fin 1 0]
    ∧ F64.equalApprox (10 ^ 12) [F64.fin 0 0] [F64.fin 1 0] = false
    ∧ F64.equalApprox (10 ^ 9) [F64.fin 0 0] [F64.fin 1 0] = false := by
  refine ⟨?_, ?_, ?_, ?_⟩ <;> decide

theorem mulAcc_operands (m m2 : Mem F) (ii a b : Nat) (h : m.mulAcc ii a b = some m2) :
    (m2.mat1, m2.mat2) = (m.mat1, m.mat2) := by
  unfold Mem.mulAcc at h
  simp only [Option.bind_eq_bind, Option.bind_eq_some, Option.some.injEq] at h
  obtain ⟨x, _, y, _, c, _, rfl⟩ := h
  rfl

theorem kLoop_operands (q r i j : Nat) (m m2 : Mem F) (h : kLoop q r i j m = some m2) :
    (m2.mat1, m2.mat2) = (m.mat1, m.mat2) :=
  foldlM_preserved _ (fun m : Mem F => (m.mat1, m.mat2))
    (fun s _ s2 hs => mulAcc_operands s s2 _ _ _ hs) _ m m2 h

theorem jLoop_operands (q r i : Nat) (m m2 : Mem F) (h : jLoop q r i m = some m2) :
    (m2.mat1, m2.mat2) = (m.mat1, m.mat2) :=
  foldlM_preserved _ (fun m : Mem F => (m.mat1, m.mat2))
    (fun s e s2 hs => kLoop_operands q r i e s s2 hs) _ m m2 h

theorem basicMulMem_operands (p q r : Nat) (mat1 mat2 : List F) (m : Mem F)
    (h : basicMulMem p q r mat1 mat2 = some m) : (m.mat1, m.mat2) = (mat1, mat2) :=
  foldlM_preserved _ (fun m : Mem F => (m.mat1, m.mat2))
    (fun s e s2 hs => jLoop_operands q r e s s2 hs) _ (Mem.init p r mat1 mat2) m h

theorem innerStep_operands (p q r : Nat) (s s2 : InnerState F) (u : Nat × Nat)
    (h : innerStep p q r s u = some s2) :
    (s2.mem.mat1, s2.mem.mat2) = (s.mem.mat1, s.mem.mat2) := by
  unfold innerStep at h
  split_ifs at h
  · simp only [Option.map_eq_some'] at h
    obtain ⟨m, hm, rfl⟩ := h
    exact mulAcc_operands _ _ _ _ _ hm
  all_goals cases h; rfl

theorem outerBadStep_operands (p q r : Nat) (s s2 : OuterBadState F) (k : Nat)
    (h : outerBadStep p q r s k = some s2) :
    (s2.mem.mat1, s2.mem.mat2) = (s.mem.mat1, s.mem.mat2) := by
  unfold outerBadStep at h
  split_ifs at h
  · simp only [Option.map_eq_some'] at h
    obtain ⟨m, hm, rfl⟩ := h
    exact mulAcc_operands _ _ _ _ _ hm
  all_goals cases h; rfl

theorem outerStep_operands (p q r : Nat) (s s2 : OuterState F) (k : Nat)
    (h : outerStep p q r s k = some s2) :
    (s2.mem.mat1, s2.mem.mat2) = (s.mem.mat1, s.mem.mat2) := by
  unfold outerStep at h
  split_ifs at h
  · simp only [Option.map_eq_some'] at h
    obtain ⟨m, _, rfl⟩ := h
    rfl
  · simp only [Option.map_eq_some'] at h
    obtain ⟨m, _, rfl⟩ := h
    rfl
  all_goals cases h; rfl

theorem chanStep_operands (p q r : Nat) (s s2 : ChanState F) (t : ChanThread)
    (h : chanStep p q r s t = some s2) :
    (s2.mem.mat1, s2.mem.mat2) = (s.mem.mat1, s.mem.mat2) := by
  cases t with
  | caller =>
    simp only [chanStep] at h
    split_ifs at h
    all_goals cases h; rfl
  | reducer =>
    simp only [chanStep] at h
    split at h
    · simp only [Option.map_eq_some'] at h
      obtain ⟨pr, _, rfl⟩ := h
      rfl
    · cases h; rfl
  | worker k =>
    simp only [chanStep] at h
    split_ifs at h
    · simp only [Option.map_eq_some'] at h
      obtain ⟨pr, _, rfl⟩ := h
      rfl
    all_goals cases h; rfl

theorem chanStep_operands_run (p q r : Nat) (mat1 mat2 : List F) (sched : List ChanThread)
    (s : ChanState F) (h : concurrentMulOuterChanRun p q r mat1 mat2 sched = some s) :
    s.mem.mat1 = mat1 ∧ s.mem.mat2 = mat2 := by
  have := foldlM_preserved _ (fun s : ChanState F => (s.mem.mat1, s.mem.mat2))
    (fun s e s2 hs => chanStep_operands p q r s s2 e hs) sched _ s h
  exact ⟨(Prod.mk.inj this).1, (Prod.mk.inj this).2⟩

/-- C8: the operands are read-only.  For every input pair and every schedule,
the memory a multiplier leaves behind holds `mat1` and `mat2` exactly as they
were passed in (for `basicMul` and for every state the four concurrent
multipliers can reach), so what `main` hands to the next multiplier is the pair
it handed to the one before. -/
theorem operands_are_read_only (p q r : Nat) (mat1 mat2 : List F) :
    (∀ m, basicMulMem p q r mat1 mat2 = some m → m.mat1 = mat1 ∧ m.mat2 = mat2)
    ∧ (∀ sched s, concurrentMulInnerRun p q r mat1 mat2 sched = some s →
        s.mem.mat1 = mat1 ∧ s.mem.mat2 = mat2)
    ∧ (∀ sched s, concurrentMulOuterBadRun p q r mat1 mat2 sched = some s →
        s.mem.mat1 = mat1 ∧ s.mem.mat2 = mat2)
    ∧ (∀ sched s, concurrentMulOuterRun p q r mat1 mat2 sched = some s →
        s.mem.mat1 = mat1 ∧ s.mem.mat2 = mat2)
    ∧ (∀ sched s, concurrentMulOuterChanRun p q r mat1 mat2 sched = some s →
        s.mem.mat1 = mat1 ∧ s.mem.mat2 = mat2)
    ∧ (∀ c, basicMulCall p q r mat1 mat2 = Outcome.returned c → c.mat1 = mat1 ∧ c.mat2 = mat2)
    ∧ (∀ sched c, concurrentMulInnerCall p q r sched mat1 mat2 = Outcome.returned c →
        c.mat1 = mat1 ∧ c.mat2 = mat2)
    ∧ (∀ sched c, concurrentMulOuterCall p q r sched mat1 mat2 = Outcome.returned c →
        c.mat1 = mat1 ∧ c.mat2 = mat2)
    ∧ (∀ sched c, concurrentMulOuterChanCall p q r sched mat1 mat2 = Outcome.returned c →
        c.mat1 = mat1 ∧ c.mat2 = mat2) := by
  have hb : ∀ m, basicMulMem p q r mat1 mat2 = some m → m.mat1 = mat1 ∧ m.mat2 = mat2 := by
    intro m h
    have := basicMulMem_operands p q r mat1 mat2 m h
    exact ⟨(Prod.mk.inj this).1, (Prod.mk.inj this).2⟩
  have hi : ∀ sched s, concurrentMulInnerRun p q r mat1 mat2 sched = some s →
      s.mem.mat1 = mat1 ∧ s.mem.mat2 = mat2 := by
    intro sched s h
    have := foldlM_preserved _ (fun s : InnerState F => (s.mem.mat1, s.mem.mat2))
      (fun s e s2 hs => innerStep_operands p q r s s2 e hs) sched _ s h
    exact ⟨(Prod.mk.inj this).1, (Prod.mk.inj this).2⟩
  have hob : ∀ sched s, concurrentMulOuterBadRun p q r mat1 mat2 sched = some s →
      s.mem.mat1 = mat1 ∧ s.mem.mat2 = mat2 := by
    intro sched s h
    have := foldlM_preserved _ (fun s : OuterBadState F => (s.mem.mat1, s.mem.mat2))
      (fun s e s2 hs => outerBadStep_operands p q r s s2 e hs) sched _ s h
    exact ⟨(Prod.mk.inj this).1, (Prod.mk.inj this).2⟩
  have ho : ∀ sched s, concurrentMulOuterRun p q r mat1 mat2 sched = some s →
      s.mem.mat1 = mat1 ∧ s.mem.mat2 = mat2 := by
    intro sched s h
    have := foldlM_preserved _ (fun s : OuterState F => (s.mem.mat1, s.mem.mat2))
      (fun s e s2 hs => outerStep_operands p q r s s2 e hs) sched _ s h
    exact ⟨(Prod.mk.inj this).1, (Prod.mk.inj this).2⟩
  have hc : ∀ sched s, concurrentMulOuterChanRun p q r mat1 mat2 sched = some s →
      s.mem.mat1 = mat1 ∧ s.mem.mat2 = mat2 := by
    intro sched s h
    have := foldlM_preserved _ (fun s : ChanState F => (s.mem.mat1, s.mem.mat2))
      (fun s e s2 hs => chanStep_operands p q r s s2 e hs) sched _ s h
    exact ⟨(Prod.mk.inj this).1, (Prod.mk.inj this).2⟩
  refine ⟨hb, hi, hob, ho, hc, ?_, ?_, ?_, ?_⟩
  · intro c h
    unfold basicMulCall at h
    cases h1 : basicMulMem p q r mat1 mat2 with
    | none => rw [h1] at h; cases h
    | some m =>
      rw [h1] at h
      cases h
      exact hb m h1
  · intro sched c h
    unfold concurrentMulInnerCall at h
    cases h1 : concurrentMulInnerRun p q r mat1 mat2 sched with
    | none => rw [h1] at h; cases h
    | some s =>
      rw [h1] at h
      simp only at h
      split_ifs at h
      cases h
      exact hi sched s h1
  · intro sched c h
    unfold concurrentMulOuterCall at h
    cases h1 : concurrentMulOuterRun p q r mat1 mat2 sched with
    | none => rw [h1] at h; cases h
    | some s =>
      rw [h1] at h
      simp only at h
      split_ifs at h
      cases h
      exact ho sched s h1
  · intro sched c h
    unfold concurrentMulOuterChanCall at h
    cases h1 : concurrentMulOuterChanRun p q r mat1 mat2 sched with
    | none => rw [h1] at h; cases h
    | some s =>
      rw [h1] at h
      simp only at h
      split at h
      · cases h
        exact hc sched s h1
      · cases h

theorem mismatchLines_eq_flatMap (approx : List F → List F → Bool) (prod : List (List F)) :
    mismatchLines approx prod
      = prod.enum.flatMap (fun ix =>
          (prod.enum.filter (fun jy => !approx ix.2 jy.2)).map
            (fun jy => Line.differ ix.1 jy.1)) := by
  unfold mismatchLines
  have hin : (fun (out : List Line) (ix : Nat × List F) =>
      prod.enum.foldl (fun out jy =>
        if !approx ix.2 jy.2 then out ++ [Line.differ ix.1 jy.1] else out) out)
      = (fun out ix => out ++ (prod.enum.filter (fun jy => !approx ix.2 jy.2)).map
          (fun jy => Line.differ ix.1 jy.1)) := by
    funext out ix
    exact foldl_ite_append (fun jy => !approx ix.2 jy.2) (fun jy => Line.differ ix.1 jy.1)
      prod.enum out
  rw [hin, foldl_append_flatMap]
  simp

theorem mem_mismatchLines (approx : List F → List F → Bool) (prod : List (List F)) (i j : Nat) :
    Line.differ i j ∈ mismatchLines approx prod
      ↔ ∃ x y, prod[i]? = some x ∧ prod[j]? = some y ∧ approx x y = false := by
  rw [mismatchLines_eq_flatMap]
  simp only [List.mem_flatMap, List.mem_map, List.mem_filter, Bool.not_eq_true',
    List.mem_enum_iff_getElem?, Line.differ.injEq, Prod.exists]
  constructor
  · rintro ⟨i2, x, hx, j2, y, ⟨hy, hxy⟩, rfl, rfl⟩
    exact ⟨x, y, hx, hy, hxy⟩
  · rintro ⟨x, y, hx, hy, hxy⟩
    exact ⟨i, x, hx, j, y, ⟨hy, hxy⟩, rfl, rfl⟩

theorem duration_not_mem_mismatchLines (approx : List F → List F → Bool) (prod : List (List F))
    (d : Int) : Line.duration d ∉ mismatchLines approx prod := by
  rw [mismatchLines_eq_flatMap]
  simp only [List.mem_flatMap, List.mem_map, List.mem_filter, Prod.exists, not_exists, not_and]
  intro i x _ j y _ h
  cases h

theorem enum_fst_inj {α : Type} (l : List α) (a b : Nat × α)
    (ha : a ∈ l.enum) (hb : b ∈ l.enum) (h : a.1 = b.1) : a = b := by
  rw [List.mem_enum_iff_getElem?] at ha hb
  rw [h, hb] at ha
  cases a
  cases b
  simp only [Option.some.injEq] at ha
  simp only at h
  rw [h, ha]

theorem enum_nodup {α : Type} (l : List α) : l.enum.Nodup := by
  have h : (l.enum.map Prod.fst).Nodup := by
    rw [List.enum_map_fst]
    exact List.nodup_range _
  exact List.Nodup.of_map _ h

theorem mismatchLines_nodup (approx : List F → List F → Bool) (prod : List (List F)) :
    (mismatchLines approx prod).Nodup := by
  rw [mismatchLines_eq_flatMap, List.nodup_flatMap]
  constructor
  · intro ix _
    apply List.Nodup.map_on
    · intro a ha b hb hab
      simp only [Line.differ.injEq, true_and] at hab
      exact enum_fst_inj prod a b (List.mem_of_mem_filter ha) (List.mem_of_mem_filter hb) hab
    · exact (enum_nodup prod).filter _
  · apply List.Pairwise.imp_of_mem _ (enum_nodup prod)
    intro a b ha hb hab
    simp only [Function.onFun, List.disjoint_left, List.mem_map, List.mem_filter,
      Bool.not_eq_true', not_exists, not_and, forall_exists_index, and_imp]
    intro l y _ _ hl z _ _ hl2
    rw [← hl] at hl2
    simp only [Line.differ.injEq] at hl2
    exact hab (enum_fst_inj prod a b ha hb hl2.1.symm)

theorem basicMulCall_eq (p q r : Nat) (mat1 mat2 : List F)
    (h1 : p * q ≤ mat1.length) (h2 : r * q ≤ mat2.length) :
    basicMulCall p q r mat1 mat2
      = Outcome.returned { mat1 := mat1, mat2 := mat2, ret := refProd p q r mat1 mat2 } := by
  simp only [basicMulCall, basicMulMem_eq p q r mat1 mat2 h1 h2]

theorem concurrentMulInnerCall_eq (p q r : Nat) (mat1 mat2 : List F)
    (h1 : p * q ≤ mat1.length) (h2 : r * q ≤ mat2.length) (sched : List (Nat × Nat))
    (fair : ∀ i < p, ∀ j < r, q + 1 ≤ sched.count (i, j)) :
    concurrentMulInnerCall p q r sched mat1 mat2
      = Outcome.returned { mat1 := mat1, mat2 := mat2, ret := refProd p q r mat1 mat2 } := by
  have hret := (concurrentMulInner_sound p q r mat1 mat2 h1 h2 sched).2 fair
  obtain ⟨s2, hrun, hs2, _⟩ := innerRun_inv p q r mat1 mat2 h1 h2 sched
    (InnerState.init p r mat1 mat2) (innerInv_init p q r mat1 mat2)
  have hrun2 : concurrentMulInnerRun p q r mat1 mat2 sched = some s2 := hrun
  simp only [concurrentMulInner, hrun2] at hret
  simp only [concurrentMulInnerCall, hrun2]
  split_ifs at hret ⊢
  rw [hs2.m1, hs2.m2, outcome_returned_inj hret]

theorem concurrentMulOuterCall_eq (p q r : Nat) (mat1 mat2 : List F)
    (h1 : p * q ≤ mat1.length) (h2 : r * q ≤ mat2.length) (sched : List Nat)
    (fair : ∀ k < q, 3 ≤ sched.count k) :
    ∃ x, concurrentMulOuter p q r mat1 mat2 sched = Outcome.returned x
      ∧ concurrentMulOuterCall p q r sched mat1 mat2
        = Outcome.returned { mat1 := mat1, mat2 := mat2, ret := x } := by
  obtain ⟨s, hrun, hs⟩ := concurrentMulOuter_runs p q r mat1 mat2 h1 h2 sched
  have hz := concurrentMulOuter_fair p q r mat1 mat2 sched fair s hrun
  refine ⟨s.mem.prod, ?_, ?_⟩
  · simp only [concurrentMulOuter, hrun, hz, if_true]
  · simp only [concurrentMulOuterCall, hrun, hz, if_true, hs.m1, hs.m2]

theorem concurrentMulOuterChanCall_eq (p q r : Nat) (mat1 mat2 : List F)
    (sched : List ChanThread) (x : List F)
    (h : concurrentMulOuterChan p q r mat1 mat2 sched = Outcome.returned x) :
    concurrentMulOuterChanCall p q r sched mat1 mat2
      = Outcome.returned { mat1 := mat1, mat2 := mat2, ret := x } := by
  unfold concurrentMulOuterChan at h
  unfold concurrentMulOuterChanCall
  cases hrun : concurrentMulOuterChanRun p q r mat1 mat2 sched with
  | none => rw [hrun] at h; cases h
  | some s =>
    rw [hrun] at h
    have hop := (chanStep_operands_run p q r mat1 mat2 sched s hrun)
    simp only at h ⊢
    cases hret : s.ret with
    | none => rw [hret] at h; cases h
    | some y =>
      rw [hret] at h
      simp only at h ⊢
      rw [hop.1, hop.2, outcome_returned_inj h]

end BasicMul

section Exact

variable {F : Type} [AddCommMonoid F] [Mul F]

theorem dotFrom_eq_sum (q : Nat) (mat1 mat2 : List F) (i j n : Nat) :
    dotFrom q mat1 mat2 i j 0 n
      = ∑ k in Finset.range n, mat1.getD (i * q + k) 0 * mat2.getD (j * q + k) 0 := by
  induction n with
  | zero => simp [dotFrom]
  | succ n ih => rw [dotFrom_succ, ih, Finset.sum_range_succ]

theorem cellRef_eq_sum (q r : Nat) (mat1 mat2 : List F) (t : Nat) :
    cellRef q r mat1 mat2 t = ∑ k in Finset.range q, contrib q r mat1 mat2 k t := by
  simp only [cellRef, dotFrom_eq_sum, contrib]

theorem outerBadSum_init (p q r : Nat) (mat1 mat2 : List F) :
    OuterBadSum p q r mat1 mat2 (OuterBadState.init p r mat1 mat2) := by
  intro t ht
  simp [OuterBadState.init, Mem.init, List.getElem?_replicate, ht]

theorem outerBadStep_sum (p q r : Nat) (mat1 mat2 : List F)
    (h1 : p * q ≤ mat1.length) (h2 : r * q ≤ mat2.length)
    (s : OuterBadState F) (hs : OuterBadShape p r mat1 mat2 s)
    (hsum : OuterBadSum p q r mat1 mat2 s) (k : Nat) :
    ∃ s2, outerBadStep p q r s k = some s2 ∧ OuterBadShape p r mat1 mat2 s2
      ∧ OuterBadSum p q r mat1 mat2 s2 := by
  obtain ⟨s2, hstep, hs2, hprod, hpc⟩ := outerBadStep_shape p q r mat1 mat2 h1 h2 s hs k
  refine ⟨s2, hstep, hs2, ?_⟩
  intro t ht
  rw [hprod, hpc]
  by_cases hk : k < q
  · by_cases hn : s.pc k < p * r
    · simp only [hk, hn, le_of_lt hn, and_self, if_true]
      have hlen : s.pc k < s.mem.prod.length := by rw [hs.len]; exact hn
      by_cases he : s.pc k = t
      · have hkmem : k ∉ (Finset.range q).filter (fun k2 => t < s.pc k2) := by
          simp [he]
        have hfil : (Finset.range q).filter (fun k2 => t < Function.update s.pc k (s.pc k + 1) k2)
            = insert k ((Finset.range q).filter (fun k2 => t < s.pc k2)) := by
          ext k2
          by_cases hk2 : k2 = k
          · subst hk2; simp [hk, he]
          · simp [Function.update_noteq hk2, hk2]
        rw [hfil, Finset.sum_insert hkmem, he, List.getElem?_set_self (by rw [← he]; exact hlen),
          List.getD_eq_getElem?_getD, hsum t ht, add_comm]
        rfl
      · have hfil : (Finset.range q).filter (fun k2 => t < Function.update s.pc k (s.pc k + 1) k2)
            = (Finset.range q).filter (fun k2 => t < s.pc k2) := by
          ext k2
          by_cases hk2 : k2 = k
          · subst hk2
            simp only [Finset.mem_filter, Function.update_same]
            constructor
            · rintro ⟨a, b⟩; exact ⟨a, by omega⟩
            · rintro ⟨a, b⟩; exact ⟨a, by omega⟩
          · simp [Function.update_noteq hk2]
        rw [hfil, List.getElem?_set_ne he]
        exact hsum t ht
    · have hne : ¬ (k < q ∧ s.pc k < p * r) := fun h => hn h.2
      rw [if_neg hne]
      by_cases hq : s.pc k ≤ p * r
      · rw [if_pos ⟨hk, hq⟩]
        have hfil : (Finset.range q).filter (fun k2 => t < Function.update s.pc k (s.pc k + 1) k2)
            = (Finset.range q).filter (fun k2 => t < s.pc k2) := by
          ext k2
          by_cases hk2 : k2 = k
          · subst hk2
            simp only [Finset.mem_filter, Function.update_same]
            constructor
            · rintro ⟨a, b⟩; exact ⟨a, by omega⟩
            · rintro ⟨a, b⟩; exact ⟨a, by omega⟩
          · simp [Function.update_noteq hk2]
        rw [hfil]
        exact hsum t ht
      · rw [if_neg (fun h => hq h.2)]
        exact hsum t ht
  · rw [if_neg (fun h => hk h.1), if_neg (fun h => hk h.1)]
    exact hsum t ht

theorem concurrentMulOuterBad_exact (p q r : Nat) (mat1 mat2 : List F)
    (h1 : p * q ≤ mat1.length) (h2 : r * q ≤ mat2.length) (sched : List Nat) :
    (concurrentMulOuterBad p q r mat1 mat2 sched = Outcome.returned (refProd p q r mat1 mat2)
      ∨ concurrentMulOuterBad p q r mat1 mat2 sched = Outcome.waiting)
    ∧ ((∀ k < q, p * r + 1 ≤ sched.count k) →
        concurrentMulOuterBad p q r mat1 mat2 sched
          = Outcome.returned (refProd p q r mat1 mat2)) := by
  obtain ⟨s, hrun, hs, hsum⟩ := foldlM_invariant (outerBadStep p q r)
    (fun s => OuterBadShape p r mat1 mat2 s ∧ OuterBadSum p q r mat1 mat2 s)
    (fun s e hI =>
      let ⟨s2, hstep, hs2, hsum2⟩ := outerBadStep_sum p q r mat1 mat2 h1 h2 s hI.1 hI.2 e
      ⟨s2, hstep, hs2, hsum2⟩)
    sched (OuterBadState.init p r mat1 mat2)
    ⟨outerBadShape_init p r mat1 mat2, outerBadSum_init p q r mat1 mat2⟩
  have hret : s.wgZero p q r = true →
      concurrentMulOuterBad p q r mat1 mat2 sched
        = Outcome.returned (refProd p q r mat1 mat2) := by
    intro hz
    have hall := (outerBadWgZero_iff p q r s).1 hz
    have hprod : s.mem.prod = refProd p q r mat1 mat2 := by
      apply eq_refProd_of_flat p q r mat1 mat2 _ hs.len
      intro t ht
      rw [hsum t ht, cellRef_eq_sum]
      congr 1
      apply Finset.sum_congr _ (fun _ _ => rfl)
      ext k
      simp only [Finset.mem_filter, Finset.mem_range, and_iff_left_iff_imp]
      intro hk
      have := hall k hk
      omega
    simp only [concurrentMulOuterBad, concurrentMulOuterBadRun] at hrun ⊢
    simp only [hrun, hz, if_true, hprod]
  constructor
  · by_cases hz : s.wgZero p q r = true
    · exact Or.inl (hret hz)
    · right
      simp only [concurrentMulOuterBad, concurrentMulOuterBadRun] at hrun ⊢
      simp only [hrun, hz]
      rfl
  · intro fair
    exact hret (concurrentMulOuterBad_fair p q r mat1 mat2 sched fair s hrun)

theorem outerSum_init (p q r : Nat) (mat1 mat2 : List F) :
    OuterSum p q r mat1 mat2 (OuterState.init p r mat1 mat2) := by
  intro t ht
  simp [OuterState.init, Mem.init, List.getElem?_replicate, ht]

theorem filter_update_same (q k : Nat) (pc : Nat → Nat) (n : Nat)
    (h : 2 ≤ pc k ↔ 2 ≤ n) :
    (Finset.range q).filter (fun k2 => 2 ≤ Function.update pc k n k2)
      = (Finset.range q).filter (fun k2 => 2 ≤ pc k2) := by
  ext k2
  by_cases hk2 : k2 = k
  · subst hk2
    simp only [Finset.mem_filter, Function.update_same, h]
  · simp [Function.update_noteq hk2]

theorem filter_update_insert (q k : Nat) (pc : Nat → Nat) (hk : k < q) :
    (Finset.range q).filter (fun k2 => 2 ≤ Function.update pc k 2 k2)
      = insert k ((Finset.range q).filter (fun k2 => 2 ≤ pc k2)) := by
  ext k2
  by_cases hk2 : k2 = k
  · subst hk2; simp [hk]
  · simp [Function.update_noteq hk2, hk2]

theorem outerStep_sum (p q r : Nat) (mat1 mat2 : List F)
    (h1 : p * q ≤ mat1.length) (h2 : r * q ≤ mat2.length)
    (s : OuterState F) (hs : OuterShape p q r mat1 mat2 s)
    (hsum : OuterSum p q r mat1 mat2 s) (k : Nat) :
    ∃ s2, outerStep p q r s k = some s2 ∧ OuterShape p q r mat1 mat2 s2
      ∧ OuterSum p q r mat1 mat2 s2 := by
  obtain ⟨s2, hstep, hs2, hprod, hpc⟩ := outerStep_shape p q r mat1 mat2 h1 h2 s hs k
  refine ⟨s2, hstep, hs2, ?_⟩
  intro t ht
  rw [hprod, hpc]
  by_cases hk : k < q
  · by_cases hone : s.pc k = 1
    · rw [if_pos ⟨hk, hone⟩, if_pos ⟨hk, by omega⟩, hone]
      have hkmem : k ∉ (Finset.range q).filter (fun k2 => 2 ≤ s.pc k2) := by
        simp [hone]
      rw [filter_update_insert q k s.pc hk, Finset.sum_insert hkmem,
        zipAdd_getElem? _ _ t _ _ (hsum t ht) (rank1_getElem? p q r mat1 mat2 k t ht), add_comm]
    · rw [if_neg (fun h => hone h.2)]
      by_cases hle : s.pc k ≤ 2
      · rw [if_pos ⟨hk, hle⟩, filter_update_same q k s.pc _ (by omega)]
        exact hsum t ht
      · rw [if_neg (fun h => hle h.2)]
        exact hsum t ht
  · rw [if_neg (fun h => hk h.1), if_neg (fun h => hk h.1)]
    exact hsum t ht

theorem concurrentMulOuter_exact (p q r : Nat) (mat1 mat2 : List F)
    (h1 : p * q ≤ mat1.length) (h2 : r * q ≤ mat2.length) (sched : List Nat) :
    (concurrentMulOuter p q r mat1 mat2 sched = Outcome.returned (refProd p q r mat1 mat2)
      ∨ concurrentMulOuter p q r mat1 mat2 sched = Outcome.waiting)
    ∧ ((∀ k < q, 3 ≤ sched.count k) →
        concurrentMulOuter p q r mat1 mat2 sched
          = Outcome.returned (refProd p q r mat1 mat2)) := by
  obtain ⟨s, hrun, hs, hsum⟩ := foldlM_invariant (outerStep p q r)
    (fun s => OuterShape p q r mat1 mat2 s ∧ OuterSum p q r mat1 mat2 s)
    (fun s e hI =>
      let ⟨s2, hstep, hs2, hsum2⟩ := outerStep_sum p q r mat1 mat2 h1 h2 s hI.1 hI.2 e
      ⟨s2, hstep, hs2, hsum2⟩)
    sched (OuterState.init p r mat1 mat2)
    ⟨outerShape_init p q r mat1 mat2, outerSum_init p q r mat1 mat2⟩
  have hret : s.wgZero q = true →
      concurrentMulOuter p q r mat1 mat2 sched
        = Outcome.returned (refProd p q r mat1 mat2) := by
    intro hz
    have hall := (outerWgZero_iff q s).1 hz
    have hprod : s.mem.prod = refProd p q r mat1 mat2 := by
      apply eq_refProd_of_flat p q r mat1 mat2 _ hs.len
      intro t ht
      rw [hsum t ht, cellRef_eq_sum]
      congr 1
      apply Finset.sum_congr _ (fun _ _ => rfl)
      ext k
      simp only [Finset.mem_filter, Finset.mem_range, and_iff_left_iff_imp]
      intro hk
      have := hall k hk
      omega
    simp only [concurrentMulOuter, concurrentMulOuterRun] at hrun ⊢
    simp only [hrun, hz, if_true, hprod]
  constructor
  · by_cases hz : s.wgZero q = true
    · exact Or.inl (hret hz)
    · right
      simp only [concurrentMulOuter, concurrentMulOuterRun] at hrun ⊢
      simp only [hrun, hz]
      rfl
  · intro fair
    exact hret (concurrentMulOuter_fair p q r mat1 mat2 sched fair s hrun)

theorem chanSum_init (p q r : Nat) (mat1 mat2 : List F) :
    ChanSum p q r mat1 mat2 (ChanState.init p r mat1 mat2) := by
  intro t ht
  simp [ChanState.init, Mem.init, List.getElem?_replicate, ht]

theorem filter_update_succ_same (q k : Nat) (pc : Nat → Nat) (h : pc k ≠ 1) :
    (Finset.range q).filter (fun k2 => 2 ≤ Function.update pc k (pc k + 1) k2)
      = (Finset.range q).filter (fun k2 => 2 ≤ pc k2) :=
  filter_update_same q k pc _ (by omega)

theorem chanStep_sum (p q r : Nat) (mat1 mat2 : List F)
    (h1 : p * q ≤ mat1.length) (h2 : r * q ≤ mat2.length)
    (s : ChanState F) (hs : ChanShape p q r mat1 mat2 s)
    (hsum : ChanSum p q r mat1 mat2 s) (t : ChanThread) :
    ∃ s2, chanStep p q r s t = some s2 ∧ ChanShape p q r mat1 mat2 s2
      ∧ ChanSum p q r mat1 mat2 s2 := by
  obtain ⟨s2, hstep, hs2, hprod, hpc, hhold, _⟩ := chanStep_shape p q r mat1 mat2 h1 h2 s hs t
  refine ⟨s2, hstep, hs2, ?_⟩
  unfold ChanSum at hsum ⊢
  cases t with
  | caller =>
    rw [hprod, hpc, hhold]
    simp only [ChanState.pcAfter, ChanState.holdingAfter, ChanState.prodAfter]
    exact hsum
  | reducer =>
    rw [hprod, hpc, hhold]
    simp only [ChanState.pcAfter, ChanState.holdingAfter, ChanState.prodAfter]
    cases hh : s.holding with
    | none =>
      rw [hh] at hsum
      exact hsum
    | some x =>
      rw [hh] at hsum
      obtain ⟨k0, hk0, hx, hcells⟩ := hsum
      intro t ht
      rw [zipAdd_getElem? _ _ t _ _ (hcells t ht)
        (by rw [hx]; exact rank1_getElem? p q r mat1 mat2 k0 t ht)]
      rw [Finset.sum_erase_add _ _ hk0]
  | worker k =>
    have hprod2 : s2.mem.prod = s.mem.prod := by
      rw [hprod]; simp [ChanState.prodAfter]
    simp only [ChanState.pcAfter, ChanState.holdingAfter] at hpc hhold
    by_cases hk : k < q
    · by_cases hcs : s.canSend q k
      · rw [if_pos ⟨hk, Or.inr (Or.inl hcs)⟩, hcs.1] at hpc
        rw [if_pos ⟨hk, hcs⟩] at hhold
        rw [hprod2, hpc, hhold]
        have hnone : s.holding = none := Option.isNone_iff_eq_none.1 hcs.2.1
        rw [hnone] at hsum
        have hkmem : k ∉ (Finset.range q).filter (fun k2 => 2 ≤ s.pc k2) := by
          simp [hcs.1]
        rw [filter_update_insert q k s.pc hk]
        refine ⟨k, Finset.mem_insert_self _ _, rfl, ?_⟩
        intro t ht
        rw [Finset.erase_insert hkmem]
        exact hsum t ht
      · rw [if_neg (fun h => hcs h.2)] at hhold
        by_cases hmove : s.pc k = 0 ∨ s.pc k = 2
        · have hc : k < q ∧ (s.pc k = 0 ∨ s.canSend q k ∨ s.pc k = 2) := by
            rcases hmove with h | h
            · exact ⟨hk, Or.inl h⟩
            · exact ⟨hk, Or.inr (Or.inr h)⟩
          rw [if_pos hc] at hpc
          rw [hprod2, hpc, hhold, filter_update_succ_same q k s.pc (by omega)]
          exact hsum
        · have hc : ¬ (k < q ∧ (s.pc k = 0 ∨ s.canSend q k ∨ s.pc k = 2)) := by
            rintro ⟨_, h | h | h⟩
            · exact hmove (Or.inl h)
            · exact hcs h
            · exact hmove (Or.inr h)
          rw [if_neg hc] at hpc
          rw [hprod2, hpc, hhold]
          exact hsum
    · rw [if_neg (fun h => hk h.1)] at hpc hhold
      rw [hprod2, hpc, hhold]
      exact hsum

theorem concurrentMulOuterChan_exact (p q r : Nat) (mat1 mat2 : List F)
    (h1 : p * q ≤ mat1.length) (h2 : r * q ≤ mat2.length)
    (pre post : List ChanThread) (hpre : ChanThread.caller ∉ pre) (s : ChanState F)
    (hrun : concurrentMulOuterChanRun p q r mat1 mat2 pre = some s)
    (hwg : s.wgZero q = true) (hhold : s.holding = none) :
    concurrentMulOuterChan p q r mat1 mat2 (pre ++ ChanThread.caller :: post)
      = Outcome.returned (refProd p q r mat1 mat2) := by
  obtain ⟨s1, hrun1, hs1, hsum1⟩ := foldlM_invariant (chanStep p q r)
    (fun s => ChanShape p q r mat1 mat2 s ∧ ChanSum p q r mat1 mat2 s)
    (fun s e hI =>
      let ⟨s2, hstep, hs2, hsum2⟩ := chanStep_sum p q r mat1 mat2 h1 h2 s hI.1 hI.2 e
      ⟨s2, hstep, hs2, hsum2⟩)
    pre (ChanState.init p r mat1 mat2)
    ⟨chanShape_init p q r mat1 mat2, chanSum_init p q r mat1 mat2⟩
  have hrun' : pre.foldlM (chanStep p q r) (ChanState.init p r mat1 mat2) = some s := hrun
  rw [hrun'] at hrun1
  cases hrun1
  have hretnone : s.ret = none := by
    rw [chanRun_ret_of_not_mem p q r pre hpre _ s hrun']
    rfl
  have hall := (chanWgZero_iff q s).1 hwg
  have hprod : s.mem.prod = refProd p q r mat1 mat2 := by
    apply eq_refProd_of_flat p q r mat1 mat2 _ hs1.len
    intro t ht
    unfold ChanSum at hsum1
    rw [hhold] at hsum1
    rw [hsum1 t ht, cellRef_eq_sum]
    congr 1
    apply Finset.sum_congr _ (fun _ _ => rfl)
    ext k
    simp only [Finset.mem_filter, Finset.mem_range, and_iff_left_iff_imp]
    intro hk
    have := hall k hk
    omega
  have hcall : chanStep p q r s ChanThread.caller = some { s with ret := some s.mem.prod } := by
    simp only [chanStep, hretnone, hwg, Option.isNone_none, and_self, if_true]
  obtain ⟨s3, hrun3, _⟩ := foldlM_invariant (chanStep p q r) (ChanShape p q r mat1 mat2)
    (fun s e hs =>
      let ⟨s2, hstep, hs2, _⟩ := chanStep_shape p q r mat1 mat2 h1 h2 s hs e
      ⟨s2, hstep, hs2⟩)
    post { s with ret := some s.mem.prod } ⟨hs1.m1, hs1.m2, hs1.len, hs1.bufs, hs1.hold⟩
  have hret3 := chanRun_ret_stays p q r post s.mem.prod _ s3 rfl hrun3
  simp only [concurrentMulOuterChan, concurrentMulOuterChanRun, List.foldlM_append,
    List.foldlM_cons, hrun', hcall, hrun3, Option.some_bind, Option.bind_eq_bind, hret3]
  rw [hprod]

/-- C5 (amended): over exact arithmetic (an addition that is associative and
commutative) and for operands of lengths `p*q` and `r*q`, every call of
`basicMul`, `concurrentMulInner`, `concurrentMulOuterBad` and
`concurrentMulOuter` that returns, returns the same slice, under every
schedule, and so does `concurrentMulOuterChan` when its caller returns after
the receiving goroutine has added every buffer; the fair schedules return. -/
theorem multipliers_agree_over_exact_arithmetic (p q r : Nat) (mat1 mat2 : List F)
    (h1 : mat1.length = p * q) (h2 : mat2.length = r * q) :
    ∃ prod, basicMul p q r mat1 mat2 = some prod
      ∧ (∀ sched x, concurrentMulInner p q r mat1 mat2 sched = Outcome.returned x → x = prod)
      ∧ (∀ sched x, concurrentMulOuterBad p q r mat1 mat2 sched = Outcome.returned x → x = prod)
      ∧ (∀ sched x, concurrentMulOuter p q r mat1 mat2 sched = Outcome.returned x → x = prod)
      ∧ (∀ sched, (∀ i < p, ∀ j < r, q + 1 ≤ sched.count (i, j)) →
          concurrentMulInner p q r mat1 mat2 sched = Outcome.returned prod)
      ∧ (∀ sched, (∀ k < q, p * r + 1 ≤ sched.count k) →
          concurrentMulOuterBad p q r mat1 mat2 sched = Outcome.returned prod)
      ∧ (∀ sched, (∀ k < q, 3 ≤ sched.count k) →
          concurrentMulOuter p q r mat1 mat2 sched = Outcome.returned prod)
      ∧ (∀ pre post, ChanThread.caller ∉ pre → chanAllMerged p q r mat1 mat2 pre = true →
          concurrentMulOuterChan p q r mat1 mat2 (pre ++ ChanThread.caller :: post)
            = Outcome.returned prod)
      ∧ (∀ post, concurrentMulOuterChan p q r mat1 mat2
          (chanInTurn q ++ ChanThread.caller :: post) = Outcome.returned prod) := by
  have l1 := le_of_eq h1.symm
  have l2 := le_of_eq h2.symm
  have hchan : ∀ pre post, ChanThread.caller ∉ pre → chanAllMerged p q r mat1 mat2 pre = true →
      concurrentMulOuterChan p q r mat1 mat2 (pre ++ ChanThread.caller :: post)
        = Outcome.returned (refProd p q r mat1 mat2) := by
    intro pre post hpre hall
    unfold chanAllMerged at hall
    cases hrun : concurrentMulOuterChanRun p q r mat1 mat2 pre with
    | none => rw [hrun] at hall; cases hall
    | some s =>
      rw [hrun] at hall
      simp only [Bool.and_eq_true] at hall
      exact concurrentMulOuterChan_exact p q r mat1 mat2 l1 l2 pre post hpre s hrun hall.1
        (Option.isNone_iff_eq_none.1 hall.2)
  refine ⟨refProd p q r mat1 mat2, basicMul_eq p q r mat1 mat2 l1 l2, ?_, ?_, ?_, ?_, ?_, ?_,
    hchan, fun post => hchan _ post (caller_not_mem_chanInTurn q)
      (chanInTurn_allMerged p q r mat1 mat2 l1 l2)⟩
  · intro sched x hx
    rcases (concurrentMulInner_sound p q r mat1 mat2 l1 l2 sched).1 with h | h
    · rw [h] at hx; exact (outcome_returned_inj hx).symm
    · rw [h] at hx; cases hx
  · intro sched x hx
    rcases (concurrentMulOuterBad_exact p q r mat1 mat2 l1 l2 sched).1 with h | h
    · rw [h] at hx; exact (outcome_returned_inj hx).symm
    · rw [h] at hx; cases hx
  · intro sched x hx
    rcases (concurrentMulOuter_exact p q r mat1 mat2 l1 l2 sched).1 with h | h
    · rw [h] at hx; exact (outcome_returned_inj hx).symm
    · rw [h] at hx; cases hx
  · intro sched fair
    exact (concurrentMulInner_sound p q r mat1 mat2 l1 l2 sched).2 fair
  · intro sched fair
    exact (concurrentMulOuterBad_exact p q r mat1 mat2 l1 l2 sched).2 fair
  · intro sched fair
    exact (concurrentMulOuter_exact p q r mat1 mat2 l1 l2 sched).2 fair

theorem multipliers_agree_over_exact_arithmetic_witness :
    ([1, 2, 3, 4] : List Int).length = 2 * 2 ∧ ([5, 6] : List Int).length = 1 * 2
    ∧ (∀ k < 2, 2 * 1 + 1 ≤ ([1, 0, 1, 0, 0, 1] : List Nat).count k)
    ∧ (∀ k < 2, 3 ≤ ([1, 1, 0, 0, 1, 0] : List Nat).count k)
    ∧ ChanThread.caller ∉ [ChanThread.worker 0, ChanThread.worker 1, ChanThread.worker 1,
        ChanThread.reducer, ChanThread.worker 0, ChanThread.worker 1, ChanThread.worker 0,
        ChanThread.reducer]
    ∧ chanAllMerged 2 2 1 ([1, 2, 3, 4] : List Int) [5, 6]
        [ChanThread.worker 0, ChanThread.worker 1, ChanThread.worker 1,
          ChanThread.reducer, ChanThread.worker 0, ChanThread.worker 1, ChanThread.worker 0,
          ChanThread.reducer] = true
    ∧ ∃ prod, basicMul 2 2 1 ([1, 2, 3, 4] : List Int) [5, 6] = some prod
      ∧ concurrentMulOuterBad 2 2 1 ([1, 2, 3, 4] : List Int) [5, 6] [1, 0, 1, 0, 0, 1]
          = Outcome.returned prod
      ∧ concurrentMulOuter 2 2 1 ([1, 2, 3, 4] : List Int) [5, 6] [1, 1, 0, 0, 1, 0]
          = Outcome.returned prod
      ∧ concurrentMulOuterChan 2 2 1 ([1, 2, 3, 4] : List Int) [5, 6]
          ([ChanThread.worker 0, ChanThread.worker 1, ChanThread.worker 1,
            ChanThread.reducer, ChanThread.worker 0, ChanThread.worker 1, ChanThread.worker 0,
            ChanThread.reducer] ++ ChanThread.caller :: []) = Outcome.returned prod :=
  ⟨rfl, rfl, by decide, by decide, by decide, by decide,
    let ⟨prod, hb, _, _, _, _, hbad, hout, hchan, _⟩ :=
      multipliers_agree_over_exact_arithmetic 2 2 1 ([1, 2, 3, 4] : List Int) [5, 6] rfl rfl
    ⟨prod, hb, hbad _ (by decide), hout _ (by decide), hchan _ [] (by decide) (by decide)⟩⟩

end Exact

section Units

variable {F : Type} [Zero F] [Add F] [Mul F]

theorem foldlM_inv_of_some {σ ε : Type} (step : σ → ε → Option σ) (I : σ → Prop)
    (h : ∀ s e s2, step s e = some s2 → I s → I s2) (l : List ε) :
    ∀ s s2, l.foldlM step s = some s2 → I s → I s2 := by
  induction l with
  | nil =>
    intro s s2 hrun hs
    simp only [List.foldlM_nil] at hrun
    cases hrun; exact hs
  | cons e rest ih =>
    intro s s2 hrun hs
    simp only [List.foldlM_cons, Option.bind_eq_bind] at hrun
    cases h1 : step s e with
    | none => rw [h1] at hrun; cases hrun
    | some s1 =>
      rw [h1] at hrun
      exact ih s1 s2 hrun (h s e s1 h1 hs)

theorem mulAcc_writes_one (m m2 : Mem F) (ii a b : Nat) (h : m.mulAcc ii a b = some m2) :
    ∃ v, m2.prod = m.prod.set ii v := by
  unfold Mem.mulAcc at h
  simp only [Option.bind_eq_bind, Option.bind_eq_some, Option.some.injEq] at h
  obtain ⟨x, _, y, _, c, _, rfl⟩ := h
  exact ⟨_, rfl⟩

theorem innerStep_writes_one (p q r : Nat) (s s2 : InnerState F) (i j : Nat)
    (h : innerStep p q r s (i, j) = some s2) :
    s2.mem.prod.length = s.mem.prod.length
      ∧ ∀ t, t ≠ i * r + j → s2.mem.prod[t]? = s.mem.prod[t]? := by
  unfold innerStep at h
  split_ifs at h
  · simp only [Option.map_eq_some'] at h
    obtain ⟨m, hm, rfl⟩ := h
    obtain ⟨v, hv⟩ := mulAcc_writes_one _ _ _ _ _ hm
    simp only [hv, List.length_set, true_and]
    intro t ht
    exact List.getElem?_set_ne (fun e => ht e.symm)
  all_goals
    cases h
    exact ⟨rfl, fun _ _ => rfl⟩

/-- C11: in `concurrentMulInner` the units write disjoint memory.  A step of
the goroutine `dot(i, j)` keeps the length of `prod` and changes no element of
`prod` other than the one at offset `i*r+j`, and two different units with
`i, i2 < p` and `j, j2 < r` have different offsets. -/
theorem concurrentMulInner_units_write_disjoint_cells (p q r : Nat) :
    (∀ (s s2 : InnerState F) (i j : Nat), innerStep p q r s (i, j) = some s2 →
        s2.mem.prod.length = s.mem.prod.length
          ∧ ∀ t, t ≠ i * r + j → s2.mem.prod[t]? = s.mem.prod[t]?)
    ∧ (∀ i j i2 j2 : Nat, i < p → i2 < p → j < r → j2 < r → (i, j) ≠ (i2, j2) →
        i * r + j ≠ i2 * r + j2) := by
  refine ⟨fun s s2 i j h => innerStep_writes_one p q r s s2 i j h, ?_⟩
  intro i j i2 j2 _ _ hj hj2 hne he
  obtain ⟨rfl, rfl⟩ := flat_inj hj hj2 he
  exact hne rfl

theorem concurrentMulInner_units_write_disjoint_cells_witness :
    innerStep 2 1 2 (InnerState.init 2 2 ([1, 2] : List Int) [3, 4]) (0, 1)
        = some { mem := { mat1 := [1, 2], mat2 := [3, 4], prod := [0, 4, 0, 0] },
                 pc := Function.update (fun _ => 0) (0, 1) 1 }
    ∧ (([0, 4, 0, 0] : List Int).length = ([0, 0, 0, 0] : List Int).length
        ∧ ∀ t, t ≠ 0 * 2 + 1 → ([0, 4, 0, 0] : List Int)[t]? = ([0, 0, 0, 0] : List Int)[t]?)
    ∧ (0 < 2 ∧ 1 < 2 ∧ ((0, 1) : Nat × Nat) ≠ (1, 0) ∧ 0 * 2 + 1 ≠ 1 * 2 + 0) :=
  ⟨by simp [innerStep, InnerState.init, Mem.init, Mem.mulAcc],
    (concurrentMulInner_units_write_disjoint_cells 2 1 2).1
      (InnerState.init 2 2 ([1, 2] : List Int) [3, 4])
      { mem := { mat1 := [1, 2], mat2 := [3, 4], prod := [0, 4, 0, 0] },
        pc := Function.update (fun _ => 0) (0, 1) 1 } 0 1
      (by simp [innerStep, InnerState.init, Mem.init, Mem.mulAcc]),
    by decide, by decide, by decide,
    (concurrentMulInner_units_write_disjoint_cells (F := Int) 2 1 2).2 0 1 1 0 (by decide)
      (by decide) (by decide) (by decide) (by decide)⟩

theorem genmat_fold (n : Nat) (rng : Nat → F) (pos : Nat) (m : Nat) (hm : m ≤ n) :
    (List.range m).foldl (fun st i => (st.1.set i (rng st.2), st.2 + 1))
        (List.replicate n (0 : F), pos)
      = ((List.range n).map (fun i => if i < m then rng (pos + i) else 0), pos + m) := by
  induction m with
  | zero =>
    simp only [List.range_zero, List.foldl_nil, Nat.not_lt_zero, if_false, Nat.add_zero]
    congr 1
    apply List.ext_getElem?
    intro t
    by_cases ht : t < n
    · simp [List.getElem?_replicate, List.getElem?_range ht, ht]
    · rw [List.getElem?_eq_none (by simp; omega), List.getElem?_eq_none (by simp; omega)]
  | succ m ih =>
    rw [List.range_succ, List.foldl_append, ih (by omega)]
    simp only [List.foldl_cons, List.foldl_nil]
    congr 1
    apply List.ext_getElem?
    intro t
    rw [List.getElem?_set]
    by_cases ht : t < n
    · simp only [List.getElem?_map, List.getElem?_range ht, Option.map_some', List.length_map,
        List.length_range]
      by_cases he : m = t
      · subst he
        simp [ht]
      · have e1 : (t < m + 1) = (t < m) := by
          apply propext
          omega
        simp [he, e1]
    · have hne : m ≠ t := by omega
      simp only [hne, if_false]
      rw [List.getElem?_eq_none (by simp; omega), List.getElem?_eq_none (by simp; omega)]

theorem mergeAll_snoc (p q r : Nat) (mat1 mat2 : List F) (ks : List Nat) (k : Nat) :
    mergeAll p q r mat1 mat2 (ks ++ [k])
      = List.zipWith (fun a b => a + b) (mergeAll p q r mat1 mat2 ks)
          (rank1 p q r mat1 mat2 k) := by
  simp only [mergeAll, List.foldl_append, List.foldl_cons, List.foldl_nil]

theorem mergeAll_length (p q r : Nat) (mat1 mat2 : List F) (ks : List Nat) :
    (mergeAll p q r mat1 mat2 ks).length = p * r := by
  induction ks using List.reverseRecOn with
  | nil => simp [mergeAll]
  | append_singleton ks k ih =>
    rw [mergeAll_snoc, List.length_zipWith, ih, rank1_length, Nat.min_self]

theorem outerMerged_init (p q r : Nat) (mat1 mat2 : List F) :
    OuterMerged p q r mat1 mat2 (OuterState.init p r mat1 mat2) [] where
  nodup := List.nodup_nil
  mem := by
    intro k
    simp [OuterState.init]
  prod := rfl

theorem outerStep_merged (p q r : Nat) (mat1 mat2 : List F)
    (h1 : p * q ≤ mat1.length) (h2 : r * q ≤ mat2.length)
    (s : OuterState F) (hs : OuterShape p q r mat1 mat2 s) (ks : List Nat)
    (hm : OuterMerged p q r mat1 mat2 s ks) (k : Nat) :
    ∃ s2, outerStep p q r s k = some s2 ∧ OuterShape p q r mat1 mat2 s2
      ∧ OuterMerged p q r mat1 mat2 s2 (if k < q ∧ s.pc k = 1 then ks ++ [k] else ks) := by
  obtain ⟨s2, hstep, hs2, hprod, hpc⟩ := outerStep_shape p q r mat1 mat2 h1 h2 s hs k
  refine ⟨s2, hstep, hs2, ?_⟩
  by_cases hc : k < q ∧ s.pc k = 1
  · rw [if_pos hc] at hprod ⊢
    rw [if_pos ⟨hc.1, by omega⟩] at hpc
    have hk : k ∉ ks := by
      intro hin
      have := ((hm.mem k).1 hin).2
      omega
    refine ⟨?_, ?_, ?_⟩
    · exact List.Nodup.append hm.nodup (List.nodup_singleton k) (by simpa using hk)
    · intro v
      rw [hpc, List.mem_append, List.mem_singleton, hm.mem v]
      by_cases hv : v = k
      · subst hv
        simp only [Function.update_same]
        constructor
        · intro _
          exact ⟨hc.1, by omega⟩
        · intro _
          exact Or.inr trivial
      · simp only [Function.update_noteq hv, hv, or_false]
    · rw [hprod, mergeAll_snoc, hm.prod]
  · rw [if_neg hc] at hprod ⊢
    refine ⟨hm.nodup, ?_, ?_⟩
    · intro v
      rw [hm.mem v, hpc]
      by_cases hu : k < q ∧ s.pc k ≤ 2
      · rw [if_pos hu]
        by_cases hv : v = k
        · subst hv
          simp only [Function.update_same]
          constructor
          · rintro ⟨a, b⟩
            exact ⟨a, by omega⟩
          · rintro ⟨a, b⟩
            refine ⟨a, ?_⟩
            have : s.pc v ≠ 1 := fun e => hc ⟨a, e⟩
            omega
        · simp only [Function.update_noteq hv]
      · rw [if_neg hu]
    · rw [hprod, hm.prod]

theorem concurrentMulOuter_merged (p q r : Nat) (mat1 mat2 : List F)
    (h1 : p * q ≤ mat1.length) (h2 : r * q ≤ mat2.length) (sched : List Nat) :
    ∃ s ks, concurrentMulOuterRun p q r mat1 mat2 sched = some s
      ∧ OuterShape p q r mat1 mat2 s ∧ OuterMerged p q r mat1 mat2 s ks := by
  obtain ⟨s, hrun, hs, ks, hm⟩ := foldlM_invariant (outerStep p q r)
    (fun s => OuterShape p q r mat1 mat2 s ∧ ∃ ks, OuterMerged p q r mat1 mat2 s ks)
    (fun s e hI =>
      let ⟨ks, hm⟩ := hI.2
      let ⟨s2, hstep, hs2, hm2⟩ := outerStep_merged p q r mat1 mat2 h1 h2 s hI.1 ks hm e
      ⟨s2, hstep, hs2, _, hm2⟩)
    sched (OuterState.init p r mat1 mat2)
    ⟨outerShape_init p q r mat1 mat2, [], outerMerged_init p q r mat1 mat2⟩
  exact ⟨s, ks, hrun, hs, hm⟩

theorem chanMerged_init (p q r : Nat) (mat1 mat2 : List F) :
    ChanMerged p q r mat1 mat2 (ChanState.init p r mat1 mat2) [] where
  nodup := List.nodup_nil
  sent := by
    intro k hk
    cases hk
  prod := rfl
  idle := by
    intro _ k _ hk
    simp [ChanState.init] at hk
  held := by
    intro x hx
    simp [ChanState.init] at hx

theorem chanMerged_transfer (p q r : Nat) (mat1 mat2 : List F) (s s2 : ChanState F)
    (ks : List Nat) (hm : ChanMerged p q r mat1 mat2 s ks)
    (hprod : s2.mem.prod = s.mem.prod) (hhold : s2.holding = s.holding)
    (hpc : ∀ k, 2 ≤ s2.pc k ↔ 2 ≤ s.pc k) : ChanMerged p q r mat1 mat2 s2 ks where
  nodup := hm.nodup
  sent := fun k hk => ⟨(hm.sent k hk).1, (hpc k).2 (hm.sent k hk).2⟩
  prod := by rw [hprod, hm.prod]
  idle := fun hn k hk h2 => hm.idle (hhold ▸ hn) k hk ((hpc k).1 h2)
  held := by
    intro x hx
    obtain ⟨k0, a, b, c, d, e⟩ := hm.held x (hhold ▸ hx)
    exact ⟨k0, a, (hpc k0).2 b, c, d, fun k hk h2 => e k hk ((hpc k).1 h2)⟩

theorem chanStep_merged (p q r : Nat) (mat1 mat2 : List F)
    (h1 : p * q ≤ mat1.length) (h2 : r * q ≤ mat2.length)
    (s : ChanState F) (hs : ChanShape p q r mat1 mat2 s) (ks : List Nat)
    (hm : ChanMerged p q r mat1 mat2 s ks) (t : ChanThread) :
    ∃ s2 ks2, chanStep p q r s t = some s2 ∧ ChanShape p q r mat1 mat2 s2
      ∧ ChanMerged p q r mat1 mat2 s2 ks2 := by
  obtain ⟨s2, hstep, hs2, hprod, hpc, hhold, _⟩ := chanStep_shape p q r mat1 mat2 h1 h2 s hs t
  cases t with
  | worker k =>
    have hprod2 : s2.mem.prod = s.mem.prod := by
      rw [hprod]
      unfold ChanState.prodAfter
      rfl
    simp only [ChanState.pcAfter] at hpc
    simp only [ChanState.holdingAfter] at hhold
    by_cases hc : k < q ∧ s.canSend q k
    · rw [if_pos hc] at hhold
      rw [if_pos ⟨hc.1, Or.inr (Or.inl hc.2)⟩] at hpc
      obtain ⟨hk, hpck, hnone, _⟩ := hc
      have hnone2 : s.holding = none := by
        cases hh : s.holding with
        | none => rfl
        | some x => rw [hh] at hnone; cases hnone
      have hkn : k ∉ ks := by
        intro hin
        have := (hm.sent k hin).2
        omega
      refine ⟨s2, ks, hstep, hs2, hm.nodup, ?_, ?_, ?_, ?_⟩
      · intro v hv
        refine ⟨(hm.sent v hv).1, ?_⟩
        have hne : v ≠ k := fun e => hkn (e ▸ hv)
        rw [hpc, Function.update_noteq hne]
        exact (hm.sent v hv).2
      · rw [hprod2, hm.prod]
      · intro hn
        rw [hhold] at hn
        cases hn
      · intro x hx
        rw [hhold] at hx
        cases hx
        refine ⟨k, hk, ?_, hkn, rfl, ?_⟩
        · rw [hpc, Function.update_same]
          omega
        · intro v hv hv2
          by_cases hne : v = k
          · exact Or.inl hne
          · right
            rw [hpc, Function.update_noteq hne] at hv2
            exact hm.idle hnone2 v hv hv2
    · rw [if_neg hc] at hhold
      refine ⟨s2, ks, hstep, hs2, chanMerged_transfer p q r mat1 mat2 s s2 ks hm hprod2 hhold ?_⟩
      intro v
      rw [hpc]
      by_cases hu : k < q ∧ (s.pc k = 0 ∨ s.canSend q k ∨ s.pc k = 2)
      · rw [if_pos hu]
        by_cases hv : v = k
        · subst hv
          simp only [Function.update_same]
          obtain ⟨a, b | b | b⟩ := hu
          · omega
          · exact absurd ⟨a, b⟩ hc
          · omega
        · simp only [Function.update_noteq hv]
      · rw [if_neg hu]
  | reducer =>
    have hpc2 : s2.pc = s.pc := hpc
    have hhold2 : s2.holding = none := hhold
    cases hh : s.holding with
    | none =>
      have hprod2 : s2.mem.prod = s.mem.prod := by
        rw [hprod]
        unfold ChanState.prodAfter
        rw [hh]
      exact ⟨s2, ks, hstep, hs2, chanMerged_transfer p q r mat1 mat2 s s2 ks hm hprod2
        (by rw [hhold2, hh]) (fun v => by rw [hpc2])⟩
    | some x =>
      have hprod2 : s2.mem.prod = List.zipWith (fun a b => a + b) s.mem.prod x := by
        rw [hprod]
        unfold ChanState.prodAfter
        rw [hh]
      obtain ⟨k0, hk0, hp0, hn0, hx0, hall⟩ := hm.held x hh
      refine ⟨s2, ks ++ [k0], hstep, hs2, ?_, ?_, ?_, ?_, ?_⟩
      · exact List.Nodup.append hm.nodup (List.nodup_singleton k0) (by simpa using hn0)
      · intro v hv
        rw [hpc2]
        rcases List.mem_append.1 hv with hv | hv
        · exact hm.sent v hv
        · rw [List.mem_singleton.1 hv]
          exact ⟨hk0, hp0⟩
      · rw [hprod2, mergeAll_snoc, hm.prod, hx0]
      · intro _ v hv hv2
        rw [hpc2] at hv2
        rcases hall v hv hv2 with e | e
        · rw [e]
          simp
        · exact List.mem_append_left _ e
      · intro y hy
        rw [hhold2] at hy
        cases hy
  | caller =>
    have hprod2 : s2.mem.prod = s.mem.prod := by
      rw [hprod]
      unfold ChanState.prodAfter
      rfl
    exact ⟨s2, ks, hstep, hs2, chanMerged_transfer p q r mat1 mat2 s s2 ks hm hprod2 hhold
      (fun v => by rw [hpc]; rfl)⟩

theorem concurrentMulOuterChan_merged (p q r : Nat) (mat1 mat2 : List F)
    (h1 : p * q ≤ mat1.length) (h2 : r * q ≤ mat2.length) (sched : List ChanThread) :
    ∃ s ks, concurrentMulOuterChanRun p q r mat1 mat2 sched = some s
      ∧ ChanShape p q r mat1 mat2 s ∧ ChanMerged p q r mat1 mat2 s ks := by
  obtain ⟨s, hrun, hs, ks, hm⟩ := foldlM_invariant (chanStep p q r)
    (fun s => ChanShape p q r mat1 mat2 s ∧ ∃ ks, ChanMerged p q r mat1 mat2 s ks)
    (fun s e hI =>
      let ⟨ks, hm⟩ := hI.2
      let ⟨s2, ks2, hstep, hs2, hm2⟩ := chanStep_merged p q r mat1 mat2 h1 h2 s hI.1 ks hm e
      ⟨s2, hstep, hs2, ks2, hm2⟩)
    sched (ChanState.init p r mat1 mat2)
    ⟨chanShape_init p q r mat1 mat2, [], chanMerged_init p q r mat1 mat2⟩
  exact ⟨s, ks, hrun, hs, hm⟩

theorem outerStep_fill (p q r : Nat) (s s2 : OuterState F) (k : Nat) (hk : k < q)
    (h0 : s.pc k = 0) (h : outerStep p q r s k = some s2) :
    s2.mem = s.mem ∧ fillBuf p q r k s.mem.mat1 s.mem.mat2 = some (s2.buf k)
      ∧ ∀ v, v ≠ k → s2.buf v = s.buf v := by
  unfold outerStep at h
  rw [if_pos hk, if_pos h0] at h
  simp only [Option.map_eq_some'] at h
  obtain ⟨mat, hf, rfl⟩ := h
  refine ⟨rfl, ?_, ?_⟩
  · simp only [Function.update_same]
    exact hf
  · intro v hv
    simp only [Function.update_noteq hv]

theorem chanStep_fill (p q r : Nat) (s s2 : ChanState F) (k : Nat) (hk : k < q)
    (h0 : s.pc k = 0) (h : chanStep p q r s (ChanThread.worker k) = some s2) :
    s2.mem = s.mem ∧ s2.holding = s.holding
      ∧ fillBuf p q r k s.mem.mat1 s.mem.mat2 = some (s2.buf k)
      ∧ ∀ v, v ≠ k → s2.buf v = s.buf v := by
  unfold chanStep at h
  simp only [if_pos hk, if_pos h0, Option.map_eq_some'] at h
  obtain ⟨mat, hf, rfl⟩ := h
  refine ⟨rfl, rfl, ?_, ?_⟩
  · simp only [Function.update_same]
    exact hf
  · intro v hv
    simp only [Function.update_noteq hv]

theorem rank1_cell (p q r : Nat) (mat1 mat2 : List F) (k i j : Nat)
    (h1 : p * q ≤ mat1.length) (h2 : r * q ≤ mat2.length)
    (hk : k < q) (hi : i < p) (hj : j < r) :
    ∃ x y, mat1[i * q + k]? = some x ∧ mat2[j * q + k]? = some y
      ∧ (rank1 p q r mat1 mat2 k)[i * r + j]? = some (x * y) := by
  have hx : i * q + k < mat1.length := read_lt hi hk h1
  have hy : j * q + k < mat2.length := read_lt hj hk h2
  refine ⟨mat1[i * q + k], mat2[j * q + k], List.getElem?_eq_getElem hx,
    List.getElem?_eq_getElem hy, ?_⟩
  rw [rank1_getElem? p q r mat1 mat2 k _ (flat_lt hi hj)]
  simp only [contrib, flat_div hj, flat_mod hj, List.getD_eq_getElem _ _ hx,
    List.getD_eq_getElem _ _ hy]

/-- C17: in `concurrentMulOuter` and `concurrentMulOuterChan` the goroutine
`outer(k)`, `k < q`, fills a private buffer of length `p*r` that holds
`mat1[i*q+k] * mat2[j*q+k]` at offset `i*r+j` for all `i < p`, `j < r`.  The
step that fills it leaves the memory (the operands and `prod`) as it is and its
result is a function of the operands alone.  In every state that a schedule
reaches, `prod` is the result of adding whole buffers element by element to the
zero slice, for a list `ks` of goroutines without repetition: in
`concurrentMulOuter` exactly the goroutines past their critical section (all of
`0 .. q-1` once the wait group is at zero), in `concurrentMulOuterChan` the
goroutines that have sent, except the one whose buffer the receiving goroutine
still holds. -/
theorem outer_units_fill_private_buffer_and_merge_once (p q r : Nat) (mat1 mat2 : List F)
    (h1 : mat1.length = p * q) (h2 : mat2.length = r * q) :
    (∀ k, k < q →
        fillBuf p q r k mat1 mat2 = some (rank1 p q r mat1 mat2 k)
        ∧ (rank1 p q r mat1 mat2 k).length = p * r
        ∧ ∀ i < p, ∀ j < r, ∃ x y, mat1[i * q + k]? = some x ∧ mat2[j * q + k]? = some y
            ∧ (rank1 p q r mat1 mat2 k)[i * r + j]? = some (x * y))
    ∧ (∀ (s s2 : OuterState F) (k : Nat), k < q → s.pc k = 0 →
        outerStep p q r s k = some s2 →
        s2.mem = s.mem ∧ fillBuf p q r k s.mem.mat1 s.mem.mat2 = some (s2.buf k)
          ∧ ∀ v, v ≠ k → s2.buf v = s.buf v)
    ∧ (∀ (s s2 : ChanState F) (k : Nat), k < q → s.pc k = 0 →
        chanStep p q r s (ChanThread.worker k) = some s2 →
        s2.mem = s.mem ∧ s2.holding = s.holding
          ∧ fillBuf p q r k s.mem.mat1 s.mem.mat2 = some (s2.buf k)
          ∧ ∀ v, v ≠ k → s2.buf v = s.buf v)
    ∧ (∀ sched : List Nat, ∃ s ks, concurrentMulOuterRun p q r mat1 mat2 sched = some s
        ∧ ks.Nodup ∧ (∀ k, k ∈ ks ↔ k < q ∧ 2 ≤ s.pc k)
        ∧ s.mem.prod = mergeAll p q r mat1 mat2 ks
        ∧ (s.wgZero q = true → ks.Perm (List.range q)))
    ∧ (∀ sched : List ChanThread, ∃ s ks,
        concurrentMulOuterChanRun p q r mat1 mat2 sched = some s
        ∧ ks.Nodup ∧ (∀ k, k ∈ ks → k < q ∧ 2 ≤ s.pc k)
        ∧ s.mem.prod = mergeAll p q r mat1 mat2 ks
        ∧ (s.holding = none → ∀ k, k < q → 2 ≤ s.pc k → k ∈ ks)
        ∧ (∀ x, s.holding = some x → ∃ k0, k0 < q ∧ 2 ≤ s.pc k0 ∧ k0 ∉ ks
            ∧ x = rank1 p q r mat1 mat2 k0 ∧ ∀ k, k < q → 2 ≤ s.pc k → k = k0 ∨ k ∈ ks)) := by
  refine ⟨?_, ?_, ?_, ?_, ?_⟩
  · intro k hk
    exact ⟨fillBuf_eq p q r k mat1 mat2 hk h1.ge h2.ge, rank1_length p q r mat1 mat2 k,
      fun i hi j hj => rank1_cell p q r mat1 mat2 k i j h1.ge h2.ge hk hi hj⟩
  · intro s s2 k hk h0 h
    exact outerStep_fill p q r s s2 k hk h0 h
  · intro s s2 k hk h0 h
    exact chanStep_fill p q r s s2 k hk h0 h
  · intro sched
    obtain ⟨s, ks, hrun, _, hm⟩ := concurrentMulOuter_merged p q r mat1 mat2 h1.ge h2.ge sched
    refine ⟨s, ks, hrun, hm.nodup, hm.mem, hm.prod, ?_⟩
    intro hz
    have hall := (outerWgZero_iff q s).1 hz
    rw [List.perm_ext_iff_of_nodup hm.nodup (List.nodup_range q)]
    intro k
    rw [hm.mem k, List.mem_range]
    constructor
    · exact fun h => h.1
    · intro hk
      have := hall k hk
      exact ⟨hk, by omega⟩
  · intro sched
    obtain ⟨s, ks, hrun, _, hm⟩ := concurrentMulOuterChan_merged p q r mat1 mat2 h1.ge h2.ge sched
    exact ⟨s, ks, hrun, hm.nodup, hm.sent, hm.prod, hm.idle, hm.held⟩

theorem outer_units_fill_private_buffer_and_merge_once_witness :
    ∃ s ks, concurrentMulOuterRun 1 2 1 ([1, 2] : List Int) [3, 4] [1, 0, 1, 0, 0, 1] = some s
      ∧ ks.Nodup ∧ (∀ k, k ∈ ks ↔ k < 2 ∧ 2 ≤ s.pc k)
      ∧ s.mem.prod = mergeAll 1 2 1 ([1, 2] : List Int) [3, 4] ks
      ∧ (s.wgZero 2 = true → ks.Perm (List.range 2)) :=
  (outer_units_fill_private_buffer_and_merge_once 1 2 1 ([1, 2] : List Int) [3, 4]
    rfl rfl).2.2.2.1 [1, 0, 1, 0, 0, 1]

theorem outerBadStep_locks (p q r : Nat) (s s2 : OuterBadState F) (k : Nat)
    (h : outerBadStep p q r s k = some s2) :
    (s2.locks = s.locks + 1 ∧ k < q ∧ s.pc k < p * r
        ∧ s2.pc = Function.update s.pc k (s.pc k + 1)
        ∧ ∃ v, s2.mem.prod = s.mem.prod.set (s.pc k / r * r + s.pc k % r) v)
    ∨ (s2.locks = s.locks ∧ s2.mem = s.mem
        ∧ ∀ v, min (s2.pc v) (p * r) = min (s.pc v) (p * r)) := by
  unfold outerBadStep at h
  split_ifs at h with hk hlt heq
  · simp only [Option.map_eq_some'] at h
    obtain ⟨m, hm, rfl⟩ := h
    exact Or.inl ⟨rfl, hk, hlt, rfl, mulAcc_writes_one _ _ _ _ _ hm⟩
  · cases h
    refine Or.inr ⟨rfl, rfl, ?_⟩
    intro v
    by_cases hv : v = k
    · subst hv
      simp only [Function.update_same]
      omega
    · simp only [Function.update_noteq hv]
  · cases h
    exact Or.inr ⟨rfl, rfl, fun _ => rfl⟩
  · cases h
    exact Or.inr ⟨rfl, rfl, fun _ => rfl⟩

theorem sum_min_update_succ (q N k : Nat) (pc : Nat → Nat) (hk : k < q) (hlt : pc k < N) :
    ∑ v in Finset.range q, min (Function.update pc k (pc k + 1) v) N
      = ∑ v in Finset.range q, min (pc v) N + 1 := by
  rw [← Finset.add_sum_erase _ _ (Finset.mem_range.2 hk),
    ← Finset.add_sum_erase (Finset.range q) (fun v => min (pc v) N) (Finset.mem_range.2 hk)]
  have he : ∑ v in (Finset.range q).erase k, min (Function.update pc k (pc k + 1) v) N
      = ∑ v in (Finset.range q).erase k, min (pc v) N :=
    Finset.sum_congr rfl (fun v hv => by rw [Function.update_noteq (Finset.ne_of_mem_erase hv)])
  rw [he, Function.update_same]
  have : min (pc k + 1) N = min (pc k) N + 1 := by omega
  omega

theorem outerBadStep_locks_inv (p q r : Nat) (s s2 : OuterBadState F) (k : Nat)
    (h : outerBadStep p q r s k = some s2)
    (hI : s.locks = ∑ v in Finset.range q, min (s.pc v) (p * r)) :
    s2.locks = ∑ v in Finset.range q, min (s2.pc v) (p * r) := by
  rcases outerBadStep_locks p q r s s2 k h with ⟨hl, hk, hlt, hpc, _⟩ | ⟨hl, _, hpc⟩
  · rw [hl, hpc, sum_min_update_succ q (p * r) k s.pc hk hlt, hI]
  · rw [hl, hI]
    exact Finset.sum_congr rfl (fun v _ => (hpc v).symm)

theorem outerStep_locks (p q r : Nat) (s s2 : OuterState F) (k : Nat)
    (h : outerStep p q r s k = some s2) :
    (s2.locks = s.locks + 1 ∧ k < q ∧ s.pc k = 1 ∧ s2.pc = Function.update s.pc k 2
        ∧ floatsAdd s.mem.prod (s.buf k) = some s2.mem.prod)
    ∨ (s2.locks = s.locks ∧ s2.mem = s.mem ∧ ∀ v, 2 ≤ s2.pc v ↔ 2 ≤ s.pc v) := by
  unfold outerStep at h
  split_ifs at h with hk h0 h1 h2
  · simp only [Option.map_eq_some'] at h
    obtain ⟨mat, _, rfl⟩ := h
    refine Or.inr ⟨rfl, rfl, ?_⟩
    intro v
    by_cases hv : v = k
    · subst hv
      simp only [Function.update_same]
      omega
    · simp only [Function.update_noteq hv]
  · simp only [Option.map_eq_some'] at h
    obtain ⟨pr, hpr, rfl⟩ := h
    exact Or.inl ⟨rfl, hk, h1, rfl, hpr⟩
  · cases h
    refine Or.inr ⟨rfl, rfl, ?_⟩
    intro v
    by_cases hv : v = k
    · subst hv
      simp only [Function.update_same]
      omega
    · simp only [Function.update_noteq hv]
  · cases h
    exact Or.inr ⟨rfl, rfl, fun _ => Iff.rfl⟩
  · cases h
    exact Or.inr ⟨rfl, rfl, fun _ => Iff.rfl⟩

theorem outerStep_locks_inv (p q r : Nat) (s s2 : OuterState F) (k : Nat)
    (h : outerStep p q r s k = some s2)
    (hI : s.locks = ((Finset.range q).filter (fun v => 2 ≤ s.pc v)).card) :
    s2.locks = ((Finset.range q).filter (fun v => 2 ≤ s2.pc v)).card := by
  rcases outerStep_locks p q r s s2 k h with ⟨hl, hk, h1, hpc, _⟩ | ⟨hl, _, hpc⟩
  · rw [hl, hpc, filter_update_insert q k s.pc hk, Finset.card_insert_of_not_mem, hI]
    simp only [Finset.mem_filter, Finset.mem_range, not_and]
    intro _
    omega
  · rw [hl, hI]
    congr 1
    exact Finset.filter_congr (fun v _ => (hpc v).symm)

theorem chanStep_writer (p q r : Nat) (s s2 : ChanState F) (t : ChanThread)
    (h : chanStep p q r s t = some s2) (ht : t ≠ ChanThread.reducer) : s2.mem = s.mem := by
  cases t with
  | worker k =>
    unfold chanStep at h
    simp only at h
    split_ifs at h
    · simp only [Option.map_eq_some'] at h
      obtain ⟨mat, _, rfl⟩ := h
      rfl
    all_goals
      cases h
      rfl
  | reducer => exact absurd rfl ht
  | caller =>
    unfold chanStep at h
    simp only at h
    split_ifs at h
    all_goals
      cases h
      rfl

/-- C18: lock granularity.  With operands of the right lengths, under every
schedule the run of `concurrentMulOuterBad` has locked its mutex once for each
loop iteration taken so far, which is `p*r*q` times once the wait group is at
zero (every fair schedule gets there), and each of its steps either locks once
and stores to one element of `prod` or leaves the memory as it is.  The run of
`concurrentMulOuter` has locked its mutex once for each goroutine past its
critical section, which is `q` times once the wait group is at zero, and each of
its steps either locks once and replaces `prod` by `floats.Add(prod, mat)` or
leaves the memory as it is.  `concurrentMulOuterChan` has no mutex: only the
receiving goroutine changes the memory, a step of any other thread leaves it as
it is. -/
theorem lock_counts_of_the_outer_variants (p q r : Nat) (mat1 mat2 : List F)
    (h1 : mat1.length = p * q) (h2 : mat2.length = r * q) :
    (∀ sched : List Nat, ∃ s, concurrentMulOuterBadRun p q r mat1 mat2 sched = some s
        ∧ s.locks = ∑ k in Finset.range q, min (s.pc k) (p * r)
        ∧ (s.wgZero p q r = true → s.locks = p * r * q)
        ∧ ((∀ k < q, p * r + 1 ≤ sched.count k) → s.wgZero p q r = true))
    ∧ (∀ (s s2 : OuterBadState F) (k : Nat), outerBadStep p q r s k = some s2 →
        (s2.locks = s.locks + 1 ∧ ∃ t v, s2.mem.prod = s.mem.prod.set t v)
        ∨ (s2.locks = s.locks ∧ s2.mem = s.mem))
    ∧ (∀ sched : List Nat, ∃ s, concurrentMulOuterRun p q r mat1 mat2 sched = some s
        ∧ s.locks = ((Finset.range q).filter (fun k => 2 ≤ s.pc k)).card
        ∧ (s.wgZero q = true → s.locks = q)
        ∧ ((∀ k < q, 3 ≤ sched.count k) → s.wgZero q = true))
    ∧ (∀ (s s2 : OuterState F) (k : Nat), outerStep p q r s k = some s2 →
        (s2.locks = s.locks + 1 ∧ floatsAdd s.mem.prod (s.buf k) = some s2.mem.prod)
        ∨ (s2.locks = s.locks ∧ s2.mem = s.mem))
    ∧ (∀ (s s2 : ChanState F) (t : ChanThread), chanStep p q r s t = some s2 →
        t ≠ ChanThread.reducer → s2.mem = s.mem) := by
  refine ⟨?_, ?_, ?_, ?_, ?_⟩
  · intro sched
    obtain ⟨s, hrun, _⟩ := concurrentMulOuterBad_runs p q r mat1 mat2 h1.ge h2.ge sched
    have hI : s.locks = ∑ k in Finset.range q, min (s.pc k) (p * r) :=
      foldlM_inv_of_some (outerBadStep p q r)
        (fun s => s.locks = ∑ k in Finset.range q, min (s.pc k) (p * r))
        (fun s e s2 h hs => outerBadStep_locks_inv p q r s s2 e h hs) sched
        (OuterBadState.init p r mat1 mat2) s hrun (by simp [OuterBadState.init])
    refine ⟨s, hrun, hI, ?_, ?_⟩
    · intro hz
      have hall := (outerBadWgZero_iff p q r s).1 hz
      rw [hI, Finset.sum_congr rfl (fun k hk =>
        Nat.min_eq_right (Nat.le_of_lt (hall k (Finset.mem_range.1 hk))))]
      rw [Finset.sum_const, Finset.card_range, smul_eq_mul, Nat.mul_comm]
    · intro fair
      exact concurrentMulOuterBad_fair p q r mat1 mat2 sched fair s hrun
  · intro s s2 k h
    rcases outerBadStep_locks p q r s s2 k h with ⟨hl, _, _, _, v, hv⟩ | ⟨hl, hm, _⟩
    · exact Or.inl ⟨hl, _, v, hv⟩
    · exact Or.inr ⟨hl, hm⟩
  · intro sched
    obtain ⟨s, hrun, _⟩ := concurrentMulOuter_runs p q r mat1 mat2 h1.ge h2.ge sched
    have hI : s.locks = ((Finset.range q).filter (fun k => 2 ≤ s.pc k)).card :=
      foldlM_inv_of_some (outerStep p q r)
        (fun s => s.locks = ((Finset.range q).filter (fun k => 2 ≤ s.pc k)).card)
        (fun s e s2 h hs => outerStep_locks_inv p q r s s2 e h hs) sched
        (OuterState.init p r mat1 mat2) s hrun (by simp [OuterState.init])
    refine ⟨s, hrun, hI, ?_, ?_⟩
    · intro hz
      have hall := (outerWgZero_iff q s).1 hz
      rw [hI, Finset.filter_true_of_mem, Finset.card_range]
      intro k hk
      exact Nat.le_of_lt (hall k (Finset.mem_range.1 hk))
    · intro fair
      exact concurrentMulOuter_fair p q r mat1 mat2 sched fair s hrun
  · intro s s2 k h
    rcases outerStep_locks p q r s s2 k h with ⟨hl, _, _, _, hadd⟩ | ⟨hl, hm, _⟩
    · exact Or.inl ⟨hl, hadd⟩
    · exact Or.inr ⟨hl, hm⟩
  · intro s s2 t h ht
    exact chanStep_writer p q r s s2 t h ht

theorem lock_counts_of_the_outer_variants_witness :
    (∃ s, concurrentMulOuterBadRun 1 2 2 ([1, 2] : List Int) [3, 4, 5, 6] [0, 1, 1, 0, 0, 1]
          = some s
        ∧ s.locks = ∑ k in Finset.range 2, min (s.pc k) (1 * 2)
        ∧ (s.wgZero 1 2 2 = true → s.locks = 1 * 2 * 2)
        ∧ ((∀ k < 2, 1 * 2 + 1 ≤ ([0, 1, 1, 0, 0, 1] : List Nat).count k) →
            s.wgZero 1 2 2 = true))
    ∧ ∀ k < 2, 1 * 2 + 1 ≤ ([0, 1, 1, 0, 0, 1] : List Nat).count k :=
  ⟨(lock_counts_of_the_outer_variants 1 2 2 ([1, 2] : List Int) [3, 4, 5, 6] rfl rfl).1
    [0, 1, 1, 0, 0, 1], by decide⟩

theorem mulAcc_isSome (m : Mem F) (ii a b : Nat) (ha : a < m.mat1.length)
    (hb : b < m.mat2.length) (hi : ii < m.prod.length) : (m.mulAcc ii a b).isSome = true := by
  unfold Mem.mulAcc
  rw [List.getElem?_eq_getElem ha, List.getElem?_eq_getElem hb, List.getElem?_eq_getElem hi]
  rfl

/-- C20: index safety of the multipliers.  For all dimensions and all operands
with `len(mat1) = p*q` and `len(mat2) = r*q`, the indices `i*q+k`, `j*q+k` and
`i*r+j` are below `p*q`, `r*q` and `p*r` for all `i < p`, `j < r`, `k < q`, the
statement `prod[i*r+j] += mat1[i*q+k] * mat2[j*q+k]` makes no out-of-range
access, `basicMul` returns, no schedule makes `concurrentMulInner`,
`concurrentMulOuterBad`, `concurrentMulOuter` or `concurrentMulOuterChan`
panic, and wherever a buffer is to be added to `prod` by `floats.Add` both
slices have the length `p*r`. -/
theorem multipliers_are_index_safe (p q r : Nat) (mat1 mat2 : List F)
    (h1 : mat1.length = p * q) (h2 : mat2.length = r * q) :
    (∀ i < p, ∀ j < r, ∀ k < q, i * q + k < p * q ∧ j * q + k < r * q ∧ i * r + j < p * r
        ∧ ∀ m : Mem F, m.mat1 = mat1 → m.mat2 = mat2 → m.prod.length = p * r →
            (m.mulAcc (i * r + j) (i * q + k) (j * q + k)).isSome = true)
    ∧ (∃ prod, basicMul p q r mat1 mat2 = some prod)
    ∧ (∀ sched, concurrentMulInner p q r mat1 mat2 sched ≠ Outcome.panicked)
    ∧ (∀ sched, concurrentMulOuterBad p q r mat1 mat2 sched ≠ Outcome.panicked)
    ∧ (∀ sched, concurrentMulOuter p q r mat1 mat2 sched ≠ Outcome.panicked)
    ∧ (∀ sched, concurrentMulOuterChan p q r mat1 mat2 sched ≠ Outcome.panicked)
    ∧ (∀ sched : List Nat, ∃ s, concurrentMulOuterRun p q r mat1 mat2 sched = some s
        ∧ s.mem.prod.length = p * r ∧ ∀ k < q, 1 ≤ s.pc k → (s.buf k).length = p * r)
    ∧ (∀ sched : List ChanThread, ∃ s,
        concurrentMulOuterChanRun p q r mat1 mat2 sched = some s
        ∧ s.mem.prod.length = p * r ∧ ∀ x, s.holding = some x → x.length = p * r) := by
  refine ⟨?_, ?_, ?_, ?_, ?_, ?_, ?_, ?_⟩
  · intro i hi j hj k hk
    refine ⟨read_lt hi hk le_rfl, read_lt hj hk le_rfl, flat_lt hi hj, ?_⟩
    intro m e1 e2 e3
    apply mulAcc_isSome
    · rw [e1, h1]
      exact read_lt hi hk le_rfl
    · rw [e2, h2]
      exact read_lt hj hk le_rfl
    · rw [e3]
      exact flat_lt hi hj
  · exact ⟨_, basicMul_eq p q r mat1 mat2 h1.ge h2.ge⟩
  · intro sched
    rcases (concurrentMulInner_sound p q r mat1 mat2 h1.ge h2.ge sched).1 with h | h
    · rw [h]
      intro e
      cases e
    · rw [h]
      intro e
      cases e
  · intro sched
    obtain ⟨s, hrun, _⟩ := concurrentMulOuterBad_runs p q r mat1 mat2 h1.ge h2.ge sched
    unfold concurrentMulOuterBad
    rw [hrun]
    simp only
    split_ifs
    · intro e
      cases e
    · intro e
      cases e
  · intro sched
    obtain ⟨s, hrun, _⟩ := concurrentMulOuter_runs p q r mat1 mat2 h1.ge h2.ge sched
    unfold concurrentMulOuter
    rw [hrun]
    simp only
    split_ifs
    · intro e
      cases e
    · intro e
      cases e
  · intro sched
    obtain ⟨s, hrun, _⟩ := concurrentMulOuterChan_runs p q r mat1 mat2 h1.ge h2.ge sched
    unfold concurrentMulOuterChan
    rw [hrun]
    simp only
    cases s.ret with
    | none =>
      intro e
      cases e
    | some x =>
      intro e
      cases e
  · intro sched
    obtain ⟨s, hrun, hs⟩ := concurrentMulOuter_runs p q r mat1 mat2 h1.ge h2.ge sched
    refine ⟨s, hrun, hs.len, ?_⟩
    intro k hk hpc
    rw [hs.bufs k hk hpc, rank1_length]
  · intro sched
    obtain ⟨s, hrun, hs⟩ := concurrentMulOuterChan_runs p q r mat1 mat2 h1.ge h2.ge sched
    refine ⟨s, hrun, hs.len, ?_⟩
    intro x hx
    obtain ⟨k, _, _, rfl⟩ := hs.hold x hx
    exact rank1_length p q r mat1 mat2 k

theorem multipliers_are_index_safe_witness :
    (∃ prod, basicMul 2 2 1 ([1, 2, 3, 4] : List Int) [5, 6] = some prod)
    ∧ concurrentMulOuterChan 2 2 1 ([1, 2, 3, 4] : List Int) [5, 6]
        [ChanThread.worker 1, ChanThread.worker 1, ChanThread.reducer] ≠ Outcome.panicked :=
  ⟨(multipliers_are_index_safe 2 2 1 ([1, 2, 3, 4] : List Int) [5, 6] rfl rfl).2.1,
    (multipliers_are_index_safe 2 2 1 ([1, 2, 3, 4] : List Int) [5, 6] rfl rfl).2.2.2.2.2.1
      [ChanThread.worker 1, ChanThread.worker 1, ChanThread.reducer]⟩

end Units

section MergeOrder

variable {F : Type} [AddCommMonoid F] [Mul F]

theorem mergeAll_cell (p q r : Nat) (mat1 mat2 : List F) (ks : List Nat) (t : Nat)
    (ht : t < p * r) :
    (mergeAll p q r mat1 mat2 ks)[t]? = some ((ks.map (fun k => contrib q r mat1 mat2 k t)).sum) := by
  induction ks using List.reverseRecOn with
  | nil =>
    simp only [mergeAll, List.foldl_nil, List.map_nil, List.sum_nil]
    rw [List.getElem?_replicate, if_pos ht]
  | append_singleton ks k ih =>
    rw [mergeAll_snoc, zipAdd_getElem? _ _ t _ _ ih (rank1_getElem? p q r mat1 mat2 k t ht)]
    simp only [List.map_append, List.map_cons, List.map_nil, List.sum_append, List.sum_cons,
      List.sum_nil, add_zero]

theorem sum_map_range (f : Nat → F) (q : Nat) :
    ((List.range q).map f).sum = ∑ k in Finset.range q, f k := by
  induction q with
  | zero => simp
  | succ n ih =>
    rw [List.range_succ, List.map_append, List.sum_append, ih, Finset.sum_range_succ]
    simp

theorem mergeAll_perm (p q r : Nat) (mat1 mat2 : List F) (ks : List Nat)
    (hperm : ks.Perm (List.range q)) :
    mergeAll p q r mat1 mat2 ks = refProd p q r mat1 mat2 := by
  apply eq_refProd_of_flat p q r mat1 mat2 _ (mergeAll_length p q r mat1 mat2 ks)
  intro t ht
  rw [mergeAll_cell p q r mat1 mat2 ks t ht, cellRef_eq_sum,
    (hperm.map (fun k => contrib q r mat1 mat2 k t)).sum_eq, sum_map_range]

theorem concurrentMulOuterBad_sum_run (p q r : Nat) (mat1 mat2 : List F)
    (h1 : p * q ≤ mat1.length) (h2 : r * q ≤ mat2.length) (sched : List Nat)
    (s : OuterBadState F) (hrun : concurrentMulOuterBadRun p q r mat1 mat2 sched = some s) :
    OuterBadShape p r mat1 mat2 s ∧ OuterBadSum p q r mat1 mat2 s := by
  obtain ⟨s1, hrun1, hs1, hsum1⟩ := foldlM_invariant (outerBadStep p q r)
    (fun s => OuterBadShape p r mat1 mat2 s ∧ OuterBadSum p q r mat1 mat2 s)
    (fun s e hI =>
      let ⟨s2, hstep, hs2, hsum2⟩ := outerBadStep_sum p q r mat1 mat2 h1 h2 s hI.1 hI.2 e
      ⟨s2, hstep, hs2, hsum2⟩)
    sched (OuterBadState.init p r mat1 mat2)
    ⟨outerBadShape_init p r mat1 mat2, outerBadSum_init p q r mat1 mat2⟩
  have hrun2 : sched.foldlM (outerBadStep p q r) (OuterBadState.init p r mat1 mat2) = some s :=
    hrun
  rw [hrun2] at hrun1
  cases hrun1
  exact ⟨hs1, hsum1⟩

theorem concurrentMulOuter_sum_run (p q r : Nat) (mat1 mat2 : List F)
    (h1 : p * q ≤ mat1.length) (h2 : r * q ≤ mat2.length) (sched : List Nat)
    (s : OuterState F) (hrun : concurrentMulOuterRun p q r mat1 mat2 sched = some s) :
    OuterShape p q r mat1 mat2 s ∧ OuterSum p q r mat1 mat2 s := by
  obtain ⟨s1, hrun1, hs1, hsum1⟩ := foldlM_invariant (outerStep p q r)
    (fun s => OuterShape p q r mat1 mat2 s ∧ OuterSum p q r mat1 mat2 s)
    (fun s e hI =>
      let ⟨s2, hstep, hs2, hsum2⟩ := outerStep_sum p q r mat1 mat2 h1 h2 s hI.1 hI.2 e
      ⟨s2, hstep, hs2, hsum2⟩)
    sched (OuterState.init p r mat1 mat2)
    ⟨outerShape_init p q r mat1 mat2, outerSum_init p q r mat1 mat2⟩
  have hrun2 : sched.foldlM (outerStep p q r) (OuterState.init p r mat1 mat2) = some s := hrun
  rw [hrun2] at hrun1
  cases hrun1
  exact ⟨hs1, hsum1⟩

theorem concurrentMulOuterChan_sum_run (p q r : Nat) (mat1 mat2 : List F)
    (h1 : p * q ≤ mat1.length) (h2 : r * q ≤ mat2.length) (sched : List ChanThread)
    (s : ChanState F) (hrun : concurrentMulOuterChanRun p q r mat1 mat2 sched = some s) :
    ChanShape p q r mat1 mat2 s ∧ ChanSum p q r mat1 mat2 s := by
  obtain ⟨s1, hrun1, hs1, hsum1⟩ := foldlM_invariant (chanStep p q r)
    (fun s => ChanShape p q r mat1 mat2 s ∧ ChanSum p q r mat1 mat2 s)
    (fun s e hI =>
      let ⟨s2, hstep, hs2, hsum2⟩ := chanStep_sum p q r mat1 mat2 h1 h2 s hI.1 hI.2 e
      ⟨s2, hstep, hs2, hsum2⟩)
    sched (ChanState.init p r mat1 mat2)
    ⟨chanShape_init p q r mat1 mat2, chanSum_init p q r mat1 mat2⟩
  have hrun2 : sched.foldlM (chanStep p q r) (ChanState.init p r mat1 mat2) = some s := hrun
  rw [hrun2] at hrun1
  cases hrun1
  exact ⟨hs1, hsum1⟩

theorem sum_filter_all (q : Nat) (P : Nat → Prop) [DecidablePred P] (f : Nat → F)
    (h : ∀ k, k < q → P k) :
    ∑ k in (Finset.range q).filter P, f k = ∑ k in Finset.range q, f k := by
  rw [Finset.filter_true_of_mem]
  intro k hk
  exact h k (Finset.mem_range.1 hk)

/-- C19: over exact arithmetic the outer-product result does not depend on the
merge order.  For operands of lengths `p*q` and `r*q`, `basicMul` returns a
slice `prod` whose cell `(i, j)` is the sum over `k < q` of
`mat1[i*q+k] * mat2[j*q+k]`, and this same slice is: the result of adding the
`q` private buffers to the zero slice in the order of any permutation of
`0 .. q-1`; the content of `prod` in every state that `concurrentMulOuterBad`
reaches under any interleaving in which all goroutines have finished their
loops; the content of `prod` in every state that `concurrentMulOuter` reaches
with all goroutines past their critical section; and the content of `prod` in
every state that `concurrentMulOuterChan` reaches with all buffers sent and
none left in the hands of the receiving goroutine. -/
theorem outer_product_is_merge_order_independent (p q r : Nat) (mat1 mat2 : List F)
    (h1 : mat1.length = p * q) (h2 : mat2.length = r * q) :
    ∃ prod, basicMul p q r mat1 mat2 = some prod
      ∧ (∀ i < p, ∀ j < r, prod[i * r + j]?
          = some (∑ k in Finset.range q, mat1.getD (i * q + k) 0 * mat2.getD (j * q + k) 0))
      ∧ (∀ ks : List Nat, ks.Perm (List.range q) → mergeAll p q r mat1 mat2 ks = prod)
      ∧ (∀ (sched : List Nat) (s : OuterBadState F),
          concurrentMulOuterBadRun p q r mat1 mat2 sched = some s →
          (∀ k, k < q → p * r ≤ s.pc k) → s.mem.prod = prod)
      ∧ (∀ (sched : List Nat) (s : OuterState F),
          concurrentMulOuterRun p q r mat1 mat2 sched = some s →
          (∀ k, k < q → 2 ≤ s.pc k) → s.mem.prod = prod)
      ∧ (∀ (sched : List ChanThread) (s : ChanState F),
          concurrentMulOuterChanRun p q r mat1 mat2 sched = some s →
          (∀ k, k < q → 2 ≤ s.pc k) → s.holding = none → s.mem.prod = prod) := by
  refine ⟨refProd p q r mat1 mat2, basicMul_eq p q r mat1 mat2 h1.ge h2.ge, ?_, ?_, ?_, ?_, ?_⟩
  · intro i hi j hj
    rw [refProd_cell p q r mat1 mat2 i j hi hj, dotFrom_eq_sum]
  · intro ks hperm
    exact mergeAll_perm p q r mat1 mat2 ks hperm
  · intro sched s hrun hall
    obtain ⟨hs, hsum⟩ := concurrentMulOuterBad_sum_run p q r mat1 mat2 h1.ge h2.ge sched s hrun
    apply eq_refProd_of_flat p q r mat1 mat2 _ hs.len
    intro t ht
    rw [hsum t ht, cellRef_eq_sum, sum_filter_all]
    intro k hk
    have := hall k hk
    omega
  · intro sched s hrun hall
    obtain ⟨hs, hsum⟩ := concurrentMulOuter_sum_run p q r mat1 mat2 h1.ge h2.ge sched s hrun
    apply eq_refProd_of_flat p q r mat1 mat2 _ hs.len
    intro t ht
    rw [hsum t ht, cellRef_eq_sum, sum_filter_all]
    exact hall
  · intro sched s hrun hall hhold
    obtain ⟨hs, hsum⟩ := concurrentMulOuterChan_sum_run p q r mat1 mat2 h1.ge h2.ge sched s hrun
    apply eq_refProd_of_flat p q r mat1 mat2 _ hs.len
    intro t ht
    unfold ChanSum at hsum
    rw [hhold] at hsum
    rw [hsum t ht, cellRef_eq_sum, sum_filter_all]
    exact hall

theorem outer_product_is_merge_order_independent_witness :
    ∃ prod, basicMul 1 2 1 ([1, 2] : List Int) [3, 4] = some prod
      ∧ mergeAll 1 2 1 ([1, 2] : List Int) [3, 4] [1, 0] = prod
      ∧ mergeAll 1 2 1 ([1, 2] : List Int) [3, 4] [0, 1] = prod :=
  let ⟨prod, hb, _, hm, _⟩ :=
    outer_product_is_merge_order_independent 1 2 1 ([1, 2] : List Int) [3, 4] rfl rfl
  ⟨prod, hb, hm [1, 0] (List.Perm.swap 0 1 []), hm [0, 1] (List.Perm.refl _)⟩

end MergeOrder

section Harness

variable {F : Type} [Zero F] [Add F] [Mul F]

theorem intMul_of_fits (p q : Nat) (h : p * q < 9223372036854775808) :
    intMul (p : Int) (q : Int) = ((p * q : Nat) : Int) := by
  have hc : (p : Int) * (q : Int) = ((p * q : Nat) : Int) := by push_cast; rfl
  unfold intMul
  rw [hc]
  omega

theorem genmat_eq (maxLen p q : Nat) (rng : Nat → F) (pos : Nat)
    (hmax : maxLen < 9223372036854775808) (hfit : p * q ≤ maxLen) :
    genmat maxLen (p : Int) (q : Int) rng pos
      = Outcome.returned ((List.range (p * q)).map (fun t => rng (pos + t)), pos + p * q) := by
  unfold genmat
  rw [intMul_of_fits p q (by omega)]
  have hc : ¬ ((((p * q : Nat) : Int) < 0) ∨ ((maxLen : Int) < ((p * q : Nat) : Int))) := by
    omega
  rw [if_neg hc, Int.toNat_ofNat, genmat_fold (p * q) rng pos (p * q) le_rfl]
  congr 2
  apply List.map_congr_left
  intro t ht
  rw [if_pos (List.mem_range.1 ht)]

/-- C15 (counterexample): for the positive dimensions `p = q = 2^32` the `int`
product `p*q` wraps to `0` and `genmat` returns the empty slice, not `2^64`
values; for `p = q = 2^31` the length `2^62` is more than the runtime allocates
(here at most `2^45` elements) and `make` panics. -/
theorem genmat_wraps_for_large_dimensions :
    genmat 35184372088832 4294967296 4294967296 (fun n => (n : Int)) 0
        = Outcome.returned ([], 0)
    ∧ genmat 35184372088832 2147483648 2147483648 (fun n => (n : Int)) 0
        = Outcome.panicked := by
  constructor
  · decide
  · decide

/-- C15 (amended): for all non-negative `p` and `q` whose product is at most
`maxLen`, the largest length the runtime allocates (which is less than `2^63`,
so the product fits an `int`), `genmat(p, q)` returns without a panic a slice of
exactly `p*q` values; it makes exactly `p*q` draws from the generator, one per
element, and the element at offset `t` is the draw number `t` of the call, so no
element keeps its zero initial value by omission and none is written twice. -/
theorem genmat_fills_every_element_once (maxLen p q : Nat) (rng : Nat → F) (pos : Nat)
    (hmax : maxLen < 9223372036854775808) (hfit : p * q ≤ maxLen) :
    ∃ x, genmat maxLen (p : Int) (q : Int) rng pos = Outcome.returned (x, pos + p * q)
      ∧ x.length = p * q
      ∧ (∀ t, t < p * q → x[t]? = some (rng (pos + t)))
      ∧ x = (List.range (p * q)).map (fun t => rng (pos + t)) := by
  refine ⟨_, genmat_eq maxLen p q rng pos hmax hfit, by simp, ?_, rfl⟩
  intro t ht
  simp [List.getElem?_range ht]

theorem genmat_fills_every_element_once_witness :
    (35184372088832 : Nat) < 9223372036854775808 ∧ 2 * 3 ≤ 35184372088832
    ∧ ∃ x, genmat 35184372088832 ((2 : Nat) : Int) ((3 : Nat) : Int)
          (fun n => ((n : Int) + 1)) 4 = Outcome.returned (x, 4 + 2 * 3)
      ∧ x.length = 2 * 3
      ∧ (∀ t : Nat, t < 2 * 3 → x[t]? = some (((4 + t : Nat) : Int) + 1))
      ∧ x = (List.range (2 * 3)).map (fun t : Nat => ((4 + t : Nat) : Int) + 1) :=
  ⟨by decide, by decide,
    genmat_fills_every_element_once 35184372088832 2 3 (fun n => ((n : Int) + 1)) 4
      (by decide) (by decide)⟩

theorem innerCall_cases (p q r : Nat) (mat1 mat2 : List F)
    (h1 : p * q ≤ mat1.length) (h2 : r * q ≤ mat2.length) (sched : List (Nat × Nat)) :
    (∃ x, concurrentMulInner p q r mat1 mat2 sched = Outcome.returned x
        ∧ concurrentMulInnerCall p q r sched mat1 mat2
          = Outcome.returned { mat1 := mat1, mat2 := mat2, ret := x })
    ∨ (concurrentMulInner p q r mat1 mat2 sched = Outcome.waiting
        ∧ concurrentMulInnerCall p q r sched mat1 mat2 = Outcome.waiting) := by
  obtain ⟨s, hrun, hs, _⟩ := innerRun_inv p q r mat1 mat2 h1 h2 sched
    (InnerState.init p r mat1 mat2) (innerInv_init p q r mat1 mat2)
  have hrun2 : concurrentMulInnerRun p q r mat1 mat2 sched = some s := hrun
  unfold concurrentMulInner concurrentMulInnerCall
  rw [hrun2]
  simp only
  by_cases hz : s.wgZero p q r = true
  · left
    rw [if_pos hz, if_pos hz, hs.m1, hs.m2]
    exact ⟨_, rfl, rfl⟩
  · right
    rw [if_neg hz, if_neg hz]
    exact ⟨rfl, rfl⟩

theorem outerCall_cases (p q r : Nat) (mat1 mat2 : List F)
    (h1 : p * q ≤ mat1.length) (h2 : r * q ≤ mat2.length) (sched : List Nat) :
    (∃ x, concurrentMulOuter p q r mat1 mat2 sched = Outcome.returned x
        ∧ concurrentMulOuterCall p q r sched mat1 mat2
          = Outcome.returned { mat1 := mat1, mat2 := mat2, ret := x })
    ∨ (concurrentMulOuter p q r mat1 mat2 sched = Outcome.waiting
        ∧ concurrentMulOuterCall p q r sched mat1 mat2 = Outcome.waiting) := by
  obtain ⟨s, hrun, hs⟩ := concurrentMulOuter_runs p q r mat1 mat2 h1 h2 sched
  unfold concurrentMulOuter concurrentMulOuterCall
  rw [hrun]
  simp only
  by_cases hz : s.wgZero q = true
  · left
    rw [if_pos hz, if_pos hz, hs.m1, hs.m2]
    exact ⟨_, rfl, rfl⟩
  · right
    rw [if_neg hz, if_neg hz]
    exact ⟨rfl, rfl⟩

theorem chanLive_cases (p q r : Nat) (mat1 mat2 : List F)
    (h1 : p * q ≤ mat1.length) (h2 : r * q ≤ mat2.length) (sched : List ChanThread) :
    (∃ x s, concurrentMulOuterChan p q r mat1 mat2 sched = Outcome.returned x
        ∧ concurrentMulOuterChanRun p q r mat1 mat2 sched = some s
        ∧ ChanShape p q r mat1 mat2 s ∧ s.ret = some x
        ∧ concurrentMulOuterChanLive p q r sched mat1 mat2
          = Outcome.returned { mat1 := mat1, mat2 := mat2, ret := Slice.live, bg := some s })
    ∨ (concurrentMulOuterChan p q r mat1 mat2 sched = Outcome.waiting
        ∧ concurrentMulOuterChanLive p q r sched mat1 mat2 = Outcome.waiting) := by
  obtain ⟨s, hrun, hs⟩ := concurrentMulOuterChan_runs p q r mat1 mat2 h1 h2 sched
  unfold concurrentMulOuterChan concurrentMulOuterChanLive
  rw [hrun]
  simp only
  cases hret : s.ret with
  | none =>
    right
    exact ⟨rfl, rfl⟩
  | some x =>
    left
    simp only
    rw [hs.m1, hs.m2]
    exact ⟨x, s, rfl, rfl, hs, hret, rfl⟩

theorem methods_fold (p q r : Nat) (mat1 mat2 : List F) (clock : Nat → Int)
    (h1 : p * q ≤ mat1.length) (h2 : r * q ≤ mat2.length)
    (sI : List (Nat × Nat)) (sO : List Nat) (sC : List ChanThread) :
    (∃ x2 x3 x4 s, concurrentMulInner p q r mat1 mat2 sI = Outcome.returned x2
        ∧ concurrentMulOuter p q r mat1 mat2 sO = Outcome.returned x3
        ∧ concurrentMulOuterChan p q r mat1 mat2 sC = Outcome.returned x4
        ∧ concurrentMulOuterChanRun p q r mat1 mat2 sC = some s
        ∧ ChanShape p q r mat1 mat2 s ∧ s.ret = some x4
        ∧ (methods p q r sI sO sC).foldl (fun acc f => acc.bind (fun st => mainIter clock st f))
            (Outcome.returned
              { mat1 := mat1, mat2 := mat2, prod := [], out := [], ticks := 0, bg := none })
          = Outcome.returned
              { mat1 := mat1, mat2 := mat2,
                prod := [Slice.fixed (refProd p q r mat1 mat2), Slice.fixed x2, Slice.fixed x3,
                  Slice.live],
                out := [Line.duration (clock 1 - clock 0), Line.duration (clock 3 - clock 2),
                  Line.duration (clock 5 - clock 4), Line.duration (clock 7 - clock 6)],
                ticks := 8, bg := some s })
    ∨ ((methods p q r sI sO sC).foldl (fun acc f => acc.bind (fun st => mainIter clock st f))
          (Outcome.returned
            { mat1 := mat1, mat2 := mat2, prod := [], out := [], ticks := 0, bg := none })
        = (Outcome.waiting : Outcome (MainState F))
      ∧ (concurrentMulInner p q r mat1 mat2 sI = Outcome.waiting
        ∨ concurrentMulOuter p q r mat1 mat2 sO = Outcome.waiting
        ∨ concurrentMulOuterChan p q r mat1 mat2 sC = Outcome.waiting)) := by
  rcases innerCall_cases p q r mat1 mat2 h1 h2 sI with ⟨x2, hx2, hc2⟩ | ⟨hw, hc2⟩
  · rcases outerCall_cases p q r mat1 mat2 h1 h2 sO with ⟨x3, hx3, hc3⟩ | ⟨hw, hc3⟩
    · rcases chanLive_cases p q r mat1 mat2 h1 h2 sC with ⟨x4, s, hx4, hrun, hs, hret, hc4⟩ | ⟨hw, hc4⟩
      · left
        refine ⟨x2, x3, x4, s, hx2, hx3, hx4, hrun, hs, hret, ?_⟩
        simp only [methods, List.foldl_cons, List.foldl_nil, Outcome.bind, mainIter,
          basicMulCall_eq p q r _ _ h1 h2, hc2, hc3, hc4, Call.settled, List.nil_append,
          List.cons_append, List.singleton_append]
      · right
        refine ⟨?_, Or.inr (Or.inr hw)⟩
        simp only [methods, List.foldl_cons, List.foldl_nil, Outcome.bind, mainIter,
          basicMulCall_eq p q r _ _ h1 h2, hc2, hc3, hc4, Call.settled]
    · right
      refine ⟨?_, Or.inr (Or.inl hw)⟩
      simp only [methods, List.foldl_cons, List.foldl_nil, Outcome.bind, mainIter,
        basicMulCall_eq p q r _ _ h1 h2, hc2, hc3, Call.settled]
  · right
    refine ⟨?_, Or.inl hw⟩
    simp only [methods, List.foldl_cons, List.foldl_nil, Outcome.bind, mainIter,
      basicMulCall_eq p q r _ _ h1 h2, hc2, Call.settled]

theorem foldl_outcome_sim {σ τ ε : Type} (g : Outcome σ → ε → Outcome σ) (h : τ → ε → τ)
    (R : σ → τ → Prop) (l : List ε)
    (hstep : ∀ st t e, e ∈ l → R st t →
      ∃ st2, g (Outcome.returned st) e = Outcome.returned st2 ∧ R st2 (h t e)) :
    ∀ st t, R st t →
      ∃ st2, l.foldl g (Outcome.returned st) = Outcome.returned st2 ∧ R st2 (l.foldl h t) := by
  induction l with
  | nil =>
    intro st t hR
    exact ⟨st, rfl, hR⟩
  | cons e rest ih =>
    intro st t hR
    obtain ⟨st1, h1, hR1⟩ := hstep st t e (List.mem_cons_self e rest) hR
    rw [List.foldl_cons, List.foldl_cons, h1]
    exact ih (fun st t e he hR => hstep st t e (List.mem_cons_of_mem _ he) hR) st1 _ hR1

theorem bgRun_ok (p q r : Nat) (mat1 mat2 : List F)
    (h1 : p * q ≤ mat1.length) (h2 : r * q ≤ mat2.length)
    (bg : Option (ChanState F)) (hbg : ∀ s, bg = some s → ChanShape p q r mat1 mat2 s)
    (steps : List ChanThread) :
    ∃ bg2, bgRun p q r bg steps = Outcome.returned bg2
      ∧ ∀ s, bg2 = some s → ChanShape p q r mat1 mat2 s := by
  cases bg with
  | none => exact ⟨none, rfl, fun s hs => by cases hs⟩
  | some s =>
    obtain ⟨s2, hrun, hs2⟩ := foldlM_invariant (chanStep p q r) (ChanShape p q r mat1 mat2)
      (fun s e hs =>
        let ⟨s2, hstep, hs2, _⟩ := chanStep_shape p q r mat1 mat2 h1 h2 s hs e
        ⟨s2, hstep, hs2⟩)
      steps s (hbg s rfl)
    refine ⟨some s2, ?_, ?_⟩
    · unfold bgRun
      simp only [hrun]
    · intro s3 hs3
      cases hs3
      exact hs2

theorem compareStep_ok (p q r : Nat) (mat1 mat2 : List F)
    (h1 : p * q ≤ mat1.length) (h2 : r * q ≤ mat2.length)
    (approx : List F → List F → Bool) (gaps : Nat → List ChanThread)
    (st : ScanState F) (hbg : ∀ s, st.bg = some s → ChanShape p q r mat1 mat2 s)
    (ix jy : Nat × Slice F) :
    ∃ st2, compareStep p q r approx gaps st ix jy = Outcome.returned st2
      ∧ (∀ s, st2.bg = some s → ChanShape p q r mat1 mat2 s)
      ∧ (st2.out = st.out ∨ st2.out = st.out ++ [Line.differ ix.1 jy.1]) := by
  obtain ⟨bg2, hrun, hbg2⟩ := bgRun_ok p q r mat1 mat2 h1 h2 st.bg hbg (gaps st.n)
  unfold compareStep
  rw [hrun]
  simp only [Outcome.bind]
  refine ⟨_, rfl, hbg2, ?_⟩
  simp only
  split_ifs
  · exact Or.inr rfl
  · exact Or.inl rfl

theorem enum_fst_lt {α : Type} (l : List α) (e : Nat × α) (he : e ∈ l.enum) :
    e.1 < l.length := by
  obtain ⟨i, x⟩ := e
  rw [List.mem_enum_iff_getElem?] at he
  exact (List.getElem?_eq_some.1 he).1

theorem scan_ok (p q r : Nat) (mat1 mat2 : List F)
    (h1 : p * q ≤ mat1.length) (h2 : r * q ≤ mat2.length)
    (approx : List F → List F → Bool) (gaps : Nat → List ChanThread)
    (prod : List (Slice F)) (st : ScanState F)
    (hbg : ∀ s, st.bg = some s → ChanShape p q r mat1 mat2 s) :
    ∃ st2 tail, scan p q r approx gaps prod st = Outcome.returned st2
      ∧ st2.out = st.out ++ tail
      ∧ ∀ l, l ∈ tail → ∃ i j, i < prod.length ∧ j < prod.length ∧ l = Line.differ i j := by
  have hinner : ∀ ix, ix ∈ prod.enum → ∀ (st1 : ScanState F) (t : Unit) (jy : Nat × Slice F),
      jy ∈ prod.enum →
      ((∀ s, st1.bg = some s → ChanShape p q r mat1 mat2 s)
        ∧ ∃ tail, st1.out = st.out ++ tail
          ∧ ∀ l, l ∈ tail → ∃ i j, i < prod.length ∧ j < prod.length ∧ l = Line.differ i j) →
      ∃ st2, (fun (acc : Outcome (ScanState F)) (jy : Nat × Slice F) =>
          acc.bind (fun st => compareStep p q r approx gaps st ix jy))
            (Outcome.returned st1) jy = Outcome.returned st2
        ∧ ((∀ s, st2.bg = some s → ChanShape p q r mat1 mat2 s)
          ∧ ∃ tail, st2.out = st.out ++ tail
            ∧ ∀ l, l ∈ tail →
              ∃ i j, i < prod.length ∧ j < prod.length ∧ l = Line.differ i j) := by
    intro ix hix st1 _ jy hjy hI
    obtain ⟨hbg1, tail, ht, hall⟩ := hI
    obtain ⟨st2, hstep, hbg2, hout⟩ :=
      compareStep_ok p q r mat1 mat2 h1 h2 approx gaps st1 hbg1 ix jy
    refine ⟨st2, hstep, hbg2, ?_⟩
    rcases hout with e | e
    · exact ⟨tail, by rw [e, ht], hall⟩
    · refine ⟨tail ++ [Line.differ ix.1 jy.1], by rw [e, ht, List.append_assoc], ?_⟩
      intro l hl
      rcases List.mem_append.1 hl with hl | hl
      · exact hall l hl
      · rw [List.mem_singleton.1 hl]
        exact ⟨ix.1, jy.1, enum_fst_lt prod ix hix, enum_fst_lt prod jy hjy, rfl⟩
  have houter := foldl_outcome_sim
    (fun (acc : Outcome (ScanState F)) (ix : Nat × Slice F) =>
      prod.enum.foldl (fun acc jy =>
        acc.bind (fun st => compareStep p q r approx gaps st ix jy)) acc)
    (fun (t : Unit) (_ : Nat × Slice F) => t)
    (fun (st1 : ScanState F) (_ : Unit) =>
      (∀ s, st1.bg = some s → ChanShape p q r mat1 mat2 s)
        ∧ ∃ tail, st1.out = st.out ++ tail
          ∧ ∀ l, l ∈ tail → ∃ i j, i < prod.length ∧ j < prod.length ∧ l = Line.differ i j)
    prod.enum
    (fun st1 t ix hix hI => by
      obtain ⟨st2, hrun, hI2⟩ := foldl_outcome_sim
        (fun (acc : Outcome (ScanState F)) (jy : Nat × Slice F) =>
          acc.bind (fun st => compareStep p q r approx gaps st ix jy))
        (fun (t : Unit) (_ : Nat × Slice F) => t) _ prod.enum
        (fun st1 t jy hjy hI => hinner ix hix st1 t jy hjy hI) st1 t hI
      exact ⟨st2, hrun, by simpa using hI2⟩)
    st () ⟨hbg, [], by simp, fun l hl => by cases hl⟩
  obtain ⟨st2, hrun, _, tail, ht, hall⟩ := houter
  exact ⟨st2, tail, hrun, ht, hall⟩

theorem outcome_bind_returned {α β : Type} (a : α) (k : α → Outcome β) :
    (Outcome.returned a).bind k = k a := rfl

theorem main_unfold (maxLen p q r : Nat) (rng : Nat → F) (clock : Nat → Int)
    (approx : List F → List F → Bool)
    (sI : List (Nat × Nat)) (sO : List Nat) (sC : List ChanThread)
    (gaps : Nat → List ChanThread)
    (hmax : maxLen < 9223372036854775808) (hpq : p * q ≤ maxLen) (hrq : r * q ≤ maxLen) :
    main maxLen p q r rng clock approx sI sO sC gaps
      = ((methods p q r sI sO sC).foldl (fun acc f => acc.bind (fun st => mainIter clock st f))
          (Outcome.returned
            { mat1 := (List.range (p * q)).map (fun t => rng t),
              mat2 := (List.range (r * q)).map (fun t => rng (p * q + t)),
              prod := [], out := [], ticks := 0, bg := none })).bind
          (fun st =>
            (scan p q r approx gaps st.prod { bg := st.bg, out := st.out, n := 0 }).bind
              (fun s => Outcome.returned s.out)) := by
  unfold main
  rw [genmat_eq maxLen p q rng 0 hmax hpq, outcome_bind_returned]
  dsimp only
  rw [genmat_eq maxLen r q rng (0 + p * q) hmax hrq, outcome_bind_returned]
  simp only [Nat.zero_add]

theorem main_run (maxLen p q r : Nat) (rng : Nat → F) (clock : Nat → Int)
    (approx : List F → List F → Bool)
    (sI : List (Nat × Nat)) (sO : List Nat) (sC : List ChanThread)
    (gaps : Nat → List ChanThread)
    (hmax : maxLen < 9223372036854775808) (hpq : p * q ≤ maxLen) (hrq : r * q ≤ maxLen) :
    (∃ x2 x3 x4 s st2 tail,
        concurrentMulInner p q r ((List.range (p * q)).map (fun t => rng t))
          ((List.range (r * q)).map (fun t => rng (p * q + t))) sI = Outcome.returned x2
        ∧ concurrentMulOuter p q r ((List.range (p * q)).map (fun t => rng t))
          ((List.range (r * q)).map (fun t => rng (p * q + t))) sO = Outcome.returned x3
        ∧ concurrentMulOuterChan p q r ((List.range (p * q)).map (fun t => rng t))
          ((List.range (r * q)).map (fun t => rng (p * q + t))) sC = Outcome.returned x4
        ∧ concurrentMulOuterChanRun p q r ((List.range (p * q)).map (fun t => rng t))
          ((List.range (r * q)).map (fun t => rng (p * q + t))) sC = some s
        ∧ ChanShape p q r ((List.range (p * q)).map (fun t => rng t))
          ((List.range (r * q)).map (fun t => rng (p * q + t))) s
        ∧ s.ret = some x4
        ∧ scan p q r approx gaps
            [Slice.fixed (refProd p q r ((List.range (p * q)).map (fun t => rng t))
                ((List.range (r * q)).map (fun t => rng (p * q + t)))),
              Slice.fixed x2, Slice.fixed x3, Slice.live]
            { bg := some s,
              out := [Line.duration (clock 1 - clock 0), Line.duration (clock 3 - clock 2),
                Line.duration (clock 5 - clock 4), Line.duration (clock 7 - clock 6)],
              n := 0 } = Outcome.returned st2
        ∧ st2.out = [Line.duration (clock 1 - clock 0), Line.duration (clock 3 - clock 2),
            Line.duration (clock 5 - clock 4), Line.duration (clock 7 - clock 6)] ++ tail
        ∧ (∀ l, l ∈ tail → ∃ i j, i < 4 ∧ j < 4 ∧ l = Line.differ i j)
        ∧ main maxLen p q r rng clock approx sI sO sC gaps = Outcome.returned st2.out)
    ∨ (main maxLen p q r rng clock approx sI sO sC gaps = Outcome.waiting
      ∧ (concurrentMulInner p q r ((List.range (p * q)).map (fun t => rng t))
            ((List.range (r * q)).map (fun t => rng (p * q + t))) sI = Outcome.waiting
        ∨ concurrentMulOuter p q r ((List.range (p * q)).map (fun t => rng t))
            ((List.range (r * q)).map (fun t => rng (p * q + t))) sO = Outcome.waiting
        ∨ concurrentMulOuterChan p q r ((List.range (p * q)).map (fun t => rng t))
            ((List.range (r * q)).map (fun t => rng (p * q + t))) sC = Outcome.waiting)) := by
  have h1 : p * q ≤ ((List.range (p * q)).map (fun t => rng t)).length := by simp
  have h2 : r * q ≤ ((List.range (r * q)).map (fun t => rng (p * q + t))).length := by simp
  rw [main_unfold maxLen p q r rng clock approx sI sO sC gaps hmax hpq hrq]
  rcases methods_fold p q r _ _ clock h1 h2 sI sO sC with
    ⟨x2, x3, x4, s, hx2, hx3, hx4, hrun, hs, hret, hfold⟩ | ⟨hfold, hw⟩
  · left
    obtain ⟨st2, tail, hscan, hout, hall⟩ := scan_ok p q r _ _ h1 h2 approx gaps
      [Slice.fixed (refProd p q r ((List.range (p * q)).map (fun t => rng t))
          ((List.range (r * q)).map (fun t => rng (p * q + t)))),
        Slice.fixed x2, Slice.fixed x3, Slice.live]
      { bg := some s,
        out := [Line.duration (clock 1 - clock 0), Line.duration (clock 3 - clock 2),
          Line.duration (clock 5 - clock 4), Line.duration (clock 7 - clock 6)],
        n := 0 }
      (fun s2 hs2 => by cases hs2; exact hs)
    refine ⟨x2, x3, x4, s, st2, tail, hx2, hx3, hx4, hrun, hs, hret, hscan, hout, hall, ?_⟩
    rw [hfold]
    simp only [Outcome.bind]
    rw [hscan]
  · right
    refine ⟨?_, hw⟩
    rw [hfold]
    rfl

theorem main_returns_iff (maxLen p q r : Nat) (rng : Nat → F) (clock : Nat → Int)
    (approx : List F → List F → Bool)
    (sI : List (Nat × Nat)) (sO : List Nat) (sC : List ChanThread)
    (gaps : Nat → List ChanThread)
    (hmax : maxLen < 9223372036854775808) (hpq : p * q ≤ maxLen) (hrq : r * q ≤ maxLen) :
    (∃ lines, main maxLen p q r rng clock approx sI sO sC gaps = Outcome.returned lines)
      ↔ ((∃ x2, concurrentMulInner p q r ((List.range (p * q)).map (fun t => rng t))
            ((List.range (r * q)).map (fun t => rng (p * q + t))) sI = Outcome.returned x2)
        ∧ (∃ x3, concurrentMulOuter p q r ((List.range (p * q)).map (fun t => rng t))
            ((List.range (r * q)).map (fun t => rng (p * q + t))) sO = Outcome.returned x3)
        ∧ (∃ x4, concurrentMulOuterChan p q r ((List.range (p * q)).map (fun t => rng t))
            ((List.range (r * q)).map (fun t => rng (p * q + t))) sC = Outcome.returned x4)) := by
  rcases main_run maxLen p q r rng clock approx sI sO sC gaps hmax hpq hrq with
    ⟨x2, x3, x4, s, st2, tail, hx2, hx3, hx4, _, _, _, _, _, _, hmain⟩ | ⟨hmain, hw⟩
  · exact ⟨fun _ => ⟨⟨x2, hx2⟩, ⟨x3, hx3⟩, ⟨x4, hx4⟩⟩, fun _ => ⟨_, hmain⟩⟩
  · constructor
    · rintro ⟨lines, hl⟩
      rw [hmain] at hl
      cases hl
    · rintro ⟨⟨x2, hx2⟩, ⟨x3, hx3⟩, ⟨x4, hx4⟩⟩
      rcases hw with hw | hw | hw
      · rw [hw] at hx2
        cases hx2
      · rw [hw] at hx3
        cases hx3
      · rw [hw] at hx4
        cases hx4

theorem chanInTurn_returns (p q r : Nat) (mat1 mat2 : List F)
    (h1 : p * q ≤ mat1.length) (h2 : r * q ≤ mat2.length) (post : List ChanThread) :
    ∃ x, concurrentMulOuterChan p q r mat1 mat2 (chanInTurn q ++ ChanThread.caller :: post)
      = Outcome.returned x := by
  obtain ⟨s, hrun, _, hpc, _, _⟩ := chanInTurn_run p q r mat1 mat2 h1 h2 q le_rfl
  have hwg : s.wgZero q = true := by
    rw [chanWgZero_iff]
    intro k hk
    rw [hpc k, if_pos hk]
    omega
  exact ⟨_, concurrentMulOuterChan_returns_prod p q r mat1 mat2 h1 h2 (chanInTurn q) post
    (caller_not_mem_chanInTurn q) s hrun hwg⟩

/-- C9 (counterexample): a complete run of `main` in which all collected
outputs are equal prints four `Duration` lines, not five. -/
theorem main_prints_four_not_five :
    main 100 1 1 1 (fun n => ((n : Int) + 1)) (fun n => 10 * (n : Int))
        (fun x y => decide (x = y)) [(0, 0), (0, 0)] [0, 0, 0]
        [ChanThread.worker 0, ChanThread.worker 0, ChanThread.reducer, ChanThread.worker 0,
          ChanThread.caller] (fun _ => [])
      = Outcome.returned [Line.duration 10, Line.duration 10, Line.duration 10,
          Line.duration 10] := by
  decide

/-- C9 (amended): `main` runs the four variants of its `methods` slice
(`basicMul`, `concurrentMulInner`, `concurrentMulOuter`,
`concurrentMulOuterChan`; `concurrentMulOuterBad` is not in the slice), one
after another on the generated pair.  When the two generated matrices fit the
memory, `main` never panics, whatever the schedules; it runs to its end exactly
when the three concurrent calls return, which they do under fair schedules; and
what it has then printed is exactly four `Duration` lines, one per variant,
followed only by mismatch lines for pairs of the four outputs. -/
theorem main_runs_four_variants (maxLen p q r : Nat) (rng : Nat → F) (clock : Nat → Int)
    (approx : List F → List F → Bool)
    (sI : List (Nat × Nat)) (sO : List Nat) (sC : List ChanThread)
    (gaps : Nat → List ChanThread)
    (hmax : maxLen < 9223372036854775808) (hpq : p * q ≤ maxLen) (hrq : r * q ≤ maxLen) :
    (methods p q r sI sO sC : List (List F → List F → Outcome (Returned F))).length = 4
    ∧ (∃ x1, basicMul p q r ((List.range (p * q)).map (fun t => rng t))
        ((List.range (r * q)).map (fun t => rng (p * q + t))) = some x1)
    ∧ main maxLen p q r rng clock approx sI sO sC gaps ≠ Outcome.panicked
    ∧ ((∃ lines, main maxLen p q r rng clock approx sI sO sC gaps = Outcome.returned lines)
      ↔ ((∃ x2, concurrentMulInner p q r ((List.range (p * q)).map (fun t => rng t))
            ((List.range (r * q)).map (fun t => rng (p * q + t))) sI = Outcome.returned x2)
        ∧ (∃ x3, concurrentMulOuter p q r ((List.range (p * q)).map (fun t => rng t))
            ((List.range (r * q)).map (fun t => rng (p * q + t))) sO = Outcome.returned x3)
        ∧ (∃ x4, concurrentMulOuterChan p q r ((List.range (p * q)).map (fun t => rng t))
            ((List.range (r * q)).map (fun t => rng (p * q + t))) sC = Outcome.returned x4)))
    ∧ (∀ lines, main maxLen p q r rng clock approx sI sO sC gaps = Outcome.returned lines →
        ∃ tail, lines
            = [Line.duration (clock 1 - clock 0), Line.duration (clock 3 - clock 2),
                Line.duration (clock 5 - clock 4), Line.duration (clock 7 - clock 6)] ++ tail
          ∧ ∀ l, l ∈ tail → ∃ i j, i < 4 ∧ j < 4 ∧ l = Line.differ i j)
    ∧ ((∀ i < p, ∀ j < r, q + 1 ≤ sI.count (i, j)) → (∀ k < q, 3 ≤ sO.count k) →
        (∃ post, sC = chanInTurn q ++ ChanThread.caller :: post) →
        ∃ lines, main maxLen p q r rng clock approx sI sO sC gaps = Outcome.returned lines) := by
  have h1 : p * q ≤ ((List.range (p * q)).map (fun t => rng t)).length := by simp
  have h2 : r * q ≤ ((List.range (r * q)).map (fun t => rng (p * q + t))).length := by simp
  have hiff := main_returns_iff maxLen p q r rng clock approx sI sO sC gaps hmax hpq hrq
  refine ⟨rfl, ⟨_, basicMul_eq p q r _ _ h1 h2⟩, ?_, hiff, ?_, ?_⟩
  · rcases main_run maxLen p q r rng clock approx sI sO sC gaps hmax hpq hrq with
      ⟨_, _, _, _, _, _, _, _, _, _, _, _, _, _, _, hmain⟩ | ⟨hmain, _⟩
    · rw [hmain]
      intro e
      cases e
    · rw [hmain]
      intro e
      cases e
  · intro lines hl
    rcases main_run maxLen p q r rng clock approx sI sO sC gaps hmax hpq hrq with
      ⟨_, _, _, _, st2, tail, _, _, _, _, _, _, _, hout, hall, hmain⟩ | ⟨hmain, _⟩
    · rw [hmain] at hl
      cases hl
      exact ⟨tail, hout, hall⟩
    · rw [hmain] at hl
      cases hl
  · intro fairI fairO hC
    obtain ⟨post, rfl⟩ := hC
    rw [hiff]
    refine ⟨⟨_, (concurrentMulInner_sound p q r _ _ h1 h2 sI).2 fairI⟩, ?_,
      chanInTurn_returns p q r _ _ h1 h2 post⟩
    obtain ⟨x3, hx3, _⟩ := concurrentMulOuterCall_eq p q r _ _ h1 h2 sO fairO
    exact ⟨x3, hx3⟩

theorem main_runs_four_variants_witness :
    (100 : Nat) < 9223372036854775808 ∧ 1 * 1 ≤ 100
    ∧ (∀ i < 1, ∀ j < 1, 1 + 1 ≤ ([(0, 0), (0, 0)] : List (Nat × Nat)).count (i, j))
    ∧ (∀ k < 1, 3 ≤ ([0, 0, 0] : List Nat).count k)
    ∧ ∃ lines, main 100 1 1 1 (fun n => ((n : Int) + 1)) (fun n => 10 * (n : Int))
        (fun x y => decide (x = y)) [(0, 0), (0, 0)] [0, 0, 0]
        (chanInTurn 1 ++ ChanThread.caller :: [ChanThread.reducer])
        (fun _ => [ChanThread.reducer]) = Outcome.returned lines :=
  ⟨by decide, by decide, by decide, by decide,
    (main_runs_four_variants 100 1 1 1 (fun n => ((n : Int) + 1)) (fun n => 10 * (n : Int))
      (fun x y => decide (x = y)) [(0, 0), (0, 0)] [0, 0, 0]
      (chanInTurn 1 ++ ChanThread.caller :: [ChanThread.reducer])
      (fun _ => [ChanThread.reducer]) (by decide) (by decide) (by decide)).2.2.2.2.2
      (by decide) (by decide) ⟨[ChanThread.reducer], rfl⟩⟩

theorem chanStep_settled (p q r : Nat) (s : ChanState F) (x : List F)
    (hpc : ∀ k, k < q → 2 < s.pc k) (hhold : s.holding = none) (hret : s.ret = some x)
    (t : ChanThread) : chanStep p q r s t = some s := by
  cases t with
  | worker k =>
    unfold chanStep
    simp only
    by_cases hk : k < q
    · have := hpc k hk
      rw [if_pos hk, if_neg (by omega), if_neg (by omega), if_neg (by omega)]
    · rw [if_neg hk]
  | reducer =>
    unfold chanStep
    simp only [hhold]
  | caller =>
    unfold chanStep
    simp only [hret, Option.isNone_some, Bool.false_eq_true, false_and, if_false]

theorem bgRun_settled (p q r : Nat) (s : ChanState F) (x : List F)
    (hpc : ∀ k, k < q → 2 < s.pc k) (hhold : s.holding = none) (hret : s.ret = some x)
    (steps : List ChanThread) :
    bgRun p q r (some s) steps = Outcome.returned (some s) := by
  have hrun : steps.foldlM (chanStep p q r) s = some s := by
    induction steps with
    | nil => rfl
    | cons t rest ih =>
      rw [List.foldlM_cons, chanStep_settled p q r s x hpc hhold hret t]
      exact ih
  unfold bgRun
  simp only [hrun]

theorem mismatchLines_map {α : Type} (approx : List F → List F → Bool) (f : α → List F)
    (prod : List α) :
    mismatchLines approx (prod.map f)
      = prod.enum.foldl (fun out ix =>
          prod.enum.foldl (fun out jy =>
            if !approx (f ix.2) (f jy.2) then out ++ [Line.differ ix.1 jy.1] else out) out) [] := by
  unfold mismatchLines
  rw [List.enum_map, List.foldl_map]
  congr 1
  funext out ix
  rw [List.foldl_map]
  rfl

theorem scan_settled (p q r : Nat) (approx : List F → List F → Bool)
    (gaps : Nat → List ChanThread) (s : ChanState F) (x : List F)
    (hpc : ∀ k, k < q → 2 < s.pc k) (hhold : s.holding = none) (hret : s.ret = some x)
    (prod : List (Slice F)) (out0 : List Line) (n0 : Nat) :
    ∃ st2, scan p q r approx gaps prod { bg := some s, out := out0, n := n0 }
        = Outcome.returned st2
      ∧ st2.out = out0 ++ mismatchLines approx (prod.map (Slice.read (some s))) := by
  have hinner : ∀ (ix : Nat × Slice F) (st1 : ScanState F) (t : List Line)
      (jy : Nat × Slice F), jy ∈ prod.enum →
      (st1.bg = some s ∧ st1.out = out0 ++ t) →
      ∃ st2, (fun (acc : Outcome (ScanState F)) (jy : Nat × Slice F) =>
          acc.bind (fun st => compareStep p q r approx gaps st ix jy))
            (Outcome.returned st1) jy = Outcome.returned st2
        ∧ (st2.bg = some s ∧ st2.out = out0 ++
            (fun (out : List Line) (jy : Nat × Slice F) =>
              if !approx (Slice.read (some s) ix.2) (Slice.read (some s) jy.2)
              then out ++ [Line.differ ix.1 jy.1] else out) t jy) := by
    intro ix st1 t jy _ hI
    obtain ⟨hbg, hout⟩ := hI
    have hstep : compareStep p q r approx gaps st1 ix jy
        = Outcome.returned
            { bg := some s,
              out := (if !approx (Slice.read (some s) ix.2) (Slice.read (some s) jy.2)
                then st1.out ++ [Line.differ ix.1 jy.1] else st1.out),
              n := st1.n + 1 } := by
      unfold compareStep
      rw [hbg, bgRun_settled p q r s x hpc hhold hret (gaps st1.n)]
      rfl
    refine ⟨_, hstep, rfl, ?_⟩
    simp only [hout]
    split_ifs
    · rw [List.append_assoc]
    · rfl
  have houter := foldl_outcome_sim
    (fun (acc : Outcome (ScanState F)) (ix : Nat × Slice F) =>
      prod.enum.foldl (fun acc jy =>
        acc.bind (fun st => compareStep p q r approx gaps st ix jy)) acc)
    (fun (out : List Line) (ix : Nat × Slice F) =>
      prod.enum.foldl (fun out jy =>
        if !approx (Slice.read (some s) ix.2) (Slice.read (some s) jy.2)
        then out ++ [Line.differ ix.1 jy.1] else out) out)
    (fun (st1 : ScanState F) (t : List Line) => st1.bg = some s ∧ st1.out = out0 ++ t)
    prod.enum
    (fun st1 t ix _ hI =>
      foldl_outcome_sim
        (fun (acc : Outcome (ScanState F)) (jy : Nat × Slice F) =>
          acc.bind (fun st => compareStep p q r approx gaps st ix jy))
        (fun (out : List Line) (jy : Nat × Slice F) =>
          if !approx (Slice.read (some s) ix.2) (Slice.read (some s) jy.2)
          then out ++ [Line.differ ix.1 jy.1] else out)
        _ prod.enum (fun st1 t jy hjy hI => hinner ix st1 t jy hjy hI) st1 t hI)
    { bg := some s, out := out0, n := n0 } [] ⟨rfl, by simp⟩
  obtain ⟨st2, hrun, _, hout⟩ := houter
  refine ⟨st2, hrun, ?_⟩
  rw [hout, mismatchLines_map]

theorem chanStep_ret_wg (p q r : Nat) (s s2 : ChanState F) (t : ChanThread)
    (h : chanStep p q r s t = some s2)
    (hI : ∀ x, s.ret = some x → ∀ k, k < q → 2 < s.pc k) :
    ∀ x, s2.ret = some x → ∀ k, k < q → 2 < s2.pc k := by
  cases t with
  | worker k =>
    intro x hx k2 hk2
    have hr : s2.ret = s.ret :=
      chanStep_ret_of_ne p q r s s2 (ChanThread.worker k) (fun e => by cases e) h
    rw [hr] at hx
    have hall := hI x hx
    unfold chanStep at h
    simp only at h
    by_cases hk : k < q
    · have := hall k hk
      rw [if_pos hk, if_neg (by omega), if_neg (by omega), if_neg (by omega)] at h
      cases h
      exact hall k2 hk2
    · rw [if_neg hk] at h
      cases h
      exact hall k2 hk2
  | reducer =>
    unfold chanStep at h
    simp only at h
    cases hh : s.holding with
    | none =>
      rw [hh] at h
      cases h
      exact hI
    | some y =>
      rw [hh] at h
      simp only [Option.map_eq_some'] at h
      obtain ⟨pr, _, rfl⟩ := h
      exact hI
  | caller =>
    unfold chanStep at h
    simp only at h
    split_ifs at h with hc
    · cases h
      intro x _ k hk
      exact (chanWgZero_iff q s).1 hc.2 k hk
    · cases h
      exact hI

theorem chanRun_ret_wg (p q r : Nat) (mat1 mat2 : List F) (sched : List ChanThread)
    (s : ChanState F) (hrun : concurrentMulOuterChanRun p q r mat1 mat2 sched = some s)
    (x : List F) (hret : s.ret = some x) : ∀ k, k < q → 2 < s.pc k :=
  foldlM_inv_of_some (chanStep p q r)
    (fun s => ∀ x, s.ret = some x → ∀ k, k < q → 2 < s.pc k)
    (fun s e s2 h hI => chanStep_ret_wg p q r s s2 e h hI) sched
    (ChanState.init p r mat1 mat2) s hrun
    (fun x hx => by simp [ChanState.init] at hx) x hret

theorem mismatchLines_nil_of_all (approx : List F → List F → Bool) (prod : List (List F))
    (hall : ∀ x ∈ prod, ∀ y ∈ prod, approx x y = true) : mismatchLines approx prod = [] := by
  apply List.eq_nil_iff_forall_not_mem.2
  intro l hl
  cases l with
  | duration d => exact duration_not_mem_mismatchLines approx prod d hl
  | differ i j =>
    obtain ⟨x, y, hx, hy, hxy⟩ := (mem_mismatchLines approx prod i j).1 hl
    rw [hall x (List.getElem?_mem hx) y (List.getElem?_mem hy)] at hxy
    cases hxy

theorem mismatchLines_contains (approx : List F → List F → Bool) (prod : List (List F))
    (c : Nat)
    (hc : ∀ i j x y, i ≠ c → j ≠ c → prod[i]? = some x → prod[j]? = some y →
      approx x y = true) :
    ∀ i j, Line.differ i j ∈ mismatchLines approx prod → i = c ∨ j = c := by
  intro i j hl
  obtain ⟨x, y, hx, hy, hxy⟩ := (mem_mismatchLines approx prod i j).1 hl
  by_contra hne
  simp only [not_or] at hne
  rw [hc i j x y hne.1 hne.2 hx hy] at hxy
  cases hxy

theorem main_settled (maxLen p q r : Nat) (rng : Nat → F) (clock : Nat → Int)
    (approx : List F → List F → Bool)
    (sI : List (Nat × Nat)) (sO : List Nat) (sC : List ChanThread)
    (gaps : Nat → List ChanThread)
    (hmax : maxLen < 9223372036854775808) (hpq : p * q ≤ maxLen) (hrq : r * q ≤ maxLen)
    (hold : (concurrentMulOuterChanRun p q r ((List.range (p * q)).map (fun t => rng t))
        ((List.range (r * q)).map (fun t => rng (p * q + t))) sC).map (fun s => s.holding)
      = some none)
    (lines : List Line)
    (hl : main maxLen p q r rng clock approx sI sO sC gaps = Outcome.returned lines) :
    ∃ x1 x2 x3 x4,
      basicMul p q r ((List.range (p * q)).map (fun t => rng t))
        ((List.range (r * q)).map (fun t => rng (p * q + t))) = some x1
      ∧ concurrentMulInner p q r ((List.range (p * q)).map (fun t => rng t))
        ((List.range (r * q)).map (fun t => rng (p * q + t))) sI = Outcome.returned x2
      ∧ concurrentMulOuter p q r ((List.range (p * q)).map (fun t => rng t))
        ((List.range (r * q)).map (fun t => rng (p * q + t))) sO = Outcome.returned x3
      ∧ (concurrentMulOuterChanRun p q r ((List.range (p * q)).map (fun t => rng t))
          ((List.range (r * q)).map (fun t => rng (p * q + t))) sC).map (fun s => s.mem.prod)
        = some x4
      ∧ lines = [Line.duration (clock 1 - clock 0), Line.duration (clock 3 - clock 2),
            Line.duration (clock 5 - clock 4), Line.duration (clock 7 - clock 6)]
          ++ mismatchLines approx [x1, x2, x3, x4] := by
  have h1 : p * q ≤ ((List.range (p * q)).map (fun t => rng t)).length := by simp
  have h2 : r * q ≤ ((List.range (r * q)).map (fun t => rng (p * q + t))).length := by simp
  rcases main_run maxLen p q r rng clock approx sI sO sC gaps hmax hpq hrq with
    ⟨x2, x3, x4, s, st2, tail, hx2, hx3, _, hrun, _, hret, hscan, _, _, hmain⟩ | ⟨hmain, _⟩
  · rw [hmain] at hl
    cases hl
    rw [hrun] at hold
    simp only [Option.map_some', Option.some.injEq] at hold
    have hpc := chanRun_ret_wg p q r _ _ sC s hrun x4 hret
    obtain ⟨st3, hscan3, hout3⟩ := scan_settled p q r approx gaps s x4 hpc hold hret
      [Slice.fixed (refProd p q r ((List.range (p * q)).map (fun t => rng t))
          ((List.range (r * q)).map (fun t => rng (p * q + t)))),
        Slice.fixed x2, Slice.fixed x3, Slice.live]
      [Line.duration (clock 1 - clock 0), Line.duration (clock 3 - clock 2),
        Line.duration (clock 5 - clock 4), Line.duration (clock 7 - clock 6)] 0
    rw [hscan] at hscan3
    cases hscan3
    refine ⟨_, x2, x3, s.mem.prod, basicMul_eq p q r _ _ h1 h2, hx2, hx3, ?_, ?_⟩
    · rw [hrun]
      rfl
    · rw [hout3]
      rfl
  · rw [hmain] at hl
    cases hl

/-- C10: the equality report of `main` is not complete and exact, because the
slice that `concurrentMulOuterChan` returned is still written while the two
loops compare it.  In the run below (`p = 2`, `q = 2`, `r = 1`) the call returns
`[12, 24]` with one buffer not yet added; the receiving goroutine adds it after
the eighth comparison, and `main` prints the lines for `(0, 3)` and `(1, 3)`
only: not the lines for `(2, 3)`, `(3, 0)`, `(3, 1)`, `(3, 2)` that the
returned output `[12, 24]` calls for, and two lines too many for the final
content `[17, 39]`.  When the receiving goroutine holds no buffer as `main`
goes on, the claim holds: a run of `main` that ends prints, after the four
`Duration` lines, exactly the mismatch lines of the four outputs, and for every
list of fixed outputs the line `(i, j)` is among the mismatch lines if and only
if outputs `i` and `j` exist and the library test fails on them, no line occurs
twice, there is none when all outputs pass the test, and when every pair that
avoids the index `c` passes every line contains `c`. -/
theorem harness_report_reads_live_slice :
    main 100 2 2 1 (fun n => ((n : Int) + 1)) (fun n => 10 * (n : Int))
        (fun x y => decide (x = y))
        [(0, 0), (0, 0), (0, 0), (1, 0), (1, 0), (1, 0)] [0, 0, 0, 1, 1, 1]
        [ChanThread.worker 0, ChanThread.worker 1, ChanThread.worker 1, ChanThread.reducer,
          ChanThread.worker 0, ChanThread.worker 1, ChanThread.worker 0, ChanThread.caller]
        (fun n => if n = 8 then [ChanThread.reducer] else [])
      = Outcome.returned [Line.duration 10, Line.duration 10, Line.duration 10,
          Line.duration 10, Line.differ 0 3, Line.differ 1 3]
    ∧ mismatchLines (fun x y => decide (x = y))
        ([[17, 39], [17, 39], [17, 39], [12, 24]] : List (List Int))
      = [Line.differ 0 3, Line.differ 1 3, Line.differ 2 3, Line.differ 3 0, Line.differ 3 1,
          Line.differ 3 2]
    ∧ mismatchLines (fun x y => decide (x = y))
        ([[17, 39], [17, 39], [17, 39], [17, 39]] : List (List Int)) = []
    ∧ (∀ (maxLen p q r : Nat) (rng : Nat → F) (clock : Nat → Int)
        (approx : List F → List F → Bool)
        (sI : List (Nat × Nat)) (sO : List Nat) (sC : List ChanThread)
        (gaps : Nat → List ChanThread),
        maxLen < 9223372036854775808 → p * q ≤ maxLen → r * q ≤ maxLen →
        (concurrentMulOuterChanRun p q r ((List.range (p * q)).map (fun t => rng t))
            ((List.range (r * q)).map (fun t => rng (p * q + t))) sC).map (fun s => s.holding)
          = some none →
        ∀ lines, main maxLen p q r rng clock approx sI sO sC gaps = Outcome.returned lines →
          ∃ x1 x2 x3 x4,
            basicMul p q r ((List.range (p * q)).map (fun t => rng t))
              ((List.range (r * q)).map (fun t => rng (p * q + t))) = some x1
            ∧ concurrentMulInner p q r ((List.range (p * q)).map (fun t => rng t))
              ((List.range (r * q)).map (fun t => rng (p * q + t))) sI = Outcome.returned x2
            ∧ concurrentMulOuter p q r ((List.range (p * q)).map (fun t => rng t))
              ((List.range (r * q)).map (fun t => rng (p * q + t))) sO = Outcome.returned x3
            ∧ (concurrentMulOuterChanRun p q r ((List.range (p * q)).map (fun t => rng t))
                ((List.range (r * q)).map (fun t => rng (p * q + t))) sC).map
                (fun s => s.mem.prod) = some x4
            ∧ lines = [Line.duration (clock 1 - clock 0), Line.duration (clock 3 - clock 2),
                  Line.duration (clock 5 - clock 4), Line.duration (clock 7 - clock 6)]
                ++ mismatchLines approx [x1, x2, x3, x4])
    ∧ (∀ (approx : List F → List F → Bool) (prod : List (List F)),
        (∀ i j, Line.differ i j ∈ mismatchLines approx prod
          ↔ ∃ x y, prod[i]? = some x ∧ prod[j]? = some y ∧ approx x y = false)
        ∧ (∀ d, Line.duration d ∉ mismatchLines approx prod)
        ∧ (mismatchLines approx prod).Nodup
        ∧ ((∀ x ∈ prod, ∀ y ∈ prod, approx x y = true) → mismatchLines approx prod = [])
        ∧ (∀ c, (∀ i j x y, i ≠ c → j ≠ c → prod[i]? = some x → prod[j]? = some y →
              approx x y = true) →
            ∀ i j, Line.differ i j ∈ mismatchLines approx prod → i = c ∨ j = c)) := by
  refine ⟨by decide, by decide, by decide, ?_, ?_⟩
  · intro maxLen p q r rng clock approx sI sO sC gaps hmax hpq hrq hold lines hl
    exact main_settled maxLen p q r rng clock approx sI sO sC gaps hmax hpq hrq hold lines hl
  · intro approx prod
    exact ⟨mem_mismatchLines approx prod, duration_not_mem_mismatchLines approx prod,
      mismatchLines_nodup approx prod, mismatchLines_nil_of_all approx prod,
      mismatchLines_contains approx prod⟩

theorem harness_report_reads_live_slice_witness :
    ∃ x1 x2 x3 x4,
      basicMul 1 1 1 ((List.range (1 * 1)).map (fun t => ((t : Nat) : Int) + 1))
        ((List.range (1 * 1)).map (fun t => ((1 * 1 + t : Nat) : Int) + 1)) = some x1
      ∧ concurrentMulInner 1 1 1 ((List.range (1 * 1)).map (fun t => ((t : Nat) : Int) + 1))
        ((List.range (1 * 1)).map (fun t => ((1 * 1 + t : Nat) : Int) + 1))
        [(0, 0), (0, 0)] = Outcome.returned x2
      ∧ concurrentMulOuter 1 1 1 ((List.range (1 * 1)).map (fun t => ((t : Nat) : Int) + 1))
        ((List.range (1 * 1)).map (fun t => ((1 * 1 + t : Nat) : Int) + 1))
        [0, 0, 0] = Outcome.returned x3
      ∧ (concurrentMulOuterChanRun 1 1 1
          ((List.range (1 * 1)).map (fun t => ((t : Nat) : Int) + 1))
          ((List.range (1 * 1)).map (fun t => ((1 * 1 + t : Nat) : Int) + 1))
          [ChanThread.worker 0, ChanThread.worker 0, ChanThread.reducer, ChanThread.worker 0,
            ChanThread.caller]).map (fun s => s.mem.prod) = some x4
      ∧ [Line.duration 10, Line.duration 10, Line.duration 10, Line.duration 10]
        = [Line.duration (10 * ((1 : Nat) : Int) - 10 * ((0 : Nat) : Int)),
            Line.duration (10 * ((3 : Nat) : Int) - 10 * ((2 : Nat) : Int)),
            Line.duration (10 * ((5 : Nat) : Int) - 10 * ((4 : Nat) : Int)),
            Line.duration (10 * ((7 : Nat) : Int) - 10 * ((6 : Nat) : Int))]
          ++ mismatchLines (fun x y => decide (x = y)) [x1, x2, x3, x4] :=
  (harness_report_reads_live_slice (F := Int)).2.2.2.1 100 1 1 1
    (fun n => ((n : Int) + 1)) (fun n => 10 * (n : Int)) (fun x y => decide (x = y))
    [(0, 0), (0, 0)] [0, 0, 0]
    [ChanThread.worker 0, ChanThread.worker 0, ChanThread.reducer, ChanThread.worker 0,
      ChanThread.caller] (fun _ => [ChanThread.reducer])
    (by decide) (by decide) (by decide) (by decide)
    [Line.duration 10, Line.duration 10, Line.duration 10, Line.duration 10] (by decide)

end Harness

end MatrixMultiply

namespace Reddit

section UniqueFacts

variable {α : Type} [LinearOrder α]

theorem sorted_getElem?_le (s : List α) (hs : s.Sorted (fun a b => a ≤ b)) (u1 u2 : Nat)
    (a b : α) (hle : u1 ≤ u2) (ha : s[u1]? = some a) (hb : s[u2]? = some b) : a ≤ b := by
  obtain ⟨h1, rfl⟩ := List.getElem?_eq_some.1 ha
  obtain ⟨h2, rfl⟩ := List.getElem?_eq_some.1 hb
  rcases Nat.lt_or_eq_of_le hle with hlt | heq
  · exact List.pairwise_iff_getElem.1 hs u1 u2 h1 h2 hlt
  · subst heq
    exact le_rfl

theorem uniqueInv_init (s : List α) (hne : s ≠ []) : UniqueInv s s 0 0 where
  len := rfl
  ij := le_rfl
  jn := Nat.zero_le _
  ilt := List.length_pos.2 hne
  tail := fun _ _ => rfl
  sorted := by
    intro t1 t2 a b h1 h2
    omega
  sub := by
    intro t a ht ha
    have : t = 0 := by omega
    subst this
    exact ⟨0, le_rfl, ha⟩
  sup := by
    intro u a hu
    omega

theorem uniqueInv_last_le (s arr : List α) (i j : Nat) (h : UniqueInv s arr i j)
    (t : Nat) (a b : α) (ht : t ≤ i) (ha : arr[t]? = some a) (hb : arr[i]? = some b) : a ≤ b := by
  rcases Nat.lt_or_eq_of_le ht with hlt | heq
  · exact le_of_lt (h.sorted t i a b hlt le_rfl ha hb)
  · subst heq
    rw [ha] at hb
    cases hb
    exact le_rfl

theorem uniqueInv_write (s arr : List α) (hs : s.Sorted (fun a b => a ≤ b)) (i j : Nat)
    (h : UniqueInv s arr i j) (a b : α) (hj : j < s.length)
    (ha : arr[j]? = some a) (hb : arr[i]? = some b) (hab : a ≠ b) :
    i + 1 < s.length ∧ UniqueInv s (arr.set (i + 1) a) (i + 1) j := by
  have hsj : s[j]? = some a := by rw [← h.tail j le_rfl, ha]
  have hij : i + 1 ≤ j := by
    rcases Nat.lt_or_eq_of_le h.ij with hlt | heq
    · exact hlt
    · exfalso
      subst heq
      rw [ha] at hb
      cases hb
      exact hab rfl
  have hblt : b < a := by
    obtain ⟨u, hu, hub⟩ := h.sub i b le_rfl hb
    have hle : b ≤ a := sorted_getElem?_le s hs u j b a hu hub hsj
    exact lt_of_le_of_ne hle (fun e => hab e.symm)
  have hi1 : i + 1 < arr.length := by
    rw [h.len]
    omega
  have hget : ∀ t, t ≤ i → (arr.set (i + 1) a)[t]? = arr[t]? := by
    intro t ht
    rw [List.getElem?_set, if_neg (by omega)]
  have hnew : (arr.set (i + 1) a)[i + 1]? = some a := by
    rw [List.getElem?_set, if_pos rfl, if_pos hi1]
  refine ⟨by omega, ?_⟩
  refine ⟨by rw [List.length_set, h.len], hij, h.jn, by omega, ?_, ?_, ?_, ?_⟩
  · intro t ht
    rw [List.getElem?_set]
    by_cases e : i + 1 = t
    · rw [if_pos e, if_pos hi1]
      have : t = j := by omega
      rw [this, hsj]
    · rw [if_neg e]
      exact h.tail t ht
  · intro t1 t2 c d h12 h2 hc hd
    rw [hget t1 (by omega)] at hc
    rcases Nat.lt_or_eq_of_le h2 with hlt | heq
    · rw [hget t2 (by omega)] at hd
      exact h.sorted t1 t2 c d h12 (by omega) hc hd
    · subst heq
      rw [hnew] at hd
      cases hd
      exact lt_of_le_of_lt (uniqueInv_last_le s arr i j h t1 c b (by omega) hc hb) hblt
  · intro t c ht hc
    rcases Nat.lt_or_eq_of_le ht with hlt | heq
    · rw [hget t (by omega)] at hc
      exact h.sub t c (by omega) hc
    · subst heq
      rw [hnew] at hc
      cases hc
      exact ⟨j, le_rfl, hsj⟩
  · intro u c hu hc
    obtain ⟨t, ht, htc⟩ := h.sup u c hu hc
    exact ⟨t, by omega, by rw [hget t ht]; exact htc⟩

theorem uniqueInv_skip (s arr : List α) (i j : Nat) (h : UniqueInv s arr i j) (a : α)
    (hj : j < s.length) (ha : arr[j]? = some a) (hb : arr[i]? = some a) :
    UniqueInv s arr i (j + 1) := by
  have hsj : s[j]? = some a := by rw [← h.tail j le_rfl, ha]
  refine ⟨h.len, by have := h.ij; omega, hj, h.ilt, fun t ht => h.tail t (by omega), h.sorted,
    ?_, ?_⟩
  · intro t c ht hc
    obtain ⟨u, hu, huc⟩ := h.sub t c ht hc
    exact ⟨u, by omega, huc⟩
  · intro u c hu hc
    rcases Nat.lt_or_eq_of_le (Nat.le_of_lt_succ hu) with hlt | heq
    · exact h.sup u c hlt hc
    · subst heq
      rw [hsj] at hc
      cases hc
      exact ⟨i, le_rfl, hb⟩

theorem uniqueLoop_spec (s : List α) (hs : s.Sorted (fun a b => a ≤ b)) :
    ∀ (fuel : Nat) (arr : List α) (i j : Nat), UniqueInv s arr i j →
      (s.length - j) + (s.length - 1 - i) < fuel →
      ∃ arr2 i2, uniqueLoop fuel arr i j = Run.done (arr2, i2)
        ∧ UniqueInv s arr2 i2 s.length := by
  intro fuel
  induction fuel with
  | zero =>
    intro arr i j _ hf
    omega
  | succ fuel ih =>
    intro arr i j h hf
    unfold uniqueLoop
    by_cases hj : j < arr.length
    · rw [if_pos hj]
      have hjs : j < s.length := by rw [← h.len]; exact hj
      have hi : i < arr.length := by rw [h.len]; exact h.ilt
      have ha : arr[j]? = some arr[j] := List.getElem?_eq_getElem hj
      have hb : arr[i]? = some arr[i] := List.getElem?_eq_getElem hi
      rw [ha, hb]
      simp only
      by_cases hab : arr[j] ≠ arr[i]
      · rw [if_pos hab]
        obtain ⟨hi1, hinv⟩ := uniqueInv_write s arr hs i j h _ _ hjs ha hb hab
        rw [if_pos (by rw [h.len]; exact hi1)]
        exact ih _ _ _ hinv (by omega)
      · rw [if_neg hab]
        have he : arr[j] = arr[i] := not_not.1 hab
        have hinv := uniqueInv_skip s arr i j h _ hjs ha (by rw [hb, he])
        exact ih _ _ _ hinv (by omega)
    · rw [if_neg hj]
      have hjn : j = s.length := by
        have := h.jn
        have := h.len
        omega
      subst hjn
      exact ⟨arr, i, rfl, h⟩

theorem unique_of_nonempty (x spare : List α) (hne : x ≠ []) :
    ∃ arr i, uniqueMem x = Run.done (arr, i)
      ∧ unique x spare = Run.done (arr.take (i + 1))
      ∧ arr.length = x.length
      ∧ (arr.take (i + 1)).Sorted (fun a b => a < b)
      ∧ (∀ a, a ∈ arr.take (i + 1) ↔ a ∈ x)
      ∧ (arr.take (i + 1)).length ≤ x.length := by
  have hlen : (x.insertionSort (fun a b => a ≤ b)).length = x.length :=
    List.length_insertionSort _ x
  have hsne : x.insertionSort (fun a b => a ≤ b) ≠ [] := by
    intro e
    rw [e] at hlen
    exact hne (List.length_eq_zero.1 hlen.symm)
  have hs : (x.insertionSort (fun a b => a ≤ b)).Sorted (fun a b => a ≤ b) :=
    List.sorted_insertionSort _ x
  obtain ⟨arr, i, hrun, hinv⟩ := uniqueLoop_spec _ hs (2 * x.length + 1) _ 0 0
    (uniqueInv_init _ hsne) (by rw [hlen]; omega)
  have hmem : uniqueMem x = Run.done (arr, i) := hrun
  have hilt : i < arr.length := by
    rw [hinv.len]
    exact hinv.ilt
  refine ⟨arr, i, hmem, ?_, by rw [hinv.len, hlen], ?_, ?_, ?_⟩
  · unfold unique
    rw [hmem]
    simp only
    rw [if_pos (by omega), List.take_append_of_le_length (by omega)]
  · rw [List.Sorted, List.pairwise_iff_getElem]
    intro t1 t2 h1 h2 h12
    rw [List.length_take] at h1 h2
    rw [List.getElem_take, List.getElem_take]
    exact hinv.sorted t1 t2 _ _ h12 (by omega)
      (List.getElem?_eq_getElem (by omega)) (List.getElem?_eq_getElem (by omega))
  · intro a
    rw [← (List.perm_insertionSort (fun a b => a ≤ b) x).mem_iff]
    constructor
    · intro ha
      obtain ⟨t, ht⟩ := List.mem_iff_getElem?.1 ha
      rw [List.getElem?_take] at ht
      split_ifs at ht with hlt
      obtain ⟨u, _, hu⟩ := hinv.sub t a (by omega) ht
      exact List.mem_iff_getElem?.2 ⟨u, hu⟩
    · intro ha
      obtain ⟨u, hu⟩ := List.mem_iff_getElem?.1 ha
      have hul : u < (x.insertionSort (fun a b => a ≤ b)).length :=
        (List.getElem?_eq_some.1 hu).1
      obtain ⟨t, ht, hta⟩ := hinv.sup u a hul hu
      exact List.mem_iff_getElem?.2 ⟨t, by rw [List.getElem?_take, if_pos (by omega)]; exact hta⟩
  · rw [List.length_take, hinv.len, hlen]
    exact Nat.min_le_right _ _

/-- C12: `unique` on the empty slice does not return the empty slice.  With no
spare capacity (a nil slice, as `allUsers` is when no record was kept) the
slice expression `x[0 : i+1]` panics, and with spare capacity the call returns
one element of the backing array that is not a value of `x`.  For every
non-empty `x` the claim holds: the call returns the first `i+1` elements of the
provided slice, which are strictly ascending, are exactly the values that occur
in `x`, and are at most `len(x)` many. -/
theorem unique_fails_on_the_empty_slice :
    unique ([] : List α) [] = Run.panicked
    ∧ (∀ (a : α) (rest : List α), unique [] (a :: rest) = Run.done [a])
    ∧ ∀ (x spare : List α), x ≠ [] →
        ∃ arr i, uniqueMem x = Run.done (arr, i)
          ∧ unique x spare = Run.done (arr.take (i + 1))
          ∧ arr.length = x.length
          ∧ (arr.take (i + 1)).Sorted (fun a b => a < b)
          ∧ (∀ a, a ∈ arr.take (i + 1) ↔ a ∈ x)
          ∧ (arr.take (i + 1)).length ≤ x.length := by
  refine ⟨?_, ?_, ?_⟩
  · simp [unique, uniqueMem, uniqueLoop]
  · intro a rest
    simp [unique, uniqueMem, uniqueLoop]
  · intro x spare hne
    exact unique_of_nonempty x spare hne

theorem unique_fails_on_the_empty_slice_witness :
    (["b", "a", "b"] : List String) ≠ []
    ∧ ∃ arr i, uniqueMem (["b", "a", "b"] : List String) = Run.done (arr, i)
        ∧ unique (["b", "a", "b"] : List String) [] = Run.done (arr.take (i + 1))
        ∧ arr.length = (["b", "a", "b"] : List String).length
        ∧ (arr.take (i + 1)).Sorted (fun a b => a < b)
        ∧ (∀ a, a ∈ arr.take (i + 1) ↔ a ∈ (["b", "a", "b"] : List String))
        ∧ (arr.take (i + 1)).length ≤ (["b", "a", "b"] : List String).length :=
  ⟨by decide, (unique_fails_on_the_empty_slice (α := String)).2.2 ["b", "a", "b"] []
    (by decide)⟩

end UniqueFacts

section GetDataFacts

theorem getData_snoc (d : Data) (records : List Record) (r : Record) :
    getData d (records ++ [r]) = getDataStep (getData d records) r := by
  simp only [getData, List.foldl_append, List.foldl_cons, List.foldl_nil]

theorem getData_userThreads_last (records : List Record)
    (hkept : ∀ r, r ∈ records → r.Author ≠ "[deleted]")
    (hno : ∀ r, r ∈ records → ∀ r2, r2 ∈ records → r.Author ≠ r2.threadId) (u : String) :
    (getData Data.init records).userThreads u
      = match (records.filter (fun r => r.Author = u)).getLast? with
        | none => []
        | some r => [r.threadId] := by
  induction records using List.reverseRecOn generalizing u with
  | nil => rfl
  | append_singleton rs r ih =>
    have hkept2 : ∀ r, r ∈ rs → r.Author ≠ "[deleted]" :=
      fun r hr => hkept r (List.mem_append_left _ hr)
    have hno2 : ∀ r, r ∈ rs → ∀ r2, r2 ∈ rs → r.Author ≠ r2.threadId :=
      fun r hr r2 hr2 => hno r (List.mem_append_left _ hr) r2 (List.mem_append_left _ hr2)
    have hr : r ∈ rs ++ [r] := List.mem_append_right _ (List.mem_singleton_self r)
    have hempty : (getData Data.init rs).userThreads r.threadId = [] := by
      rw [ih hkept2 hno2 r.threadId]
      have hf : rs.filter (fun r2 => r2.Author = r.threadId) = [] := by
        rw [List.filter_eq_nil_iff]
        intro r2 hr2
        simp only [decide_eq_true_eq]
        exact hno r2 (List.mem_append_left _ hr2) r hr
      rw [hf]
      rfl
    rw [getData_snoc]
    unfold getDataStep
    rw [if_neg (hkept r hr)]
    simp only [List.filter_append]
    by_cases hu : r.Author = u
    · subst hu
      rw [Function.update_same, hempty]
      simp [List.filter_cons]
    · rw [Function.update_noteq (fun e => hu e.symm), ih hkept2 hno2 u]
      simp [List.filter_cons, hu]

/-- C13: `getData` does not collect in `userThreads[u]` the threads that `u`
commented on.  The statement
`userThreads[r.Author] = append(userThreads[id], id)` reads the map at the
thread id instead of at the author, so each record replaces the entry of its
author.  After two records by `alice` on the threads `t5_a:t3_x` and
`t5_a:t3_y`, `userThreads["alice"]` is `["t5_a:t3_y"]` and does not contain
`t5_a:t3_x`, while `threadUsers` (the sibling statement) holds `alice` for both
threads.  In general, when no author is named like a thread id, after `getData`
the entry of `u` holds only the thread id of the last record by `u`. -/
theorem getData_userThreads_keeps_only_the_last_thread :
    (getData Data.init
        [Record.mk "alice" 0 "" 0 "c1" "" "t5_a" "t3_x" "" "",
         Record.mk "alice" 0 "" 0 "c2" "" "t5_a" "t3_y" "" ""]).userThreads "alice"
      = ["t5_a:t3_y"]
    ∧ "t5_a:t3_x" ∉ (getData Data.init
        [Record.mk "alice" 0 "" 0 "c1" "" "t5_a" "t3_x" "" "",
         Record.mk "alice" 0 "" 0 "c2" "" "t5_a" "t3_y" "" ""]).userThreads "alice"
    ∧ (getData Data.init
        [Record.mk "alice" 0 "" 0 "c1" "" "t5_a" "t3_x" "" "",
         Record.mk "alice" 0 "" 0 "c2" "" "t5_a" "t3_y" "" ""]).threadUsers "t5_a:t3_x"
      = ["alice"]
    ∧ (getData Data.init
        [Record.mk "alice" 0 "" 0 "c1" "" "t5_a" "t3_x" "" "",
         Record.mk "alice" 0 "" 0 "c2" "" "t5_a" "t3_y" "" ""]).threadUsers "t5_a:t3_y"
      = ["alice"]
    ∧ ∀ (records : List Record), (∀ r, r ∈ records → r.Author ≠ "[deleted]") →
        (∀ r, r ∈ records → ∀ r2, r2 ∈ records → r.Author ≠ r2.threadId) →
        ∀ u, (getData Data.init records).userThreads u
          = match (records.filter (fun r => r.Author = u)).getLast? with
            | none => []
            | some r => [r.threadId] := by
  refine ⟨by decide, by decide, by decide, by decide, ?_⟩
  intro records hkept hno u
  exact getData_userThreads_last records hkept hno u

theorem getData_userThreads_keeps_only_the_last_thread_witness :
    (getData Data.init
        [Record.mk "bob" 0 "" 0 "c1" "" "t5_a" "t3_x" "" "",
         Record.mk "bob" 0 "" 0 "c2" "" "t5_b" "t3_z" "" ""]).userThreads "bob"
      = match ([Record.mk "bob" 0 "" 0 "c1" "" "t5_a" "t3_x" "" "",
          Record.mk "bob" 0 "" 0 "c2" "" "t5_b" "t3_z" "" ""].filter
            (fun r => r.Author = "bob")).getLast? with
        | none => []
        | some r => [r.threadId] :=
  getData_userThreads_keeps_only_the_last_thread.2.2.2.2
    [Record.mk "bob" 0 "" 0 "c1" "" "t5_a" "t3_x" "" "",
     Record.mk "bob" 0 "" 0 "c2" "" "t5_b" "t3_z" "" ""]
    (by
      intro r hr
      simp only [List.mem_cons, List.mem_singleton, List.not_mem_nil, or_false] at hr
      rcases hr with rfl | rfl <;> decide)
    (by
      intro r hr r2 hr2
      simp only [List.mem_cons, List.mem_singleton, List.not_mem_nil, or_false] at hr hr2
      rcases hr with rfl | rfl <;> rcases hr2 with rfl | rfl <;> decide)
    "bob"

end GetDataFacts

section ConnectedFacts

variable {α : Type} [DecidableEq α]

theorem te_foldl (threadUsers : List (List α)) (acc : ℚ) :
    threadUsers.foldl (fun te th => te + (th.length : ℚ) * ((th.length : ℚ) - 1)) acc
      = acc + (threadUsers.map (fun th => (th.length : ℚ) * ((th.length : ℚ) - 1))).sum := by
  induction threadUsers generalizing acc with
  | nil => simp
  | cons th rest ih =>
    rw [List.foldl_cons, ih, List.map_cons, List.sum_cons]
    ring

theorem offDiag_card_le (th : List α) :
    ((th.toFinset.offDiag.card : ℕ) : ℚ) ≤ (th.length : ℚ) * ((th.length : ℚ) - 1) := by
  have hd : th.toFinset.card ≤ th.length := List.toFinset_card_le th
  have h1 : th.toFinset.offDiag.card ≤ th.length * th.length - th.length := by
    rw [Finset.offDiag_card, ← Nat.mul_sub_one, ← Nat.mul_sub_one]
    exact Nat.mul_le_mul hd (Nat.sub_le_sub_right hd 1)
  have h2 : ((th.length * th.length - th.length : ℕ) : ℚ)
      = (th.length : ℚ) * ((th.length : ℚ) - 1) := by
    rw [Nat.cast_sub (Nat.le_mul_self _), Nat.cast_mul]
    ring
  rw [← h2]
  exact_mod_cast h1

theorem connectedPairs_card_le (allUsers : List α) (threadUsers : List (List α)) :
    ((connectedPairs allUsers threadUsers).card : ℚ)
      ≤ (threadUsers.map (fun th => (th.length : ℚ) * ((th.length : ℚ) - 1))).sum := by
  induction threadUsers with
  | nil => simp [connectedPairs]
  | cons th rest ih =>
    have hsub : connectedPairs allUsers (th :: rest)
        ⊆ th.toFinset.offDiag ∪ connectedPairs allUsers rest := by
      intro uv huv
      simp only [connectedPairs, Finset.mem_filter, Finset.mem_product, List.mem_toFinset,
        List.mem_cons, exists_eq_or_imp] at huv
      obtain ⟨hU, hne, h | h⟩ := huv
      · apply Finset.mem_union_left
        rw [Finset.mem_offDiag]
        exact ⟨List.mem_toFinset.2 h.1, List.mem_toFinset.2 h.2, hne⟩
      · apply Finset.mem_union_right
        simp only [connectedPairs, Finset.mem_filter, Finset.mem_product, List.mem_toFinset]
        exact ⟨hU, hne, h⟩
    have hcard : (connectedPairs allUsers (th :: rest)).card
        ≤ th.toFinset.offDiag.card + (connectedPairs allUsers rest).card :=
      le_trans (Finset.card_le_card hsub) (Finset.card_union_le _ _)
    have hq : ((connectedPairs allUsers (th :: rest)).card : ℚ)
        ≤ (th.toFinset.offDiag.card : ℚ) + ((connectedPairs allUsers rest).card : ℚ) := by
      exact_mod_cast hcard
    rw [List.map_cons, List.sum_cons]
    linarith [offDiag_card_le th]

/-- C14: over exact arithmetic `propConnectedUB` returns an upper bound on the
proportion of connected pairs.  When `allUsers` is a duplicate-free list of at
least two users, the returned value (the sum over the threads of `m*(m-1)`
divided by `n*(n-1)`) is at least the number of ordered pairs of distinct users
that appear together in some thread, divided by the number `n*(n-1)` of ordered
pairs of distinct users; the thread lists may be any lists. -/
theorem propConnectedUB_is_an_upper_bound (allUsers : List α) (threadUsers : List (List α))
    (hnd : allUsers.Nodup) (hn : 2 ≤ allUsers.length) :
    propConnected allUsers threadUsers ≤ propConnectedUB allUsers threadUsers := by
  unfold propConnected propConnectedUB
  simp only
  rw [List.toFinset_card_of_nodup hnd, te_foldl, zero_add]
  have hn2 : (2 : ℚ) ≤ (allUsers.length : ℚ) := by exact_mod_cast hn
  have hpos : (0 : ℚ) < (allUsers.length : ℚ) * ((allUsers.length : ℚ) - 1) := by
    apply mul_pos <;> linarith
  exact div_le_div_of_nonneg_right (connectedPairs_card_le allUsers threadUsers) (le_of_lt hpos)

theorem propConnectedUB_is_an_upper_bound_witness :
    (["a", "b", "c"] : List String).Nodup ∧ 2 ≤ (["a", "b", "c"] : List String).length
    ∧ propConnected (["a", "b", "c"] : List String) [["a", "b"], ["b", "c"]]
        ≤ propConnectedUB (["a", "b", "c"] : List String) [["a", "b"], ["b", "c"]] :=
  ⟨by decide, by decide,
    propConnectedUB_is_an_upper_bound (["a", "b", "c"] : List String) [["a", "b"], ["b", "c"]]
      (by decide) (by decide)⟩

end ConnectedFacts

end Reddit

namespace Notable

section StatsFacts

variable {F : Type} [Zero F] [Add F] [Div F]

theorem foldlM_enumFrom_pos {σ β : Type} (f : σ → β → Option σ) (l : List β) :
    ∀ (n : Nat) (st : σ), 0 < n →
      (l.enumFrom n).foldlM
          (fun (st : σ) (e : Nat × β) => if e.1 = 0 then some st else f st e.2) st
        = l.foldlM f st := by
  induction l with
  | nil =>
    intro n st _
    rfl
  | cons a l ih =>
    intro n st hn
    rw [List.enumFrom_cons, List.foldlM_cons, List.foldlM_cons]
    simp only [if_neg (Nat.pos_iff_ne_zero.1 hn)]
    cases h : f st a with
    | none => rfl
    | some st2 => exact ih (n + 1) st2 (Nat.succ_pos n)

theorem foldlM_enum_skip {σ β : Type} (f : σ → β → Option σ) (l : List β) (st : σ) :
    l.enum.foldlM (fun (st : σ) (e : Nat × β) => if e.1 = 0 then some st else f st e.2) st
      = (l.drop 1).foldlM f st := by
  cases l with
  | nil => rfl
  | cons a l =>
    rw [List.enum_cons, List.foldlM_cons]
    simp only [if_true, List.drop_succ_cons, List.drop_zero]
    exact foldlM_enumFrom_pos f l 1 st Nat.one_pos

theorem convert_fold (parseFloat : String → Option F) (parseInt : String → Option Int) :
    ∀ (data : List (List String)) (out persons : List (Person F)),
      data.foldlM (fun (out : List (Person F)) (row : List String) =>
          (ConvertStructs.convertRow parseFloat parseInt row).map
            (fun person => out ++ [person])) out = some persons →
      ∃ ps, persons = out ++ ps
        ∧ List.Forall₂ (fun row p => ConvertStructs.convertRow parseFloat parseInt row = some p)
            data ps := by
  intro data
  induction data with
  | nil =>
    intro out persons h
    simp only [List.foldlM_nil] at h
    cases h
    exact ⟨[], by simp, List.Forall₂.nil⟩
  | cons row rest ih =>
    intro out persons h
    rw [List.foldlM_cons] at h
    cases hc : ConvertStructs.convertRow parseFloat parseInt row with
    | none =>
      rw [hc] at h
      cases h
    | some p =>
      rw [hc] at h
      obtain ⟨ps, hps, hall⟩ := ih (out ++ [p]) persons h
      exact ⟨p :: ps, by rw [hps]; simp, List.Forall₂.cons hc hall⟩

theorem convertRow_fields (parseFloat : String → Option F) (parseInt : String → Option Int)
    (row : List String) (p : Person F)
    (h : ConvertStructs.convertRow parseFloat parseInt row = some p) :
    (∃ s, row[2]? = some s ∧ parseInt s = some p.BYear) ∧ row[3]? = some p.BLocLabel
      ∧ (∃ s, row[7]? = some s ∧ parseInt s = some p.DYear) ∧ row[8]? = some p.DLocLabel := by
  unfold ConvertStructs.convertRow at h
  simp only [Option.bind_eq_bind, Option.bind_eq_some, Option.some.injEq] at h
  obtain ⟨_, _, _, _, _, _, _, _, byear, ⟨s2, h2, hb⟩, dyear, ⟨s7, h7, hd⟩, _, _, bl, h3, dl, h8,
    _, _, rfl⟩ := h
  exact ⟨⟨s2, h2, hb⟩, h3, ⟨s7, h7, hd⟩, h8⟩

theorem convert_cols_fold (persons : List (Person F)) :
    ∀ people : People F,
      persons.foldl (fun (people : People F) (person : Person F) =>
        ({ PrsLabel := people.PrsLabel ++ [person.PrsLabel],
           BYear := people.BYear ++ [person.BYear],
           BLocLabel := people.BLocLabel ++ [person.BLocLabel],
           BLocLat := people.BLocLat ++ [person.BLocLat],
           BLocLong := people.BLocLong ++ [person.BLocLong],
           DYear := people.DYear ++ [person.DYear],
           DLocLabel := people.DLocLabel ++ [person.DLocLabel],
           DLocLat := people.DLocLat ++ [person.DLocLat],
           DLocLong := people.DLocLong ++ [person.DLocLong],
           Gender := people.Gender ++ [person.Gender] } : People F)) people
      = { PrsLabel := people.PrsLabel ++ persons.map (fun p => p.PrsLabel),
          BYear := people.BYear ++ persons.map (fun p => p.BYear),
          BLocLabel := people.BLocLabel ++ persons.map (fun p => p.BLocLabel),
          BLocLat := people.BLocLat ++ persons.map (fun p => p.BLocLat),
          BLocLong := people.BLocLong ++ persons.map (fun p => p.BLocLong),
          DYear := people.DYear ++ persons.map (fun p => p.DYear),
          DLocLabel := people.DLocLabel ++ persons.map (fun p => p.DLocLabel),
          DLocLat := people.DLocLat ++ persons.map (fun p => p.DLocLat),
          DLocLong := people.DLocLong ++ persons.map (fun p => p.DLocLong),
          Gender := people.Gender ++ persons.map (fun p => p.Gender) } := by
  induction persons with
  | nil =>
    intro people
    simp
  | cons p rest ih =>
    intro people
    rw [List.foldl_cons, ih]
    simp

theorem convert_cols_eq (persons : List (Person F)) :
    ConvertStructsCols.convert persons
      = { PrsLabel := persons.map (fun p => p.PrsLabel),
          BYear := persons.map (fun p => p.BYear),
          BLocLabel := persons.map (fun p => p.BLocLabel),
          BLocLat := persons.map (fun p => p.BLocLat),
          BLocLong := persons.map (fun p => p.BLocLong),
          DYear := persons.map (fun p => p.DYear),
          DLocLabel := persons.map (fun p => p.DLocLabel),
          DLocLat := persons.map (fun p => p.DLocLat),
          DLocLong := persons.map (fun p => p.DLocLong),
          Gender := persons.map (fun p => p.Gender) } := by
  unfold ConvertStructsCols.convert
  rw [convert_cols_fold]
  simp

theorem foldlM_range_index {σ β : Type} (h : σ → β → σ) (l : List β) :
    ∀ st : σ, (List.range l.length).foldlM
        (fun (st : σ) (i : Nat) => (l[i]?).map (h st)) st = some (l.foldl h st) := by
  induction l with
  | nil =>
    intro st
    rfl
  | cons a l ih =>
    intro st
    rw [List.length_cons, List.range_succ_eq_map, List.foldlM_cons]
    simp only [List.getElem?_cons_zero, Option.map_some', Option.some_bind, Option.bind_eq_bind,
      List.foldl_cons]
    rw [List.foldlM_map]
    simp only [Nat.succ_eq_add_one, List.getElem?_cons_succ]
    exact ih (h st a)

theorem rows_fold (parseFloat : String → Option F) (ofInt : Int → F) (yearix locix : Nat)
    (loc : Person F → String) (yr : Person F → Int) (data : List (List String))
    (ps : List (Person F))
    (hall : List.Forall₂ (fun row p => ∃ s, row[yearix]? = some s
      ∧ parseFloat s = some (ofInt (yr p)) ∧ row[locix]? = some (loc p)) data ps) :
    ∀ st : Stats F,
      data.foldlM (fun (st : Stats F) (row : List String) =>
          match row[yearix]? with
          | none => none
          | some ys =>
            match parseFloat ys with
            | none => some st
            | some y =>
              match row[locix]? with
              | none => none
              | some loc => some (st.accumulate loc y)) st
        = some (ps.foldl (fun st p => st.accumulate (loc p) (ofInt (yr p))) st) := by
  induction hall with
  | nil =>
    intro st
    rfl
  | cons hrow _ ih =>
    intro st
    obtain ⟨s, h1, h2, h3⟩ := hrow
    rw [List.foldlM_cons, List.foldl_cons]
    simp only [h1, h2, h3, Option.some_bind, Option.bind_eq_bind]
    exact ih _

theorem getStats_rows_eq (parseFloat : String → Option F) (parseInt : String → Option Int)
    (ofInt : Int → F)
    (hparse : ∀ s n, parseInt s = some n → parseFloat s = some (ofInt n))
    (rows : List (List String)) (persons : List (Person F))
    (hconv : ConvertStructs.convert parseFloat parseInt rows = some persons)
    (bd : BirthOrDeath) :
    LocationStats.getStats parseFloat ofInt bd rows
      = some (LocationStatsStructs.getStats ofInt bd persons) := by
  unfold ConvertStructs.convert at hconv
  rw [foldlM_enum_skip (fun (out : List (Person F)) (row : List String) =>
    (ConvertStructs.convertRow parseFloat parseInt row).map (fun person => out ++ [person]))]
    at hconv
  obtain ⟨ps, hps, hall⟩ := convert_fold parseFloat parseInt _ _ _ hconv
  rw [List.nil_append] at hps
  subst hps
  cases bd with
  | birth =>
    have hall2 : List.Forall₂ (fun row (p : Person F) => ∃ s, row[2]? = some s
        ∧ parseFloat s = some (ofInt p.BYear) ∧ row[3]? = some p.BLocLabel)
        (rows.drop 1) persons := by
      apply List.Forall₂.imp _ hall
      intro row p h
      obtain ⟨⟨s, hs, hp⟩, h3, _, _⟩ := convertRow_fields parseFloat parseInt row p h
      exact ⟨s, hs, hparse s _ hp, h3⟩
    have hfold := rows_fold parseFloat ofInt 2 3 (fun p => p.BLocLabel) (fun p => p.BYear)
      _ _ hall2 Stats.empty
    unfold LocationStats.getStats LocationStatsStructs.getStats
    simp only [reduceCtorEq, if_false]
    rw [foldlM_enum_skip (fun (st : Stats F) (row : List String) =>
      match row[2]? with
      | none => none
      | some ys =>
        match parseFloat ys with
        | none => some st
        | some y =>
          match row[3]? with
          | none => none
          | some loc => some (st.accumulate loc y)), hfold]
    rfl
  | death =>
    have hall2 : List.Forall₂ (fun row (p : Person F) => ∃ s, row[7]? = some s
        ∧ parseFloat s = some (ofInt p.DYear) ∧ row[8]? = some p.DLocLabel)
        (rows.drop 1) persons := by
      apply List.Forall₂.imp _ hall
      intro row p h
      obtain ⟨_, _, ⟨s, hs, hp⟩, h8⟩ := convertRow_fields parseFloat parseInt row p h
      exact ⟨s, hs, hparse s _ hp, h8⟩
    have hfold := rows_fold parseFloat ofInt 7 8 (fun p => p.DLocLabel) (fun p => p.DYear)
      _ _ hall2 Stats.empty
    unfold LocationStats.getStats LocationStatsStructs.getStats
    simp only [if_true]
    rw [foldlM_enum_skip (fun (st : Stats F) (row : List String) =>
      match row[7]? with
      | none => none
      | some ys =>
        match parseFloat ys with
        | none => some st
        | some y =>
          match row[8]? with
          | none => none
          | some loc => some (st.accumulate loc y)), hfold]
    rfl

theorem getStats_cols_eq (ofInt : Int → F) (persons : List (Person F)) (bd : BirthOrDeath) :
    LocationStatsStructsCols.getStats ofInt bd (ConvertStructsCols.convert persons)
      = some (LocationStatsStructs.getStats ofInt bd persons) := by
  unfold LocationStatsStructsCols.getStats LocationStatsStructs.getStats
  rw [convert_cols_eq]
  simp only [List.length_map, List.getElem?_map]
  cases bd with
  | birth =>
    simp only
    have hfun : (fun (st : Stats F) (i : Nat) =>
        match Option.map (fun p => p.BLocLabel) persons[i]?,
          Option.map (fun p => p.BYear) persons[i]? with
        | some loc, some y => some (st.accumulate loc (ofInt y))
        | _, _ => none)
        = fun (st : Stats F) (i : Nat) =>
          (persons[i]?).map (fun p => st.accumulate p.BLocLabel (ofInt p.BYear)) := by
      funext st i
      cases persons[i]? <;> rfl
    rw [hfun, foldlM_range_index]
    rfl
  | death =>
    simp only
    have hfun : (fun (st : Stats F) (i : Nat) =>
        match Option.map (fun p => p.DLocLabel) persons[i]?,
          Option.map (fun p => p.DYear) persons[i]? with
        | some loc, some y => some (st.accumulate loc (ofInt y))
        | _, _ => none)
        = fun (st : Stats F) (i : Nat) =>
          (persons[i]?).map (fun p => st.accumulate p.DLocLabel (ofInt p.DYear)) := by
      funext st i
      cases persons[i]? <;> rfl
    rw [hfun, foldlM_range_index]
    rfl

/-- C16: the three statistics scripts agree.  Let `parseFloat`, `parseInt` and
`ofInt` stand for `strconv.ParseFloat(., 64)`, `strconv.ParseInt(., 10, 64)` and
`float64(.)`, where a string that parses as the integer `n` parses as the float
`float64(n)`.  For every data set `rows` that `convert_structs.go` converts
without a panic into the structs `persons`, and for both `birth` and `death`,
`getStats` of `location_stats.go` on `rows`, `getStats` of
`location_stats_structs.go` on `persons`, and `getStats` of
`location_stats_structs_cols.go` on the columns that `convert_structs_cols.go`
builds from `persons` all end without a panic with the same map `year` of mean
years and the same map `num` of counts (so the same keys, and the same argument
of `entropy`). -/
theorem location_stats_scripts_agree (parseFloat : String → Option F)
    (parseInt : String → Option Int) (ofInt : Int → F)
    (hparse : ∀ s n, parseInt s = some n → parseFloat s = some (ofInt n))
    (rows : List (List String)) (persons : List (Person F))
    (hconv : ConvertStructs.convert parseFloat parseInt rows = some persons)
    (bd : BirthOrDeath) :
    LocationStats.getStats parseFloat ofInt bd rows
        = some (LocationStatsStructs.getStats ofInt bd persons)
    ∧ LocationStatsStructsCols.getStats ofInt bd (ConvertStructsCols.convert persons)
        = some (LocationStatsStructs.getStats ofInt bd persons) :=
  ⟨getStats_rows_eq parseFloat parseInt ofInt hparse rows persons hconv bd,
    getStats_cols_eq ofInt persons bd⟩

theorem location_stats_scripts_agree_witness :
    LocationStats.getStats
        (fun s => if s = "1900" then some (1900 : Int) else if s = "1950" then some 1950
          else if s = "7" then some 7 else none)
        (fun n => n) BirthOrDeath.death
        [["name", "g", "byear", "bloc", "x", "blat", "blon", "dyear", "dloc", "x", "dlat",
            "dlon", "gender"],
          ["Ada", "f", "1900", "London", "x", "7", "7", "1950", "Paris", "x", "7", "7", "F"],
          ["Bob", "m", "1900", "London", "x", "7", "7", "1900", "Paris", "x", "7", "7", "M"]]
      = some (LocationStatsStructs.getStats (fun n => n) BirthOrDeath.death
          [Person.mk "Ada" 1900 "London" 7 7 1950 "Paris" 7 7 "F",
           Person.mk "Bob" 1900 "London" 7 7 1900 "Paris" 7 7 "M"])
    ∧ LocationStatsStructsCols.getStats (fun n => n) BirthOrDeath.death
        (ConvertStructsCols.convert
          [Person.mk "Ada" 1900 "London" (7 : Int) 7 1950 "Paris" 7 7 "F",
           Person.mk "Bob" 1900 "London" 7 7 1900 "Paris" 7 7 "M"])
      = some (LocationStatsStructs.getStats (fun n => n) BirthOrDeath.death
          [Person.mk "Ada" 1900 "London" 7 7 1950 "Paris" 7 7 "F",
           Person.mk "Bob" 1900 "London" 7 7 1900 "Paris" 7 7 "M"]) :=
  location_stats_scripts_agree
    (fun s => if s = "1900" then some (1900 : Int) else if s = "1950" then some 1950
      else if s = "7" then some 7 else none)
    (fun s => if s = "1900" then some (1900 : Int) else if s = "1950" then some 1950
      else if s = "7" then some 7 else none)
    (fun n => n) (fun _ _ h => h)
    [["name", "g", "byear", "bloc", "x", "blat", "blon", "dyear", "dloc", "x", "dlat",
        "dlon", "gender"],
      ["Ada", "f", "1900", "London", "x", "7", "7", "1950", "Paris", "x", "7", "7", "F"],
      ["Bob", "m", "1900", "London", "x", "7", "7", "1900", "Paris", "x", "7", "7", "M"]]
    [Person.mk "Ada" 1900 "London" 7 7 1950 "Paris" 7 7 "F",
     Person.mk "Bob" 1900 "London" 7 7 1900 "Paris" 7 7 "M"]
    (by decide) BirthOrDeath.death

end StatsFacts

end Notable
